import Mathlib

/-!
# A shallow embedding of `bf-gc.c`

The best-fit allocator and the mark-and-sweep collector of `src/bf-gc.c`,
translated function by function.

* Addresses and `size_t`/`intptr_t` values are natural numbers below `2^64`
  (their bit patterns); arithmetic on them wraps modulo `2^64`, and the one
  signed comparison of the source (`new_free_addr > end_addr`) goes through
  `toSigned`.
* Header memory is a total map from header addresses to `header_s` records;
  untouched memory of the anonymous mapping reads as the all-zero header.
  Payload memory is a map from byte addresses to the pointer word stored there.
  The records stand for the program's flat memory as long as the blocks in use
  (a header of 40 bytes and its payload) do not overlap: a store to one record
  then changes no other.  `Client_well_formed` shows that the blocks stay apart
  in every state reached without overflowing the frontier, and
  `flat_tracks_gc_malloc` and `flat_tracks_gc_free` that on such states
  `gc_malloc` and `gc_free` over the bytes of memory return what they return
  over the records.
* Where headers do overlap, which the unchecked overflow of `gc_malloc` makes
  reachable, the records no longer describe the program; the section `Flat`
  embeds the allocator over the bytes of memory for those states.
* The root-set stack (a linked stack of `ptr_link_s` nodes obtained from the
  host allocator) is a list of pointers, head first; the host `malloc` in
  `rs_push` is taken to succeed, so its `ERROR` branch has no counterpart.
* Loops that follow pointers take a fuel argument; running out of fuel is the
  outcome `Result.timeout`.
-/

namespace BfGc

/-! ## Constants and macros -/

/-- Number of values of a 64-bit word. -/
def W : Nat := 18446744073709551616

/-- The null pointer. -/
def NULL : Nat := 0

/-- Value of `sizeof(header_s)` on an LP64 target: two pointers, a `size_t`,
two `bool`s padded to eight bytes, and a pointer. -/
def sizeof_header_s : Nat := 40

/-- Double word size. -/
def DBL_WORD_SIZE : Nat := 16

/-- The virtual address space reserved for the heap, `GB(2)`. -/
def HEAP_SIZE : Nat := 2 * 1024 * 1024 * 1024

/-- The value `(void*)-1` that `mmap` returns on failure. -/
def MAP_FAILED : Nat := W - 1

/-- Reading of a 64-bit pattern as an `intptr_t`. -/
def toSigned (x : Nat) : Int := if x < W / 2 then (x : Int) else (x : Int) - (W : Int)

/-- Truncation of an arithmetic result to 64 bits, `x mod 2^64`.  The guard
makes the common case (no overflow) the identity. -/
def wrap (x : Nat) : Nat := if x < W then x else x % W

/-- Given a pointer to a header, obtain a pointer to the block itself. -/
def HEADER_TO_BLOCK (hp : Nat) : Nat := wrap (hp + sizeof_header_s)

/-- Given a pointer to a block, obtain a pointer to its header: the 64-bit
subtraction `bp - sizeof(header_s)`, which wraps around below 40. -/
def BLOCK_TO_HEADER (bp : Nat) : Nat :=
  wrap (if sizeof_header_s ≤ bp then bp - sizeof_header_s else bp + (W - sizeof_header_s))

/-! ## Types and structures -/

/-- The description of a heap object, as needed by the GC to find the pointers. -/
structure gc_layout_s where
  size : Nat
  num_ptrs : Nat
  ptr_offsets : List Nat
deriving DecidableEq, Repr

/-- The header for each allocated object.  `layout = none` is the null layout
pointer. -/
structure header_s where
  next : Nat
  prev : Nat
  size : Nat
  allocated : Bool
  marked : Bool
  layout : Option gc_layout_s
deriving DecidableEq, Repr

/-- Contents of a header in memory that was never written (zero pages). -/
def zero_header : header_s :=
  { next := 0, prev := 0, size := 0, allocated := false, marked := false, layout := none }

/-- The globals of `bf-gc.c` together with the memory they point into.  Header
memory `hdr` keeps one record per header address, so a store through one header
pointer changes that record only; this is the program's memory while no two
headers in use lie within 40 bytes of each other or inside a payload (see
`Tidy` and `Flat.Tracks`), and `Flat.State` is the byte image for the other
states. -/
structure State where
  free_addr : Nat
  start_addr : Nat
  end_addr : Nat
  free_list_head : Nat
  allocated_list_head : Nat
  root_set_head : List Nat
  hdr : Nat → header_s
  mem : Nat → Nat

/-- The state of the program before any call: all globals zero, memory untouched. -/
def initial_state (mem : Nat → Nat) : State :=
  { free_addr := 0, start_addr := 0, end_addr := 0, free_list_head := NULL,
    allocated_list_head := NULL, root_set_head := [], hdr := fun _ => zero_header, mem := mem }

/-- The fatal diagnostics of the program. -/
inductive Fatal where
  | mmap_failed
  | allocated_block_on_free_list
  | double_free
  | assertion_failed
deriving DecidableEq, Repr

/-- Modelled from the spec: the `ERROR` macro of the absent `safeio.h` and a failed
`assert` terminate the process with a diagnostic (spec section 7, "Fatal
structural: terminate the process"); this is the outcome `error`.  The outcome
`fault` is a read through a null or out-of-bounds pointer, and `timeout` is an
exhausted fuel budget. -/
inductive Result (α : Type) where
  | ok (a : α)
  | error (e : Fatal)
  | fault
  | timeout

/-! ## Header field writes -/

/-- The write `p->next = v`. -/
def set_next (hdr : Nat → header_s) (p v : Nat) : Nat → header_s :=
  fun a => if a = p then { hdr a with next := v } else hdr a

/-- The write `p->prev = v`. -/
def set_prev (hdr : Nat → header_s) (p v : Nat) : Nat → header_s :=
  fun a => if a = p then { hdr a with prev := v } else hdr a

/-- The write `p->size = v`. -/
def set_size (hdr : Nat → header_s) (p v : Nat) : Nat → header_s :=
  fun a => if a = p then { hdr a with size := v } else hdr a

/-- The write `p->allocated = v`. -/
def set_allocated (hdr : Nat → header_s) (p : Nat) (v : Bool) : Nat → header_s :=
  fun a => if a = p then { hdr a with allocated := v } else hdr a

/-- The write `p->marked = v`. -/
def set_marked (hdr : Nat → header_s) (p : Nat) (v : Bool) : Nat → header_s :=
  fun a => if a = p then { hdr a with marked := v } else hdr a

/-- The write `p->layout = v`. -/
def set_layout (hdr : Nat → header_s) (p : Nat) (v : Option gc_layout_s) : Nat → header_s :=
  fun a => if a = p then { hdr a with layout := v } else hdr a

/-! ## The root-set stack -/

/-- Push a pointer onto root set stack. -/
def rs_push (ptr : Nat) (s : State) : State :=
  { s with root_set_head := ptr :: s.root_set_head }

/-- Pop a pointer from the root set stack; `NULL` when the stack is empty. -/
def rs_pop (s : State) : Nat × State :=
  match s.root_set_head with
  | [] => (NULL, s)
  | ptr :: rest => (ptr, { s with root_set_head := rest })

/-- Add a pointer to the root set. -/
def gc_root_set_insert (ptr : Nat) (s : State) : State := rs_push ptr s

/-! ## Initialisation and allocation -/

/-- The initialization method; `heap` is the address `mmap` returns when it is
called. -/
def gc_init (heap : Nat) (s : State) : Result State :=
  if s.start_addr = 0 then
    if heap = MAP_FAILED then .error .mmap_failed
    else .ok { s with start_addr := heap, end_addr := wrap (heap + HEAP_SIZE), free_addr := heap }
  else .ok s

/-- The alignment padding computed at the start of `gc_malloc`.  In the source
the subtraction is carried out on `size_t`; since 16 divides `2^64` the result
is the one below for every bit pattern of `free_addr`. -/
def padding (free_addr : Nat) : Nat :=
  (sizeof_header_s + DBL_WORD_SIZE - free_addr % DBL_WORD_SIZE) % DBL_WORD_SIZE

/-- The best-fit search loop of `gc_malloc` (lines 265-292), started at
`current` with the best block found so far in `best`. -/
def find_best (hdr : Nat → header_s) (size : Nat) : Nat → Nat → Nat → Result Nat
  | 0, current, best => if current = NULL then .ok best else .timeout
  | fuel + 1, current, best =>
    if current = NULL then .ok best
    else if (hdr current).allocated then .error .allocated_block_on_free_list
    else
      let best1 :=
        if (best = NULL ∧ size ≤ (hdr current).size) ∨
           (best ≠ NULL ∧ size ≤ (hdr current).size ∧ (hdr current).size < (hdr best).size)
        then current else best
      if best1 ≠ NULL ∧ (hdr best1).size = size then .ok best1
      else find_best hdr size fuel (hdr current).next best1

/-- The tail of `gc_malloc` (lines 369-381): insert the block at the beginning
of the allocated list and return it. -/
def malloc_prepend (new_block_ptr : Nat) (s : State) : Nat × State :=
  let allocated_header_ptr := BLOCK_TO_HEADER new_block_ptr
  let h1 := set_next s.hdr allocated_header_ptr s.allocated_list_head
  let h2 := set_prev h1 allocated_header_ptr NULL
  let h3 := if (h2 allocated_header_ptr).next ≠ NULL
            then set_prev h2 (h2 allocated_header_ptr).next allocated_header_ptr else h2
  (new_block_ptr, { s with hdr := h3, allocated_list_head := allocated_header_ptr })

/-- The branch of `gc_malloc` taken when a best fit was found (lines 307-328):
unlink `best` from the free list and flag it allocated. -/
def malloc_take (best : Nat) (s : State) : State :=
  let flh := if (s.hdr best).prev = NULL then (s.hdr best).next else s.free_list_head
  let h1 := if (s.hdr best).prev = NULL then s.hdr
            else set_next s.hdr (s.hdr best).prev (s.hdr best).next
  let h2 := if (h1 best).next ≠ NULL then set_prev h1 (h1 best).next (h1 best).prev else h1
  let h3 := set_prev h2 best NULL
  let h4 := set_next h3 best NULL
  let h5 := set_allocated h4 best true
  { s with hdr := h5, free_list_head := flh }

/-- The header writes of the pointer-bumping branch of `gc_malloc`
(lines 334-343), which precede the bound check.  They are applied to the record
at `free_addr`; when a header in use starts within 40 bytes of `free_addr` the
program's stores also change that header, which `Flat.malloc_bump_header`
shows and this record update does not. -/
def malloc_bump_header (size : Nat) (s : State) : State :=
  let header_ptr := s.free_addr
  let h1 := set_next s.hdr header_ptr NULL
  let h2 := set_prev h1 header_ptr NULL
  let h3 := set_size h2 header_ptr size
  let h4 := set_allocated h3 header_ptr true
  { s with hdr := h4 }

/-- Allocate and return `size` bytes of heap space: best fit over the free
list, else pointer bumping.  Returns the block pointer (`NULL` if unsuccessful)
and the new state. -/
def gc_malloc (heap : Nat) (fuel : Nat) (size : Nat) (s : State) : Result (Nat × State) :=
  match gc_init heap s with
  | .ok s0 =>
    let s1 := { s0 with free_addr := wrap (s0.free_addr + padding s0.free_addr) }
    if size = 0 then .ok (NULL, s1)
    else
      match find_best s1.hdr size fuel s1.free_list_head NULL with
      | .ok best =>
        if best ≠ NULL then
          .ok (malloc_prepend (HEADER_TO_BLOCK best) (malloc_take best s1))
        else
          let s2 := malloc_bump_header size s1
          let new_block_ptr := HEADER_TO_BLOCK s1.free_addr
          let new_free_addr := wrap (new_block_ptr + size)
          if toSigned new_free_addr > toSigned s2.end_addr then .ok (NULL, s2)
          else .ok (malloc_prepend new_block_ptr { s2 with free_addr := new_free_addr })
      | .error e => .error e
      | .fault => .fault
      | .timeout => .timeout
  | .error e => .error e
  | .fault => .fault
  | .timeout => .timeout

/-- Deallocate a given block on the heap: move it from the allocated list to the
front of the free list. -/
def gc_free (ptr : Nat) (s : State) : Result State :=
  if ptr = NULL then .ok s
  else
    let header_ptr := BLOCK_TO_HEADER ptr
    if !(s.hdr header_ptr).allocated then .error .double_free
    else
      let alh := if (s.hdr header_ptr).prev = NULL then (s.hdr header_ptr).next
                 else s.allocated_list_head
      let h1 := if (s.hdr header_ptr).prev = NULL then s.hdr
                else set_next s.hdr (s.hdr header_ptr).prev (s.hdr header_ptr).next
      let h2 := if (h1 header_ptr).next ≠ NULL
                then set_prev h1 (h1 header_ptr).next (h1 header_ptr).prev else h1
      let h3 := set_prev h2 header_ptr NULL
      let h4 := set_next h3 header_ptr NULL
      let h5 := set_next h4 header_ptr s.free_list_head
      let h6 := set_prev h5 header_ptr NULL
      let h7 := if (h6 header_ptr).next ≠ NULL
                then set_prev h6 (h6 header_ptr).next header_ptr else h6
      let h8 := set_allocated h7 header_ptr false
      .ok { s with hdr := h8, allocated_list_head := alh, free_list_head := header_ptr }

/-- Allocate and return heap space for the structure defined by the given
`layout`. -/
def gc_new (heap : Nat) (fuel : Nat) (layout : gc_layout_s) (s : State) : Result (Nat × State) :=
  match gc_malloc heap fuel layout.size s with
  | .ok (block_ptr, s1) =>
    let header_ptr := BLOCK_TO_HEADER block_ptr
    .ok (block_ptr, { s1 with hdr := set_layout s1.hdr header_ptr (some layout) })
  | .error e => .error e
  | .fault => .fault
  | .timeout => .timeout

/-! ## The collector -/

/-- The `for` loop of `mark` (lines 522-533): `k` iterations remain and `i` is
the loop counter; each iteration reads the pointer word at
`current_ptr + ptr_offsets[i]` and pushes it. -/
def mark_children (current_ptr : Nat) (current_layout : gc_layout_s) :
    Nat → Nat → State → Result State
  | 0, _, s => .ok s
  | k + 1, i, s =>
    match current_layout.ptr_offsets[i]? with
    | none => .fault
    | some off => mark_children current_ptr current_layout k (i + 1)
        (rs_push (s.mem (wrap (current_ptr + off))) s)

/-- Traverse the heap, marking all live objects. -/
def mark : Nat → State → Result State
  | 0, s => if s.root_set_head = [] then .ok s else .timeout
  | fuel + 1, s =>
    if s.root_set_head = [] then .ok s
    else
      let current_ptr := (rs_pop s).1
      let s1 := (rs_pop s).2
      if current_ptr ≠ NULL then
        let header := BLOCK_TO_HEADER current_ptr
        let s2 := if !(s1.hdr header).marked
                  then { s1 with hdr := set_marked s1.hdr header true } else s1
        match (s2.hdr header).layout with
        | none => .fault
        | some current_layout =>
          match mark_children current_ptr current_layout current_layout.num_ptrs 0 s2 with
          | .ok s3 => mark fuel s3
          | .error e => .error e
          | .fault => .fault
          | .timeout => .timeout
      else mark fuel s1

/-- The loop of `sweep` (lines 561-580), started at `current_ptr`. -/
def sweep_loop : Nat → Nat → State → Result State
  | 0, current_ptr, s => if current_ptr = NULL then .ok s else .timeout
  | fuel + 1, current_ptr, s =>
    if current_ptr = NULL then .ok s
    else
      let next_ptr := (s.hdr current_ptr).next
      let current_block := HEADER_TO_BLOCK current_ptr
      if (s.hdr current_ptr).marked then
        sweep_loop fuel next_ptr { s with hdr := set_marked s.hdr current_ptr false }
      else
        match gc_free current_block s with
        | .ok s1 => sweep_loop fuel next_ptr s1
        | .error e => .error e
        | .fault => .fault
        | .timeout => .timeout

/-- Traverse the allocated list of objects: free each unmarked object, unmark each
marked object. -/
def sweep (fuel : Nat) (s : State) : Result State :=
  sweep_loop fuel s.allocated_list_head s

/-- Garbage collect the heap: mark, sweep, and check that the root set is empty. -/
def gc (fuel : Nat) (s : State) : Result State :=
  match mark fuel s with
  | .ok s1 =>
    match sweep fuel s1 with
    | .ok s2 => if s2.root_set_head = [] then .ok s2 else .error .assertion_failed
    | .error e => .error e
    | .fault => .fault
    | .timeout => .timeout
  | .error e => .error e
  | .fault => .fault
  | .timeout => .timeout

/-! ## Doubly linked lists in header memory -/

/-- `IsList hdr prev cur l`: following `next` from `cur` visits exactly the
headers of `l` and then reaches `NULL`, and every member's `prev` is its
predecessor (`prev` for the first). -/
def IsList (hdr : Nat → header_s) : Nat → Nat → List Nat → Prop
  | _, cur, [] => cur = NULL
  | prev, cur, x :: xs => cur = x ∧ x ≠ NULL ∧ (hdr x).prev = prev ∧ IsList hdr x (hdr x).next xs

/-- The unlinking writes shared by `gc_malloc` (lines 307-318) and `gc_free`
(lines 422-433). -/
def unlink_hdr (hdr : Nat → header_s) (b : Nat) : Nat → header_s :=
  let h1 := if (hdr b).prev = NULL then hdr else set_next hdr (hdr b).prev (hdr b).next
  if (h1 b).next ≠ NULL then set_prev h1 (h1 b).next (h1 b).prev else h1

/-- The writes that put `b` in front of the list starting at `head`. -/
def push_hdr (hdr : Nat → header_s) (b head : Nat) : Nat → header_s :=
  let h1 := set_next hdr b head
  let h2 := set_prev h1 b NULL
  if (h2 b).next ≠ NULL then set_prev h2 (h2 b).next b else h2

/-- A well-formed allocator state: `la` and `lf` are the allocated list and the
free list as they sit in header memory, they share no header and repeat none,
the `allocated` flags agree with list membership, and every header leaves room
for its 40 bytes below `2^64`. -/
structure WF (s : State) (la lf : List Nat) : Prop where
  alloc : IsList s.hdr NULL s.allocated_list_head la
  free : IsList s.hdr NULL s.free_list_head lf
  nodup : (la ++ lf).Nodup
  alloc_flag : ∀ h ∈ la, (s.hdr h).allocated = true
  free_flag : ∀ h ∈ lf, (s.hdr h).allocated = false
  bound : ∀ h ∈ la ++ lf, h + sizeof_header_s < W

/-- Header memory after the writes of `gc_free` on the header `b`
(lines 422-457), with `flh` the free-list head at the call. -/
def free_hdr (hdr : Nat → header_s) (b flh : Nat) : Nat → header_s :=
  set_allocated (push_hdr (set_next (set_prev (unlink_hdr hdr b) b NULL) b NULL) b flh) b false

/-- Best fit, in the words of the specification: `b` is a block of the list `l`
with the smallest size that is at least `request`, and the first such block in
encounter order. -/
def IsBestFit (hdr : Nat → header_s) (request : Nat) (l : List Nat) (b : Nat) : Prop :=
  ∃ l1 l2, l = l1 ++ b :: l2 ∧ request ≤ (hdr b).size ∧
    (∀ x ∈ l1, request ≤ (hdr x).size → (hdr b).size < (hdr x).size) ∧
    (∀ x ∈ l2, request ≤ (hdr x).size → (hdr b).size ≤ (hdr x).size)

/-- Header memory after the writes of `gc_malloc` that recycle the free block
`b` (lines 307-327 and 369-378), with `alh` the allocated-list head at the call. -/
def take_hdr (hdr : Nat → header_s) (b alh : Nat) : Nat → header_s :=
  push_hdr (set_allocated (set_next (set_prev (unlink_hdr hdr b) b NULL) b NULL) b true) b alh

/-- The state in which the search of `gc_malloc` starts: initialised, with the
frontier padded. -/
def padded (s : State) : State :=
  { s with free_addr := wrap (s.free_addr + padding s.free_addr) }

/-- The candidate kept by one iteration of the search loop (lines 278-281). -/
def pick_best (hdr : Nat → header_s) (size current best : Nat) : Nat :=
  if (best = NULL ∧ size ≤ (hdr current).size) ∨
     (best ≠ NULL ∧ size ≤ (hdr current).size ∧ (hdr current).size < (hdr best).size)
  then current else best

/-- The pointer words that `mark` reads from the object at `p` with layout `L`:
the words at the first `num_ptrs` offsets, in order. -/
def children (mem : Nat → Nat) (p : Nat) (L : gc_layout_s) : List Nat :=
  (L.ptr_offsets.take L.num_ptrs).map (fun off => mem (wrap (p + off)))

/-- Reachability from the root set: the non-null payload pointers found from a
registered root by following the pointer words that the layouts name. -/
inductive Reach (s : State) : Nat → Prop where
  | root {p : Nat} : p ∈ s.root_set_head → p ≠ NULL → Reach s p
  | step {p q : Nat} {L : gc_layout_s} : Reach s p →
      (s.hdr (BLOCK_TO_HEADER p)).layout = some L → q ∈ children s.mem p L → q ≠ NULL →
      Reach s q

/-- The two header memories agree on every field but `marked`. -/
def SameButMarks (h h0 : Nat → header_s) : Prop :=
  ∀ a, (h a).next = (h0 a).next ∧ (h a).prev = (h0 a).prev ∧ (h a).size = (h0 a).size ∧
    (h a).allocated = (h0 a).allocated ∧ (h a).layout = (h0 a).layout

/-- The invariant of the loop of `mark`, relating the current state `s` to the
state `s0` in which `mark` was entered; `V` is the set of pointers popped so far. -/
structure MarkInv (s0 s : State) (V : Nat → Prop) : Prop where
  frame : SameButMarks s.hdr s0.hdr
  mem_eq : s.mem = s0.mem
  globals : s.free_addr = s0.free_addr ∧ s.start_addr = s0.start_addr ∧
    s.end_addr = s0.end_addr ∧ s.free_list_head = s0.free_list_head ∧
    s.allocated_list_head = s0.allocated_list_head
  stack_reach : ∀ p ∈ s.root_set_head, p ≠ NULL → Reach s0 p
  sound : ∀ a, (s.hdr a).marked = true →
    (s0.hdr a).marked = true ∨ ∃ p, Reach s0 p ∧ a = BLOCK_TO_HEADER p
  mono : ∀ a, (s0.hdr a).marked = true → (s.hdr a).marked = true
  visited_marked : ∀ p, V p → (s.hdr (BLOCK_TO_HEADER p)).marked = true
  roots_seen : ∀ r ∈ s0.root_set_head, r ≠ NULL → V r ∨ r ∈ s.root_set_head
  closed : ∀ p, V p → ∀ L, (s0.hdr (BLOCK_TO_HEADER p)).layout = some L →
    ∀ q ∈ children s0.mem p L, q ≠ NULL → V q ∨ q ∈ s.root_set_head

/-- The effect of the sweep loop on the header fields and the globals, when it
visits the members `rest` of the allocated list starting from the state `s`:
visited marks are cleared, visited unmarked blocks are flagged free. -/
structure SweepSpec (s s1 : State) (rest : List Nat) : Prop where
  marked : ∀ a, (s1.hdr a).marked = if a ∈ rest then false else (s.hdr a).marked
  allocated : ∀ a, (s1.hdr a).allocated =
    if a ∈ rest ∧ (s.hdr a).marked = false then false else (s.hdr a).allocated
  size : ∀ a, (s1.hdr a).size = (s.hdr a).size
  layout : ∀ a, (s1.hdr a).layout = (s.hdr a).layout
  globals : s1.free_addr = s.free_addr ∧ s1.start_addr = s.start_addr ∧
    s1.end_addr = s.end_addr ∧ s1.root_set_head = s.root_set_head ∧ s1.mem = s.mem

/-- The pointer words of the block with header `h`, as `mark` reads them; none
when the block has no layout. -/
def block_words (s : State) (h : Nat) : List Nat :=
  match (s.hdr h).layout with
  | none => []
  | some L => children s.mem (HEADER_TO_BLOCK h) L

/-- Every root and every pointer word named by a layout of an allocated block
is null or the payload address of an allocated block. -/
def ValidPointers (s : State) (la : List Nat) : Prop :=
  (∀ r ∈ s.root_set_head, r = NULL ∨ r ∈ la.map HEADER_TO_BLOCK) ∧
  (∀ h ∈ la, ∀ q ∈ block_words s h, q = NULL ∨ q ∈ la.map HEADER_TO_BLOCK)

/-! ## Concrete heaps -/

/-- The layout of an `int` object in `gctest.c`. -/
def int_layout : gc_layout_s := { size := 4, num_ptrs := 0, ptr_offsets := [] }

/-- The layout of the array of two `int*` in `gctest.c` run with two objects. -/
def array_layout : gc_layout_s := { size := 16, num_ptrs := 2, ptr_offsets := [0, 8] }

/-- The heap of `gctest.c` with two objects just before its call of `gc()`,
for a mapping at address 4096: the array at 4144 and the two ints at 4208 and
4256, the array registered as root. -/
def gctest_state : State :=
  { free_addr := 4260, start_addr := 4096, end_addr := 4096 + HEAP_SIZE,
    free_list_head := NULL, allocated_list_head := 4216, root_set_head := [4144],
    hdr := fun a =>
      if a = 4216 then { next := 4168, prev := 0, size := 4, allocated := true,
                         marked := false, layout := some int_layout }
      else if a = 4168 then { next := 4104, prev := 4216, size := 4, allocated := true,
                              marked := false, layout := some int_layout }
      else if a = 4104 then { next := 0, prev := 4168, size := 16, allocated := true,
                              marked := false, layout := some array_layout }
      else zero_header,
    mem := fun a => if a = 4144 then 4208 else if a = 4152 then 4256 else 0 }

/-- The value of a result, or the given default when there is none. -/
def Result.getD {α : Type} (r : Result α) (d : α) : α :=
  match r with
  | .ok a => a
  | _ => d

/-- The heap of `gctest.c` after its call of `gc()`. -/
def gctest_after : State := (gc 10 gctest_state).getD gctest_state

/-- The heap of `gctest_state` with the second `int` as the only root: the array
and the first `int` are garbage. -/
def garbage_state : State := { gctest_state with root_set_head := [4208] }

/-- The heap `garbage_state` after `gc()`. -/
def garbage_after : State := (gc 10 garbage_state).getD garbage_state

/-- The heap `gctest_state` after `gc_free` of the first `int` (payload 4208). -/
def gctest_freed : State := (gc_free 4208 gctest_state).getD gctest_state

/-- An initialised, empty heap mapped at address 4096. -/
def fresh_state : State :=
  { free_addr := 4096, start_addr := 4096, end_addr := 4096 + HEAP_SIZE,
    free_list_head := NULL, allocated_list_head := NULL, root_set_head := [],
    hdr := fun _ => zero_header, mem := fun _ => 0 }

/-- A heap with three free blocks of sizes 128, 96 and 64 (free-list order) and
no allocated block, as after allocating 64, 128 and 96 bytes and freeing the
three blocks. -/
def bestfit_state : State :=
  { free_addr := 4528, start_addr := 4096, end_addr := 4096 + HEAP_SIZE,
    free_list_head := 4216, allocated_list_head := NULL, root_set_head := [],
    hdr := fun a =>
      if a = 4216 then { next := 4392, prev := 0, size := 128, allocated := false,
                         marked := false, layout := none }
      else if a = 4392 then { next := 4104, prev := 4216, size := 96, allocated := false,
                              marked := false, layout := none }
      else if a = 4104 then { next := 0, prev := 4392, size := 64, allocated := false,
                              marked := false, layout := none }
      else zero_header,
    mem := fun _ => 0 }

/-- A layout of size zero. -/
def empty_layout : gc_layout_s := { size := 0, num_ptrs := 0, ptr_offsets := [] }

/-- The state after `gc_new(int_layout)` on the fresh heap. -/
def fresh_new : State := ((gc_new 4096 0 int_layout fresh_state).getD (NULL, fresh_state)).2

/-- The heap of `gctest_state` with two null roots around the array root. -/
def nullroots_state : State := { gctest_state with root_set_head := [NULL, 4144, NULL] }

/-- The heap `nullroots_state` after `gc()`. -/
def nullroots_after : State := (gc 10 nullroots_state).getD nullroots_state

/-- Push the pointers of a list, first to last. -/
def rs_push_all : List Nat → State → State
  | [], s => s
  | p :: ps, s => rs_push_all ps (rs_push p s)

/-- Pop `k` times; the popped pointers in the order in which they came off. -/
def rs_pop_n : Nat → State → List Nat × State
  | 0, s => ([], s)
  | k + 1, s => ((rs_pop s).1 :: (rs_pop_n k (rs_pop s).2).1, (rs_pop_n k (rs_pop s).2).2)

/-- The layout of an object with one pointer field at offset 0. -/
def link_layout : gc_layout_s := { size := 8, num_ptrs := 1, ptr_offsets := [0] }

/-- Two blocks `a` (payload 4144) and `b` (payload 4192) with `a[0] = b` and
`b[0] = a`, and `a` as the only root. -/
def cycle_state : State :=
  { free_addr := 4200, start_addr := 4096, end_addr := 4096 + HEAP_SIZE,
    free_list_head := NULL, allocated_list_head := 4152, root_set_head := [4144],
    hdr := fun a =>
      if a = 4152 then { next := 4104, prev := 0, size := 8, allocated := true,
                         marked := false, layout := some link_layout }
      else if a = 4104 then { next := 0, prev := 4152, size := 8, allocated := true,
                              marked := false, layout := some link_layout }
      else zero_header,
    mem := fun a => if a = 4144 then 4192 else if a = 4192 then 4144 else 0 }

/-- The states that `mark` runs through on `cycle_state`. -/
def OnCycle (s : State) : Prop :=
  (s.hdr 4104).layout = some link_layout ∧ (s.hdr 4152).layout = some link_layout ∧
    s.mem 4144 = 4192 ∧ s.mem 4192 = 4144 ∧
    (s.root_set_head = [4144] ∨ s.root_set_head = [4192])

/-- The fresh heap after `gc_malloc(8)`, with the returned block (payload 4144,
no layout) registered as root. -/
def nolayout_state : State :=
  gc_root_set_insert 4144 ((gc_malloc 4096 0 8 fresh_state).getD (NULL, fresh_state)).2

/-- The heap of `gctest_state` with an empty root set. -/
def noroots_state : State := { gctest_state with root_set_head := [] }

/-- The heap of `gctest_state` with two null roots only. -/
def onlynull_state : State := { gctest_state with root_set_head := [NULL, NULL] }

/-- The heap of `gctest.c` after a second `gc()`. -/
def gctest_twice : State := (gc 10 gctest_after).getD gctest_after

/-- A header address is null or 8 modulo 16, so that its payload, 40 bytes
further, lies on a double-word boundary. -/
def AlignedPtr (x : Nat) : Prop := x = NULL ∨ x % DBL_WORD_SIZE = 8

/-- Every link stored in header memory is an aligned header address, and so is
the address of every header flagged allocated. -/
def AlignedHdr (hdr : Nat → header_s) : Prop :=
  ∀ a, AlignedPtr (hdr a).next ∧ AlignedPtr (hdr a).prev ∧
    ((hdr a).allocated = true → a % DBL_WORD_SIZE = 8)

/-- The alignment invariant of a state. -/
def Aligned (s : State) : Prop :=
  AlignedPtr s.free_list_head ∧ AlignedPtr s.allocated_list_head ∧ AlignedHdr s.hdr

/-- The states that a client can reach from the initial state by calls of
`gc_malloc`, `gc_new`, `gc_free`, `gc` and `gc_root_set_insert` that return, and
by writes to payload memory; `heap` is the address of the mapping. -/
inductive Reachable (heap : Nat) : State → Prop where
  | init (mem : Nat → Nat) : Reachable heap (initial_state mem)
  | malloc {s s1 : State} {fuel n p : Nat} : Reachable heap s →
      gc_malloc heap fuel n s = .ok (p, s1) → Reachable heap s1
  | new {s s1 : State} {fuel p : Nat} {L : gc_layout_s} : Reachable heap s →
      gc_new heap fuel L s = .ok (p, s1) → Reachable heap s1
  | free {s s1 : State} {p : Nat} : Reachable heap s →
      gc_free p s = .ok s1 → Reachable heap s1
  | collect {s s1 : State} {fuel : Nat} : Reachable heap s →
      gc fuel s = .ok s1 → Reachable heap s1
  | root_insert {s : State} (p : Nat) : Reachable heap s →
      Reachable heap (gc_root_set_insert p s)
  | store {s : State} (mem : Nat → Nat) : Reachable heap s →
      Reachable heap { s with mem := mem }

/-- A heap whose free list holds one block of size 4 (header 4104, payload
4144), as after `gc_new(int_layout)` and `gc_free` of the result. -/
def exact_state : State :=
  { free_addr := 4148, start_addr := 4096, end_addr := 4096 + HEAP_SIZE,
    free_list_head := 4104, allocated_list_head := NULL, root_set_head := [],
    hdr := fun a =>
      if a = 4104 then { next := 0, prev := 0, size := 4, allocated := false,
                         marked := false, layout := some int_layout }
      else zero_header,
    mem := fun _ => 0 }

/-- The heap `bestfit_state` after `gc_malloc(80)`, which recycles the 96-byte
block (header 4392, payload 4432). -/
def bestfit_taken : State :=
  ((gc_malloc 4096 4 80 bestfit_state).getD (NULL, bestfit_state)).2

/-- The initial state after `gc_malloc(2^64 - 48)` with the mapping at 4096: the
frontier has wrapped back to 4096. -/
def wrapped_state : State :=
  ((gc_malloc 4096 0 18446744073709551568 (initial_state (fun _ => 0))).getD
    (NULL, initial_state (fun _ => 0))).2

/-- The state `wrapped_state` after `gc_malloc(1)`. -/
def selflink_state : State := ((gc_malloc 4096 0 1 wrapped_state).getD (NULL, wrapped_state)).2

/-- The heap of `gctest.c` after `mark()`. -/
def gctest_marked : State := (mark 10 gctest_state).getD gctest_state

/-- A bound on request sizes and on the end of the mapping, `2^61`, below which
the frontier arithmetic of `gc_malloc` cannot overflow. -/
def MAX_REQUEST : Nat := 2305843009213693952

/-- The blocks of the headers `a` and `b`, each a header of 40 bytes followed
by `size` bytes of payload, do not overlap. -/
def Apart (hdr : Nat → header_s) (a b : Nat) : Prop :=
  a + sizeof_header_s + (hdr a).size ≤ b ∨ b + sizeof_header_s + (hdr b).size ≤ a

/-- A tidy state: the lists are well formed, every listed block (header and
payload) ends at or below the frontier, no two listed blocks overlap, the
frontier is at most the padding past `end_addr`, and the heap ends where the
mapping at `heap` ends.  In a tidy state a store to one listed header changes
no byte of another listed header or payload, and a header written at or above
the frontier changes no byte of a listed block. -/
structure Tidy (heap : Nat) (s : State) (la lf : List Nat) : Prop where
  wf : WF s la lf
  below : ∀ h ∈ la ++ lf, h < s.free_addr
  extent : ∀ h ∈ la ++ lf, h + sizeof_header_s + (s.hdr h).size ≤ s.free_addr
  apart : (la ++ lf).Pairwise (Apart s.hdr)
  frontier : s.free_addr ≤ s.end_addr ∨
    (s.free_addr % DBL_WORD_SIZE = 8 ∧ s.free_addr ≤ s.end_addr + 15)
  end_le : s.end_addr ≤ heap + HEAP_SIZE
  uninit : s.start_addr = 0 → s.free_addr = 0

/-- The states reached by a client that keeps to the contract: requests of at
most `MAX_REQUEST` bytes, and `gc_free` only on `NULL` or on the payload of a
block of the allocated list. -/
inductive Client (heap : Nat) : State → Prop where
  | init (mem : Nat → Nat) : Client heap (initial_state mem)
  | malloc {s s1 : State} {fuel n p : Nat} : Client heap s → n ≤ MAX_REQUEST →
      gc_malloc heap fuel n s = .ok (p, s1) → Client heap s1
  | new {s s1 : State} {fuel p : Nat} {L : gc_layout_s} : Client heap s →
      L.size ≤ MAX_REQUEST → gc_new heap fuel L s = .ok (p, s1) → Client heap s1
  | free {s s1 : State} {p : Nat} : Client heap s →
      (p = NULL ∨ ∃ l h, IsList s.hdr NULL s.allocated_list_head l ∧ h ∈ l ∧
        p = HEADER_TO_BLOCK h) →
      gc_free p s = .ok s1 → Client heap s1
  | collect {s s1 : State} {fuel : Nat} : Client heap s →
      gc fuel s = .ok s1 → Client heap s1
  | root_insert {s : State} (p : Nat) : Client heap s →
      Client heap (gc_root_set_insert p s)
  | store {s : State} (mem : Nat → Nat) : Client heap s →
      Client heap { s with mem := mem }

/-! ## The allocator in flat memory

The same allocator functions over the bytes of memory, for states in which
headers overlap: a header is the 40 bytes at its address, with `next`, `prev`
and `size` as little-endian 8-byte words at offsets 0, 8 and 16, `allocated` and
`marked` as bytes at offsets 24 and 25 and `layout` at offset 32, so that a
store to one header changes every header and payload that shares the bytes. -/

namespace Flat

/-- The process image as the allocator sees it: its five globals and the bytes
of memory, on a little-endian LP64 target. -/
structure State where
  free_addr : Nat
  start_addr : Nat
  end_addr : Nat
  free_list_head : Nat
  allocated_list_head : Nat
  mem : Nat → Nat

/-- The image at program start: zeroed globals and zeroed memory. -/
def initial_state : State :=
  { free_addr := 0, start_addr := 0, end_addr := 0, free_list_head := NULL,
    allocated_list_head := NULL, mem := fun _ => 0 }

/-- The byte at address `a`. -/
def load8 (m : Nat → Nat) (a : Nat) : Nat := m (wrap a)

/-- Memory after a one-byte store. -/
def store8 (m : Nat → Nat) (a v : Nat) : Nat → Nat :=
  fun x => if x = wrap a then v % 256 else m x

/-- The 8-byte word at address `a`. -/
def load64 (m : Nat → Nat) (a : Nat) : Nat :=
  load8 m a + 256 * (load8 m (a + 1) + 256 * (load8 m (a + 2) + 256 * (load8 m (a + 3) +
    256 * (load8 m (a + 4) + 256 * (load8 m (a + 5) + 256 * (load8 m (a + 6) +
    256 * load8 m (a + 7)))))))

/-- Memory after an 8-byte store. -/
def store64 (m : Nat → Nat) (a v : Nat) : Nat → Nat :=
  store8 (store8 (store8 (store8 (store8 (store8 (store8 (store8 m a v)
    (a + 1) (v / 256)) (a + 2) (v / 65536)) (a + 3) (v / 16777216))
    (a + 4) (v / 4294967296)) (a + 5) (v / 1099511627776))
    (a + 6) (v / 281474976710656)) (a + 7) (v / 72057594037927936)

/-- Field `next` of the header at `h` (offset 0). -/
def next (m : Nat → Nat) (h : Nat) : Nat := load64 m h
/-- Field `prev` of the header at `h` (offset 8). -/
def prev (m : Nat → Nat) (h : Nat) : Nat := load64 m (h + 8)
/-- Field `size` of the header at `h` (offset 16). -/
def size (m : Nat → Nat) (h : Nat) : Nat := load64 m (h + 16)
/-- Field `allocated` of the header at `h` (offset 24, one byte). -/
def allocated (m : Nat → Nat) (h : Nat) : Bool := load8 m (h + 24) != 0

/-- The store `h->next = v`. -/
def set_next (m : Nat → Nat) (h v : Nat) : Nat → Nat := store64 m h v
/-- The store `h->prev = v`. -/
def set_prev (m : Nat → Nat) (h v : Nat) : Nat → Nat := store64 m (h + 8) v
/-- The store `h->size = v`. -/
def set_size (m : Nat → Nat) (h v : Nat) : Nat → Nat := store64 m (h + 16) v
/-- The store `h->allocated = v`, one byte. -/
def set_allocated (m : Nat → Nat) (h : Nat) (v : Bool) : Nat → Nat :=
  store8 m (h + 24) (if v then 1 else 0)

/-- The initialization method; `heap` is the address `mmap` returns when it is
called. -/
def gc_init (heap : Nat) (s : State) : Result State :=
  if s.start_addr = 0 then
    if heap = MAP_FAILED then .error .mmap_failed
    else .ok { s with start_addr := heap, end_addr := wrap (heap + HEAP_SIZE), free_addr := heap }
  else .ok s

/-- The best-fit search loop of `gc_malloc` (lines 265-292). -/
def find_best (m : Nat → Nat) (n : Nat) : Nat → Nat → Nat → Result Nat
  | 0, current, best => if current = NULL then .ok best else .timeout
  | fuel + 1, current, best =>
    if current = NULL then .ok best
    else if allocated m current then .error .allocated_block_on_free_list
    else
      let best1 :=
        if (best = NULL ∧ n ≤ size m current) ∨
           (best ≠ NULL ∧ n ≤ size m current ∧ size m current < size m best)
        then current else best
      if best1 ≠ NULL ∧ size m best1 = n then .ok best1
      else find_best m n fuel (next m current) best1

/-- The tail of `gc_malloc` (lines 369-381). -/
def malloc_prepend (new_block_ptr : Nat) (s : State) : Nat × State :=
  let allocated_header_ptr := BLOCK_TO_HEADER new_block_ptr
  let m1 := set_next s.mem allocated_header_ptr s.allocated_list_head
  let m2 := set_prev m1 allocated_header_ptr NULL
  let m3 := if next m2 allocated_header_ptr ≠ NULL
            then set_prev m2 (next m2 allocated_header_ptr) allocated_header_ptr else m2
  (new_block_ptr, { s with mem := m3, allocated_list_head := allocated_header_ptr })

/-- The branch of `gc_malloc` taken when a best fit was found (lines 307-328). -/
def malloc_take (best : Nat) (s : State) : State :=
  let flh := if prev s.mem best = NULL then next s.mem best else s.free_list_head
  let m1 := if prev s.mem best = NULL then s.mem
            else set_next s.mem (prev s.mem best) (next s.mem best)
  let m2 := if next m1 best ≠ NULL then set_prev m1 (next m1 best) (prev m1 best) else m1
  let m3 := set_prev m2 best NULL
  let m4 := set_next m3 best NULL
  let m5 := set_allocated m4 best true
  { s with mem := m5, free_list_head := flh }

/-- The header stores of the pointer-bumping branch (lines 340-343), which
precede the bound check. -/
def malloc_bump_header (n : Nat) (s : State) : State :=
  let header_ptr := s.free_addr
  let m1 := set_next s.mem header_ptr NULL
  let m2 := set_prev m1 header_ptr NULL
  let m3 := set_size m2 header_ptr n
  let m4 := set_allocated m3 header_ptr true
  { s with mem := m4 }

/-- Allocate and return `size` bytes of heap space, in flat memory. -/
def gc_malloc (heap : Nat) (fuel : Nat) (n : Nat) (s : State) : Result (Nat × State) :=
  match gc_init heap s with
  | .ok s0 =>
    let s1 := { s0 with free_addr := wrap (s0.free_addr + padding s0.free_addr) }
    if n = 0 then .ok (NULL, s1)
    else
      match find_best s1.mem n fuel s1.free_list_head NULL with
      | .ok best =>
        if best ≠ NULL then
          .ok (malloc_prepend (HEADER_TO_BLOCK best) (malloc_take best s1))
        else
          let s2 := malloc_bump_header n s1
          let new_block_ptr := HEADER_TO_BLOCK s1.free_addr
          let new_free_addr := wrap (new_block_ptr + n)
          if toSigned new_free_addr > toSigned s2.end_addr then .ok (NULL, s2)
          else .ok (malloc_prepend new_block_ptr { s2 with free_addr := new_free_addr })
      | .error e => .error e
      | .fault => .fault
      | .timeout => .timeout
  | .error e => .error e
  | .fault => .fault
  | .timeout => .timeout

/-- Deallocate a given block on the heap, in flat memory. -/
def gc_free (ptr : Nat) (s : State) : Result State :=
  if ptr = NULL then .ok s
  else
    let header_ptr := BLOCK_TO_HEADER ptr
    if !(allocated s.mem header_ptr) then .error .double_free
    else
      let alh := if prev s.mem header_ptr = NULL then next s.mem header_ptr
                 else s.allocated_list_head
      let m1 := if prev s.mem header_ptr = NULL then s.mem
                else set_next s.mem (prev s.mem header_ptr) (next s.mem header_ptr)
      let m2 := if next m1 header_ptr ≠ NULL
                then set_prev m1 (next m1 header_ptr) (prev m1 header_ptr) else m1
      let m3 := set_prev m2 header_ptr NULL
      let m4 := set_next m3 header_ptr NULL
      let m5 := set_next m4 header_ptr s.free_list_head
      let m6 := set_prev m5 header_ptr NULL
      let m7 := if next m6 header_ptr ≠ NULL
                then set_prev m6 (next m6 header_ptr) header_ptr else m6
      let m8 := set_allocated m7 header_ptr false
      .ok { s with mem := m8, allocated_list_head := alh, free_list_head := header_ptr }

end Flat

/-- The record `r` describes the header at `h` in the memory `m`, in the fields
that the allocator reads. -/
def Flat.Describes (m : Nat → Nat) (h : Nat) (r : header_s) : Prop :=
  Flat.next m h = r.next ∧ Flat.prev m h = r.prev ∧ Flat.size m h = r.size ∧
    Flat.allocated m h = r.allocated

/-- The records `hdr` describe the headers of `L` in the memory `m`, every cell
of which holds a byte. -/
def Flat.RepMem (m : Nat → Nat) (hdr : Nat → header_s) (L : List Nat) : Prop :=
  (∀ x, m x < 256) ∧ ∀ h ∈ L, Flat.Describes m h (hdr h)

/-- The flat image `f` and the record state `s` agree: the same globals, and
the records of `s` describe the headers of `L` in the memory of `f`. -/
structure Flat.Rep (f : Flat.State) (s : BfGc.State) (L : List Nat) : Prop where
  free_addr : f.free_addr = s.free_addr
  start_addr : f.start_addr = s.start_addr
  end_addr : f.end_addr = s.end_addr
  free_list_head : f.free_list_head = s.free_list_head
  allocated_list_head : f.allocated_list_head = s.allocated_list_head
  mem : Flat.RepMem f.mem s.hdr L

/-- The header at `a` is the header `b` itself or lies at least 40 bytes from it,
for every `b` of `L`; and it ends below `2^64`. -/
def Flat.Clear (a : Nat) (L : List Nat) : Prop :=
  a + sizeof_header_s ≤ W ∧
    ∀ b ∈ L, b + sizeof_header_s ≤ W ∧
      (b = a ∨ a + sizeof_header_s ≤ b ∨ b + sizeof_header_s ≤ a)

/-- Every header of `L` is clear of the others. -/
def Flat.Spaced (L : List Nat) : Prop := ∀ a ∈ L, Flat.Clear a L

/-- The unlinking stores shared by `gc_malloc` (lines 307-318) and `gc_free`
(lines 422-433), in flat memory. -/
def Flat.unlink (m : Nat → Nat) (b : Nat) : Nat → Nat :=
  let m1 := if Flat.prev m b = NULL then m else Flat.set_next m (Flat.prev m b) (Flat.next m b)
  if Flat.next m1 b ≠ NULL then Flat.set_prev m1 (Flat.next m1 b) (Flat.prev m1 b) else m1

/-- The stores that put `b` in front of the list starting at `head`, in flat
memory. -/
def Flat.push (m : Nat → Nat) (b head : Nat) : Nat → Nat :=
  let m1 := Flat.set_next m b head
  let m2 := Flat.set_prev m1 b NULL
  if Flat.next m2 b ≠ NULL then Flat.set_prev m2 (Flat.next m2 b) b else m2

/-- The image in which the search of `gc_malloc` starts: initialised, with the
frontier padded. -/
def Flat.padded (f : Flat.State) : Flat.State :=
  { f with free_addr := wrap (f.free_addr + padding f.free_addr) }

/-- The flat image `f` tracks the record state `s`: `s` is tidy, and its records
describe its listed headers in the memory of `f`. -/
def Flat.Tracks (heap : Nat) (f : Flat.State) (s : BfGc.State) : Prop :=
  ∃ la lf, Tidy heap s la lf ∧ Flat.Rep f s (la ++ lf)

/-- The links of the headers of `L` stay within `L`. -/
def Closed (hdr : Nat → header_s) (L : List Nat) : Prop :=
  ∀ h ∈ L, ((hdr h).next = NULL ∨ (hdr h).next ∈ L) ∧ ((hdr h).prev = NULL ∨ (hdr h).prev ∈ L)

/-! ## Theorems -/

/-! ### 64-bit arithmetic -/

theorem wrap_of_lt (x : Nat) (h : x < W) : wrap x = x := by
  unfold wrap; rw [if_pos h]

theorem wrap_def (x : Nat) : wrap x = x % W := by
  unfold wrap
  split_ifs with h
  · exact (Nat.mod_eq_of_lt h).symm
  · rfl

theorem wrap_lt (x : Nat) : wrap x < W := by
  rw [wrap_def]; exact Nat.mod_lt _ (by unfold W; omega)

theorem BLOCK_TO_HEADER_def (bp : Nat) :
    BLOCK_TO_HEADER bp = (bp + (W - sizeof_header_s)) % W := by
  unfold BLOCK_TO_HEADER
  rw [wrap_def]
  unfold W sizeof_header_s
  split_ifs <;> omega

theorem HEADER_TO_BLOCK_def (hp : Nat) :
    HEADER_TO_BLOCK hp = (hp + sizeof_header_s) % W := by
  unfold HEADER_TO_BLOCK
  rw [wrap_def]

/-! ### Header field writes -/

@[simp] theorem set_next_next (hdr : Nat → header_s) (p v a : Nat) :
    (set_next hdr p v a).next = if a = p then v else (hdr a).next := by
  unfold set_next; split <;> rfl
@[simp] theorem set_next_prev (hdr : Nat → header_s) (p v a : Nat) :
    (set_next hdr p v a).prev = (hdr a).prev := by
  unfold set_next; split <;> rfl
@[simp] theorem set_next_size (hdr : Nat → header_s) (p v a : Nat) :
    (set_next hdr p v a).size = (hdr a).size := by
  unfold set_next; split <;> rfl
@[simp] theorem set_next_allocated (hdr : Nat → header_s) (p v a : Nat) :
    (set_next hdr p v a).allocated = (hdr a).allocated := by
  unfold set_next; split <;> rfl
@[simp] theorem set_next_marked (hdr : Nat → header_s) (p v a : Nat) :
    (set_next hdr p v a).marked = (hdr a).marked := by
  unfold set_next; split <;> rfl
@[simp] theorem set_next_layout (hdr : Nat → header_s) (p v a : Nat) :
    (set_next hdr p v a).layout = (hdr a).layout := by
  unfold set_next; split <;> rfl

@[simp] theorem set_prev_next (hdr : Nat → header_s) (p v a : Nat) :
    (set_prev hdr p v a).next = (hdr a).next := by
  unfold set_prev; split <;> rfl
@[simp] theorem set_prev_prev (hdr : Nat → header_s) (p v a : Nat) :
    (set_prev hdr p v a).prev = if a = p then v else (hdr a).prev := by
  unfold set_prev; split <;> rfl
@[simp] theorem set_prev_size (hdr : Nat → header_s) (p v a : Nat) :
    (set_prev hdr p v a).size = (hdr a).size := by
  unfold set_prev; split <;> rfl
@[simp] theorem set_prev_allocated (hdr : Nat → header_s) (p v a : Nat) :
    (set_prev hdr p v a).allocated = (hdr a).allocated := by
  unfold set_prev; split <;> rfl
@[simp] theorem set_prev_marked (hdr : Nat → header_s) (p v a : Nat) :
    (set_prev hdr p v a).marked = (hdr a).marked := by
  unfold set_prev; split <;> rfl
@[simp] theorem set_prev_layout (hdr : Nat → header_s) (p v a : Nat) :
    (set_prev hdr p v a).layout = (hdr a).layout := by
  unfold set_prev; split <;> rfl

@[simp] theorem set_size_next (hdr : Nat → header_s) (p v a : Nat) :
    (set_size hdr p v a).next = (hdr a).next := by
  unfold set_size; split <;> rfl
@[simp] theorem set_size_prev (hdr : Nat → header_s) (p v a : Nat) :
    (set_size hdr p v a).prev = (hdr a).prev := by
  unfold set_size; split <;> rfl
@[simp] theorem set_size_size (hdr : Nat → header_s) (p v a : Nat) :
    (set_size hdr p v a).size = if a = p then v else (hdr a).size := by
  unfold set_size; split <;> rfl
@[simp] theorem set_size_allocated (hdr : Nat → header_s) (p v a : Nat) :
    (set_size hdr p v a).allocated = (hdr a).allocated := by
  unfold set_size; split <;> rfl
@[simp] theorem set_size_marked (hdr : Nat → header_s) (p v a : Nat) :
    (set_size hdr p v a).marked = (hdr a).marked := by
  unfold set_size; split <;> rfl
@[simp] theorem set_size_layout (hdr : Nat → header_s) (p v a : Nat) :
    (set_size hdr p v a).layout = (hdr a).layout := by
  unfold set_size; split <;> rfl

@[simp] theorem set_allocated_next (hdr : Nat → header_s) (p : Nat) (v : Bool) (a : Nat) :
    (set_allocated hdr p v a).next = (hdr a).next := by
  unfold set_allocated; split <;> rfl
@[simp] theorem set_allocated_prev (hdr : Nat → header_s) (p : Nat) (v : Bool) (a : Nat) :
    (set_allocated hdr p v a).prev = (hdr a).prev := by
  unfold set_allocated; split <;> rfl
@[simp] theorem set_allocated_size (hdr : Nat → header_s) (p : Nat) (v : Bool) (a : Nat) :
    (set_allocated hdr p v a).size = (hdr a).size := by
  unfold set_allocated; split <;> rfl
@[simp] theorem set_allocated_allocated (hdr : Nat → header_s) (p : Nat) (v : Bool) (a : Nat) :
    (set_allocated hdr p v a).allocated = if a = p then v else (hdr a).allocated := by
  unfold set_allocated; split <;> rfl
@[simp] theorem set_allocated_marked (hdr : Nat → header_s) (p : Nat) (v : Bool) (a : Nat) :
    (set_allocated hdr p v a).marked = (hdr a).marked := by
  unfold set_allocated; split <;> rfl
@[simp] theorem set_allocated_layout (hdr : Nat → header_s) (p : Nat) (v : Bool) (a : Nat) :
    (set_allocated hdr p v a).layout = (hdr a).layout := by
  unfold set_allocated; split <;> rfl

@[simp] theorem set_marked_next (hdr : Nat → header_s) (p : Nat) (v : Bool) (a : Nat) :
    (set_marked hdr p v a).next = (hdr a).next := by
  unfold set_marked; split <;> rfl
@[simp] theorem set_marked_prev (hdr : Nat → header_s) (p : Nat) (v : Bool) (a : Nat) :
    (set_marked hdr p v a).prev = (hdr a).prev := by
  unfold set_marked; split <;> rfl
@[simp] theorem set_marked_size (hdr : Nat → header_s) (p : Nat) (v : Bool) (a : Nat) :
    (set_marked hdr p v a).size = (hdr a).size := by
  unfold set_marked; split <;> rfl
@[simp] theorem set_marked_allocated (hdr : Nat → header_s) (p : Nat) (v : Bool) (a : Nat) :
    (set_marked hdr p v a).allocated = (hdr a).allocated := by
  unfold set_marked; split <;> rfl
@[simp] theorem set_marked_marked (hdr : Nat → header_s) (p : Nat) (v : Bool) (a : Nat) :
    (set_marked hdr p v a).marked = if a = p then v else (hdr a).marked := by
  unfold set_marked; split <;> rfl
@[simp] theorem set_marked_layout (hdr : Nat → header_s) (p : Nat) (v : Bool) (a : Nat) :
    (set_marked hdr p v a).layout = (hdr a).layout := by
  unfold set_marked; split <;> rfl

@[simp] theorem set_layout_next (hdr : Nat → header_s) (p : Nat) (v : Option gc_layout_s) (a : Nat) :
    (set_layout hdr p v a).next = (hdr a).next := by
  unfold set_layout; split <;> rfl
@[simp] theorem set_layout_prev (hdr : Nat → header_s) (p : Nat) (v : Option gc_layout_s) (a : Nat) :
    (set_layout hdr p v a).prev = (hdr a).prev := by
  unfold set_layout; split <;> rfl
@[simp] theorem set_layout_size (hdr : Nat → header_s) (p : Nat) (v : Option gc_layout_s) (a : Nat) :
    (set_layout hdr p v a).size = (hdr a).size := by
  unfold set_layout; split <;> rfl
@[simp] theorem set_layout_allocated (hdr : Nat → header_s) (p : Nat) (v : Option gc_layout_s) (a : Nat) :
    (set_layout hdr p v a).allocated = (hdr a).allocated := by
  unfold set_layout; split <;> rfl
@[simp] theorem set_layout_marked (hdr : Nat → header_s) (p : Nat) (v : Option gc_layout_s) (a : Nat) :
    (set_layout hdr p v a).marked = (hdr a).marked := by
  unfold set_layout; split <;> rfl
@[simp] theorem set_layout_layout (hdr : Nat → header_s) (p : Nat) (v : Option gc_layout_s) (a : Nat) :
    (set_layout hdr p v a).layout = if a = p then v else (hdr a).layout := by
  unfold set_layout; split <;> rfl

/-! ### Lists in memory -/

theorem IsList_frame {hdr hdr1 : Nat → header_s} :
    ∀ (l : List Nat) (p c : Nat),
      (∀ x ∈ l, (hdr1 x).next = (hdr x).next ∧ (hdr1 x).prev = (hdr x).prev) →
      IsList hdr p c l → IsList hdr1 p c l
  | [], _, _, _, h => h
  | x :: xs, p, c, hf, h => by
    obtain ⟨h1, h2, h3, h4⟩ := h
    have hx := hf x (List.mem_cons_self _ _)
    refine ⟨h1, h2, by rw [hx.2]; exact h3, ?_⟩
    rw [hx.1]
    exact IsList_frame xs x _ (fun y hy => hf y (List.mem_cons_of_mem _ hy)) h4

theorem IsList_ne_null {hdr : Nat → header_s} :
    ∀ (l : List Nat) (p c : Nat), IsList hdr p c l → ∀ x ∈ l, x ≠ NULL
  | [], _, _, _, _, hx => by cases hx
  | y :: ys, _, _, h, x, hx => by
    obtain ⟨_, h2, _, h4⟩ := h
    rcases List.mem_cons.1 hx with rfl | hx
    · exact h2
    · exact IsList_ne_null ys _ _ h4 x hx

theorem IsList_head {hdr : Nat → header_s} (l : List Nat) (p c : Nat)
    (h : IsList hdr p c l) : c = l.headD NULL := by
  cases l with
  | nil => exact h
  | cons x xs => exact h.1

/-- The `next` field of a member is the following member, or `NULL` for the last. -/
theorem IsList_next {hdr : Nat → header_s} :
    ∀ (l1 l2 : List Nat) (p c x : Nat), IsList hdr p c (l1 ++ x :: l2) →
      (hdr x).next = l2.headD NULL ∧ IsList hdr x (hdr x).next l2
  | [], l2, p, c, x, h => by
    obtain ⟨_, _, _, h4⟩ := h
    exact ⟨IsList_head _ _ _ h4, h4⟩
  | y :: ys, l2, p, c, x, h => by
    obtain ⟨_, _, _, h4⟩ := h
    exact IsList_next ys l2 y _ x h4

/-- The `prev` field of a member is the list's predecessor (for the first
member) or another member. -/
theorem IsList_prev_mem {hdr : Nat → header_s} :
    ∀ (l : List Nat) (p c b : Nat), IsList hdr p c l → l.Nodup → b ∈ l →
      (c = b ∧ (hdr b).prev = p) ∨ (c ≠ b ∧ (hdr b).prev ∈ l)
  | [], _, _, _, _, _, hb => by cases hb
  | x :: xs, p, c, b, h, hn, hb => by
    obtain ⟨h1, h2, h3, h4⟩ := h
    rcases List.mem_cons.1 hb with rfl | hb
    · exact Or.inl ⟨h1, h3⟩
    · right
      have hxb : x ≠ b := fun e => (List.nodup_cons.1 hn).1 (e ▸ hb)
      refine ⟨by rw [h1]; exact hxb, ?_⟩
      rcases IsList_prev_mem xs x _ b h4 (List.nodup_cons.1 hn).2 hb with h | h
      · rw [h.2]; exact List.mem_cons_self _ _
      · exact List.mem_cons_of_mem _ h.2

/-- The `next` field of a member is `NULL` or a later member. -/
theorem IsList_next_mem {hdr : Nat → header_s} :
    ∀ (l : List Nat) (p c b : Nat), IsList hdr p c l → b ∈ l →
      (hdr b).next = NULL ∨ (hdr b).next ∈ l
  | [], _, _, _, _, hb => by cases hb
  | x :: xs, p, c, b, h, hb => by
    obtain ⟨h1, h2, h3, h4⟩ := h
    rcases List.mem_cons.1 hb with rfl | hb
    · cases xs with
      | nil => exact Or.inl h4
      | cons y ys => right; rw [h4.1]; simp
    · rcases IsList_next_mem xs x _ b h4 hb with h | h
      · exact Or.inl h
      · exact Or.inr (List.mem_cons_of_mem _ h)

theorem unlink_hdr_size (hdr : Nat → header_s) (b a : Nat) :
    (unlink_hdr hdr b a).size = (hdr a).size := by
  unfold unlink_hdr; split_ifs <;> simp
theorem unlink_hdr_allocated (hdr : Nat → header_s) (b a : Nat) :
    (unlink_hdr hdr b a).allocated = (hdr a).allocated := by
  unfold unlink_hdr; split_ifs <;> simp
theorem unlink_hdr_marked (hdr : Nat → header_s) (b a : Nat) :
    (unlink_hdr hdr b a).marked = (hdr a).marked := by
  unfold unlink_hdr; split_ifs <;> simp
theorem unlink_hdr_layout (hdr : Nat → header_s) (b a : Nat) :
    (unlink_hdr hdr b a).layout = (hdr a).layout := by
  unfold unlink_hdr; split_ifs <;> simp

/-- The `next` fields after unlinking `b`. -/
theorem unlink_hdr_next (hdr : Nat → header_s) (b a : Nat) :
    (unlink_hdr hdr b a).next =
      if a = (hdr b).prev ∧ (hdr b).prev ≠ NULL then (hdr b).next else (hdr a).next := by
  have key : ∀ h1 : Nat → header_s,
      ((if (h1 b).next ≠ NULL then set_prev h1 (h1 b).next (h1 b).prev else h1) a).next =
        (h1 a).next := by
    intro h1
    split_ifs with h
    · rw [set_prev_next]
    · rfl
  unfold unlink_hdr
  rw [key]
  by_cases h1 : (hdr b).prev = NULL
  · simp only [h1, if_true, ne_eq, not_true_eq_false, and_false, if_false]
  · by_cases ha : a = (hdr b).prev
    · simp only [h1, ha, if_false, set_next_next, if_true, ne_eq, not_false_eq_true, and_self]
    · simp only [h1, ha, if_false, set_next_next, ne_eq, false_and]

/-- For a header `b` that is not its own predecessor, the `prev` fields after
unlinking. -/
theorem unlink_hdr_prev (hdr : Nat → header_s) (b a : Nat) (hb : (hdr b).prev ≠ b) :
    (unlink_hdr hdr b a).prev =
      if a = (hdr b).next ∧ (hdr b).next ≠ NULL then (hdr b).prev else (hdr a).prev := by
  have hn : ∀ h1 : Nat → header_s, h1 = (if (hdr b).prev = NULL then hdr
      else set_next hdr (hdr b).prev (hdr b).next) →
      (h1 b).next = (hdr b).next ∧ (h1 b).prev = (hdr b).prev ∧ ∀ x, (h1 x).prev = (hdr x).prev := by
    intro h1 e; subst e
    split_ifs with h
    · exact ⟨rfl, rfl, fun _ => rfl⟩
    · refine ⟨?_, ?_, fun _ => ?_⟩
      · rw [set_next_next, if_neg (Ne.symm hb)]
      · rw [set_next_prev]
      · rw [set_next_prev]
  unfold unlink_hdr
  generalize (if (hdr b).prev = NULL then hdr
      else set_next hdr (hdr b).prev (hdr b).next) = h1 at hn ⊢
  obtain ⟨e1, e2, e3⟩ := hn _ rfl
  rw [e1, e2]
  by_cases h2 : (hdr b).next = NULL
  · simp only [h2, ne_eq, not_true_eq_false, if_false, and_false, e3]
  · by_cases ha : a = (hdr b).next
    · simp only [h2, ha, ne_eq, not_false_eq_true, if_true, set_prev_prev, and_self]
    · simp only [h2, ha, ne_eq, not_false_eq_true, if_true, set_prev_prev, if_false, false_and, e3]

/-- Unlinking the first member of a list whose predecessor `p` lies outside it. -/
theorem unlink_first {hdr : Nat → header_s} (b p : Nat) (l2 : List Nat)
    (h : IsList hdr p b (b :: l2)) (hn : (b :: l2).Nodup) (hp : p ∉ b :: l2) :
    IsList (unlink_hdr hdr b) p (hdr b).next l2 := by
  obtain ⟨_, hb0, hbp, ht⟩ := h
  have hpb : (hdr b).prev ≠ b := by
    rw [hbp]; exact fun e => hp (e ▸ List.mem_cons_self _ _)
  cases l2 with
  | nil => exact ht
  | cons y ys =>
    obtain ⟨hy1, hy0, hyp, hyt⟩ := ht
    have hyb : y ≠ b := fun e => (List.nodup_cons.1 hn).1 (e ▸ List.mem_cons_self _ _)
    have hyp' : y ≠ p := fun e => hp (e ▸ List.mem_cons_of_mem _ (List.mem_cons_self _ _))
    have hyys : y ∉ ys := (List.nodup_cons.1 (List.nodup_cons.1 hn).2).1
    refine ⟨hy1, hy0, ?_, ?_⟩
    · rw [unlink_hdr_prev _ _ _ hpb, hy1, if_pos ⟨rfl, hy0⟩, hbp]
    · have e : (unlink_hdr hdr b y).next = (hdr y).next := by
        rw [unlink_hdr_next, hbp, if_neg (fun h => hyp' h.1)]
      rw [e]
      refine IsList_frame ys _ _ (fun x hx => ?_) hyt
      have hxy : x ≠ y := fun e => hyys (e ▸ hx)
      have hxp : x ≠ p := fun e => hp (e ▸ List.mem_cons_of_mem _ (List.mem_cons_of_mem _ hx))
      constructor
      · rw [unlink_hdr_next, hbp, if_neg (fun h => hxp h.1)]
      · rw [unlink_hdr_prev _ _ _ hpb, hy1, if_neg (fun h => hxy h.1)]

/-- No member of a list is its own predecessor. -/
theorem IsList_prev_ne {hdr : Nat → header_s} :
    ∀ (l : List Nat) (p c b : Nat), IsList hdr p c l → l.Nodup → b ∈ l → p ∉ l →
      (hdr b).prev ≠ b
  | [], _, _, _, _, _, hb, _ => by cases hb
  | x :: xs, p, c, b, h, hn, hb, hp => by
    obtain ⟨_, _, h3, h4⟩ := h
    rcases List.mem_cons.1 hb with rfl | hb
    · rw [h3]; exact fun e => hp (e ▸ List.mem_cons_self _ _)
    · exact IsList_prev_ne xs x _ b h4 (List.nodup_cons.1 hn).2 hb (List.nodup_cons.1 hn).1

/-- Unlinking a member that is not the first one. -/
theorem unlink_later {hdr : Nat → header_s} (b : Nat) :
    ∀ (l : List Nat) (p c : Nat), IsList hdr p c l → l.Nodup → b ∈ l → p ∉ l → c ≠ b →
      IsList (unlink_hdr hdr b) p c (l.erase b)
  | [], _, _, _, _, hb, _, _ => by cases hb
  | x :: xs, p, c, h, hn, hb, hp, hc => by
    have hpb : (hdr b).prev ≠ b := IsList_prev_ne _ _ _ b h hn hb hp
    obtain ⟨h1, h2, h3, h4⟩ := h
    have hxb : x ≠ b := by rw [← h1]; exact hc
    have hbxs : b ∈ xs := by
      rcases List.mem_cons.1 hb with e | e
      · exact absurd e.symm hxb
      · exact e
    have hxxs : x ∉ xs := (List.nodup_cons.1 hn).1
    have hnxs : xs.Nodup := (List.nodup_cons.1 hn).2
    rw [List.erase_cons_tail (by simpa using hxb)]
    have hxnext : x ≠ (hdr b).next := by
      intro e
      rcases IsList_next_mem xs x _ b h4 hbxs with h | h
      · exact h2 (e.trans h)
      · exact hxxs (e ▸ h)
    have hprev : (unlink_hdr hdr b x).prev = p := by
      rw [unlink_hdr_prev _ _ _ hpb, if_neg (fun h => hxnext h.1), h3]
    by_cases hnb : (hdr x).next = b
    · cases xs with
      | nil => cases hbxs
      | cons y l2 =>
        have hyb : y = b := by rw [← hnb]; exact h4.1.symm
        subst hyb
        rw [List.erase_cons_head]
        have hbp : (hdr y).prev = x := h4.2.2.1
        refine ⟨h1, h2, hprev, ?_⟩
        have e : (unlink_hdr hdr y x).next = (hdr y).next := by
          rw [unlink_hdr_next, hbp, if_pos ⟨rfl, h2⟩]
        rw [e]
        exact unlink_first y x l2 (by rw [hnb] at h4; exact h4) hnxs hxxs
    · refine ⟨h1, h2, hprev, ?_⟩
      have hxprev : x ≠ (hdr b).prev := by
        intro e
        rcases IsList_prev_mem xs x _ b h4 hnxs hbxs with h | h
        · exact hnb h.1
        · exact hxxs (e ▸ h.2)
      have e : (unlink_hdr hdr b x).next = (hdr x).next := by
        rw [unlink_hdr_next, if_neg (fun h => hxprev h.1)]
      rw [e]
      exact unlink_later b xs x _ h4 hnxs hbxs hxxs hnb

/-- Unlinking a member of a well-formed list leaves the list without it; the
head moves to the successor exactly when the member had no predecessor. -/
theorem unlink_IsList {hdr : Nat → header_s} (b c : Nat) (l : List Nat)
    (h : IsList hdr NULL c l) (hn : l.Nodup) (hb : b ∈ l) :
    IsList (unlink_hdr hdr b) NULL (if (hdr b).prev = NULL then (hdr b).next else c)
      (l.erase b) := by
  have h0 : NULL ∉ l := fun h0 => IsList_ne_null l _ _ h NULL h0 rfl
  rcases IsList_prev_mem l _ _ b h hn hb with e | e
  · rw [if_pos e.2]
    cases l with
    | nil => cases hb
    | cons x xs =>
      have hx : x = b := h.1.symm.trans e.1
      subst hx
      rw [List.erase_cons_head]
      exact unlink_first x NULL xs (by rw [e.1] at h; exact h) hn h0
  · have : (hdr b).prev ≠ NULL := fun h1 => h0 (h1 ▸ e.2)
    rw [if_neg this]
    exact unlink_later b l _ _ h hn hb h0 e.1

/-- Unlinking a member of a list writes only to members of that list. -/
theorem unlink_hdr_outside {hdr : Nat → header_s} (b c p : Nat) (l : List Nat)
    (h : IsList hdr p c l) (hn : l.Nodup) (hb : b ∈ l) (hp : p = NULL) (a : Nat) (ha : a ∉ l) :
    unlink_hdr hdr b a = hdr a := by
  have e1 : ¬ (a = (hdr b).prev ∧ (hdr b).prev ≠ NULL) := by
    rintro ⟨h1, h2⟩
    rcases IsList_prev_mem l _ _ b h hn hb with e | e
    · exact h2 (e.2.trans hp)
    · exact ha (h1 ▸ e.2)
  have e2 : ¬ (a = (hdr b).next ∧ (hdr b).next ≠ NULL) := by
    rintro ⟨h1, h2⟩
    rcases IsList_next_mem l _ _ b h hb with e | e
    · exact h2 e
    · exact ha (h1 ▸ e)
  unfold unlink_hdr
  by_cases h1 : (hdr b).prev = NULL
  · simp only [h1, if_true]
    split_ifs with h2
    · unfold set_prev; rw [if_neg (fun e => e2 ⟨e, h2⟩)]
    · rfl
  · have hane : a ≠ (hdr b).prev := fun e => e1 ⟨e, h1⟩
    simp only [h1, if_false]
    split_ifs with h2
    · unfold set_prev
      have : (set_next hdr (hdr b).prev (hdr b).next b).next ≠ a := by
        intro e
        rw [set_next_next] at e h2
        split_ifs at e h2 with h3
        · exact e2 ⟨e.symm, h2⟩
        · exact e2 ⟨e.symm, h2⟩
      rw [if_neg (Ne.symm this)]
      unfold set_next; rw [if_neg hane]
    · unfold set_next; rw [if_neg hane]

/-- Putting a header that is not on a list in front of that list. -/
theorem push_IsList {hdr : Nat → header_s} (b c : Nat) (l : List Nat)
    (h : IsList hdr NULL c l) (hn : l.Nodup) (hb : b ∉ l) (hb0 : b ≠ NULL) :
    IsList (push_hdr hdr b c) NULL b (b :: l) := by
  unfold push_hdr
  simp only [set_prev_next, set_next_next, if_true]
  cases l with
  | nil =>
    have hc : c = NULL := h
    subst hc
    simp only [ne_eq, not_true_eq_false, if_false]
    exact ⟨rfl, hb0, by simp, by simp [IsList]⟩
  | cons y ys =>
    obtain ⟨h1, h2, h3, h4⟩ := h
    subst h1
    have hcb : c ≠ b := fun e => hb (e ▸ List.mem_cons_self _ _)
    simp only [ne_eq, h2, not_false_eq_true, if_true]
    refine ⟨rfl, hb0, ?_, ?_⟩
    · simp [Ne.symm hcb]
    · simp only [set_prev_next, set_next_next, if_true]
      refine ⟨rfl, h2, by simp, ?_⟩
      simp only [set_prev_next, set_next_next, if_neg hcb]
      refine IsList_frame ys _ _ (fun x hx => ?_) h4
      have hxb : x ≠ b := fun e => hb (e ▸ List.mem_cons_of_mem _ hx)
      have hxc : x ≠ c := fun e => (List.nodup_cons.1 hn).1 (e ▸ hx)
      simp [hxb, hxc]

/-! ### Deallocation -/

theorem BLOCK_TO_HEADER_HEADER_TO_BLOCK (h : Nat) (hb : h < W) :
    BLOCK_TO_HEADER (HEADER_TO_BLOCK h) = h := by
  rw [BLOCK_TO_HEADER_def, HEADER_TO_BLOCK_def]
  unfold W sizeof_header_s at *
  omega

theorem HEADER_TO_BLOCK_ne_null (h : Nat) (hb : h + sizeof_header_s < W) :
    HEADER_TO_BLOCK h ≠ NULL := by
  rw [HEADER_TO_BLOCK_def]
  unfold W sizeof_header_s NULL at *
  omega

theorem HEADER_TO_BLOCK_eq (h : Nat) (hb : h + sizeof_header_s < W) :
    HEADER_TO_BLOCK h = h + sizeof_header_s := by
  unfold HEADER_TO_BLOCK
  exact wrap_of_lt _ hb

/-- The result of `gc_free` on a non-null pointer whose header is flagged
allocated. -/
theorem gc_free_eq (ptr : Nat) (s : State) (hp : ptr ≠ NULL)
    (ha : (s.hdr (BLOCK_TO_HEADER ptr)).allocated = true) :
    gc_free ptr s = .ok { s with
      hdr := free_hdr s.hdr (BLOCK_TO_HEADER ptr) s.free_list_head
      allocated_list_head :=
        if (s.hdr (BLOCK_TO_HEADER ptr)).prev = NULL then (s.hdr (BLOCK_TO_HEADER ptr)).next
        else s.allocated_list_head
      free_list_head := BLOCK_TO_HEADER ptr } := by
  unfold gc_free
  rw [if_neg hp]
  simp only [ha, Bool.not_true, Bool.false_eq_true, if_false]
  rfl

theorem push_hdr_size (hdr : Nat → header_s) (b c a : Nat) :
    (push_hdr hdr b c a).size = (hdr a).size := by
  unfold push_hdr; split_ifs <;> simp
theorem push_hdr_allocated (hdr : Nat → header_s) (b c a : Nat) :
    (push_hdr hdr b c a).allocated = (hdr a).allocated := by
  unfold push_hdr; split_ifs <;> simp
theorem push_hdr_marked (hdr : Nat → header_s) (b c a : Nat) :
    (push_hdr hdr b c a).marked = (hdr a).marked := by
  unfold push_hdr; split_ifs <;> simp
theorem push_hdr_layout (hdr : Nat → header_s) (b c a : Nat) :
    (push_hdr hdr b c a).layout = (hdr a).layout := by
  unfold push_hdr; split_ifs <;> simp

/-- Pushing `b` in front of `c` writes only to `b` and `c`. -/
theorem push_hdr_outside (hdr : Nat → header_s) (b c a : Nat) (hab : a ≠ b) (hac : a ≠ c) :
    push_hdr hdr b c a = hdr a := by
  unfold push_hdr
  simp only [set_prev_next, set_next_next, if_true]
  split_ifs <;> simp [set_prev, set_next, hab, hac]

theorem free_hdr_size (hdr : Nat → header_s) (b c a : Nat) :
    (free_hdr hdr b c a).size = (hdr a).size := by
  simp [free_hdr, push_hdr_size, unlink_hdr_size]
theorem free_hdr_marked (hdr : Nat → header_s) (b c a : Nat) :
    (free_hdr hdr b c a).marked = (hdr a).marked := by
  simp [free_hdr, push_hdr_marked, unlink_hdr_marked]
theorem free_hdr_layout (hdr : Nat → header_s) (b c a : Nat) :
    (free_hdr hdr b c a).layout = (hdr a).layout := by
  simp [free_hdr, push_hdr_layout, unlink_hdr_layout]
theorem free_hdr_allocated (hdr : Nat → header_s) (b c a : Nat) :
    (free_hdr hdr b c a).allocated = if a = b then false else (hdr a).allocated := by
  simp [free_hdr, push_hdr_allocated, unlink_hdr_allocated]

/-- The two lists after the writes of `gc_free` on a member `b` of the
allocated list. -/
theorem free_hdr_lists {hdr : Nat → header_s} (b ca cf : Nat) (la lf : List Nat)
    (hla : IsList hdr NULL ca la) (hlf : IsList hdr NULL cf lf)
    (hn : (la ++ lf).Nodup) (hb : b ∈ la) :
    IsList (free_hdr hdr b cf) NULL (if (hdr b).prev = NULL then (hdr b).next else ca)
        (la.erase b) ∧
      IsList (free_hdr hdr b cf) NULL b (b :: lf) := by
  have hna : la.Nodup := (List.nodup_append.1 hn).1
  have hnf : lf.Nodup := (List.nodup_append.1 hn).2.1
  have hdisj : ∀ x, x ∈ la → x ∉ lf := fun x hx hx2 => (List.nodup_append.1 hn).2.2 hx hx2
  have hb0 : b ≠ NULL := IsList_ne_null la _ _ hla b hb
  have hblf : b ∉ lf := hdisj b hb
  have hbe : b ∉ la.erase b := fun h => (List.Nodup.mem_erase_iff hna).1 h |>.1 rfl
  constructor
  · refine IsList_frame _ _ _ (fun x hx => ?_) (unlink_IsList b ca la hla hna hb)
    have hxla : x ∈ la := List.mem_of_mem_erase hx
    have hxb : x ≠ b := fun e => hbe (e ▸ hx)
    have hxcf : x ≠ cf := by
      intro e
      cases lf with
      | nil => exact IsList_ne_null la _ _ hla x hxla (e.trans hlf)
      | cons y ys => exact hdisj x hxla (by rw [e, hlf.1]; exact List.mem_cons_self _ _)
    unfold free_hdr
    rw [set_allocated_next, set_allocated_prev, push_hdr_outside _ _ _ _ hxb hxcf]
    simp [hxb]
  · unfold free_hdr
    refine IsList_frame _ _ _ (fun x _ => ⟨set_allocated_next _ _ _ _, set_allocated_prev _ _ _ _⟩) ?_
    refine push_IsList b cf lf ?_ hnf hblf hb0
    refine IsList_frame _ _ _ (fun x hx => ?_) hlf
    have hxb : x ≠ b := fun e => hblf (e ▸ hx)
    have hxla : x ∉ la := fun h => hdisj x h hx
    rw [set_next_next, set_next_prev, set_prev_next, set_prev_prev, if_neg hxb, if_neg hxb,
      unlink_hdr_outside b ca NULL la hla hna hb rfl x hxla]
    exact ⟨rfl, rfl⟩

/-- Effect of `gc_free` on the payload pointer of a member of the allocated list of a
well-formed state. -/
theorem gc_free_WF {s : State} {la lf : List Nat} (hwf : WF s la lf) (h : Nat) (hh : h ∈ la) :
    ∃ s1, gc_free (HEADER_TO_BLOCK h) s = .ok s1 ∧ WF s1 (la.erase h) (h :: lf) ∧
      s1.hdr = free_hdr s.hdr h s.free_list_head ∧
      s1.free_addr = s.free_addr ∧ s1.start_addr = s.start_addr ∧ s1.end_addr = s.end_addr ∧
      s1.root_set_head = s.root_set_head ∧ s1.mem = s.mem := by
  have hbd : h + sizeof_header_s < W := hwf.bound h (List.mem_append_left _ hh)
  have hrt : BLOCK_TO_HEADER (HEADER_TO_BLOCK h) = h :=
    BLOCK_TO_HEADER_HEADER_TO_BLOCK h (by omega)
  have hal := hwf.alloc_flag h hh
  refine ⟨_, gc_free_eq _ s (HEADER_TO_BLOCK_ne_null h hbd) (by rw [hrt]; exact hal), ?_,
    by rw [hrt], rfl, rfl, rfl, rfl, rfl⟩
  rw [hrt]
  obtain ⟨h1, h2⟩ := free_hdr_lists h _ _ la lf hwf.alloc hwf.free hwf.nodup hh
  have hna : la.Nodup := (List.nodup_append.1 hwf.nodup).1
  have hbe : h ∉ la.erase h := fun h => (List.Nodup.mem_erase_iff hna).1 h |>.1 rfl
  refine ⟨h1, h2, ?_, ?_, ?_, ?_⟩
  · have p1 : (la.erase h ++ h :: lf).Perm (la ++ lf) :=
      List.perm_middle.trans ((List.perm_cons_erase hh).symm.append_right lf)
    exact p1.nodup_iff.2 hwf.nodup
  · intro x hx
    show (free_hdr _ _ _ x).allocated = true
    rw [free_hdr_allocated, if_neg (fun (e : x = h) => hbe (e ▸ hx))]
    exact hwf.alloc_flag x (List.mem_of_mem_erase hx)
  · intro x hx
    show (free_hdr _ _ _ x).allocated = false
    rw [free_hdr_allocated]
    split_ifs with e
    · rfl
    · rcases List.mem_cons.1 hx with e2 | e2
      · exact absurd e2 e
      · exact hwf.free_flag x e2
  · intro x hx
    apply hwf.bound
    rcases List.mem_append.1 hx with e | e
    · exact List.mem_append_left _ (List.mem_of_mem_erase e)
    · rcases List.mem_cons.1 e with e2 | e2
      · exact e2 ▸ List.mem_append_left _ hh
      · exact List.mem_append_right _ e2

/-! ### Allocation -/

theorem gc_init_of_initialised (heap : Nat) (s : State) (h : s.start_addr ≠ 0) :
    gc_init heap s = .ok s := by
  unfold gc_init; rw [if_neg h]

/-- On an initialised heap `gc_malloc(0)` returns `NULL` after padding the frontier. -/
theorem gc_malloc_zero (heap fuel : Nat) (s : State) (h : s.start_addr ≠ 0) :
    gc_malloc heap fuel 0 s = .ok (NULL, padded s) := by
  unfold gc_malloc
  rw [gc_init_of_initialised heap s h]
  rfl

/-- The padded frontier puts a payload on a double-word boundary. -/
theorem padding_aligned (f : Nat) : (f + padding f + sizeof_header_s) % DBL_WORD_SIZE = 0 := by
  unfold padding sizeof_header_s DBL_WORD_SIZE
  omega

theorem find_best_zero (hdr : Nat → header_s) (size cur best : Nat) :
    find_best hdr size 0 cur best = if cur = NULL then .ok best else .timeout := rfl

theorem find_best_succ (hdr : Nat → header_s) (size fuel cur best : Nat) :
    find_best hdr size (fuel + 1) cur best =
      if cur = NULL then .ok best
      else if (hdr cur).allocated then .error .allocated_block_on_free_list
      else if pick_best hdr size cur best ≠ NULL ∧ (hdr (pick_best hdr size cur best)).size = size
        then .ok (pick_best hdr size cur best)
        else find_best hdr size fuel (hdr cur).next (pick_best hdr size cur best) := rfl

theorem pick_best_cases (hdr : Nat → header_s) (size cur best : Nat) :
    pick_best hdr size cur best = best ∨
      (pick_best hdr size cur best = cur ∧ size ≤ (hdr cur).size) := by
  unfold pick_best
  split_ifs with h
  · right; exact ⟨rfl, by rcases h with h | h; exact h.2; exact h.2.1⟩
  · left; rfl

/-- What the search returns is the initial candidate or a fitting member of the
list it walks. -/
theorem find_best_mem {hdr : Nat → header_s} (size : Nat) :
    ∀ (fuel : Nat) (rest : List Nat) (p cur best r : Nat), IsList hdr p cur rest →
      find_best hdr size fuel cur best = .ok r →
      r = best ∨ (r ∈ rest ∧ size ≤ (hdr r).size)
  | 0, rest, p, cur, best, r, _, h => by
    rw [find_best_zero] at h
    split_ifs at h
    · left; injection h with h; exact h.symm
  | fuel + 1, rest, p, cur, best, r, hl, h => by
    rw [find_best_succ] at h
    by_cases h1 : cur = NULL
    · rw [if_pos h1] at h; left; injection h with h; exact h.symm
    · rw [if_neg h1] at h
      cases rest with
      | nil => exact absurd hl h1
      | cons x xs =>
        obtain ⟨hc, _, _, ht⟩ := hl
        subst hc
        split_ifs at h with h2 h3
        · injection h with h
          subst h
          rcases pick_best_cases hdr size cur best with e | e
          · left; exact e
          · right; rw [e.1]; exact ⟨List.mem_cons_self _ _, e.2⟩
        · rcases find_best_mem size fuel xs cur _ _ r ht h with e | e
          · rcases pick_best_cases hdr size cur best with e2 | e2
            · left; rw [e, e2]
            · right; rw [e, e2.1]; exact ⟨List.mem_cons_self _ _, e2.2⟩
          · right; exact ⟨List.mem_cons_of_mem _ e.1, e.2⟩

/-- The loop invariant of the search: `best` is the best fit among the blocks
already visited, and it is not an exact fit. -/
theorem find_best_spec {hdr : Nat → header_s} (size : Nat) :
    ∀ (rest done : List Nat) (fuel p cur best : Nat), IsList hdr p cur rest →
      (∀ x ∈ rest, (hdr x).allocated = false) → (∀ x ∈ done, x ≠ NULL) →
      ((best = NULL ∧ ∀ x ∈ done, ¬ size ≤ (hdr x).size) ∨
        (best ≠ NULL ∧ IsBestFit hdr size done best ∧ (hdr best).size ≠ size)) →
      rest.length ≤ fuel →
      ∃ r, find_best hdr size fuel cur best = .ok r ∧
        ((r = NULL ∧ ∀ x ∈ done ++ rest, ¬ size ≤ (hdr x).size) ∨
          (r ≠ NULL ∧ IsBestFit hdr size (done ++ rest) r))
  | [], done, fuel, p, cur, best, hl, _, _, hinv, _ => by
    have hc : cur = NULL := hl
    refine ⟨best, ?_, ?_⟩
    · cases fuel with
      | zero => rw [find_best_zero, if_pos hc]
      | succ n => rw [find_best_succ, if_pos hc]
    · rw [List.append_nil]
      rcases hinv with h | h
      · exact Or.inl h
      · exact Or.inr ⟨h.1, h.2.1⟩
  | x :: xs, done, fuel, p, cur, best, hl, hfree, hdone, hinv, hfuel => by
    obtain ⟨hc, hx0, _, ht⟩ := hl
    subst hc
    cases fuel with
    | zero => simp at hfuel
    | succ fuel =>
      rw [find_best_succ, if_neg hx0]
      have hxa := hfree cur (List.mem_cons_self _ _)
      simp only [hxa, Bool.false_eq_true, if_false]
      have hdone1 : ∀ y ∈ done ++ [cur], y ≠ NULL := by
        intro y hy
        rcases List.mem_append.1 hy with e | e
        · exact hdone y e
        · rw [List.mem_singleton.1 e]; exact hx0
      -- the invariant after this iteration, without the exact-fit condition
      have hstep : (pick_best hdr size cur best = NULL ∧
            ∀ y ∈ done ++ [cur], ¬ size ≤ (hdr y).size) ∨
          (pick_best hdr size cur best ≠ NULL ∧
            IsBestFit hdr size (done ++ [cur]) (pick_best hdr size cur best)) := by
        unfold pick_best
        rcases hinv with ⟨hb, hno⟩ | ⟨hb, ⟨l1, l2, hd, hfit, hl1, hl2⟩, _⟩
        · by_cases hs : size ≤ (hdr cur).size
          · rw [if_pos (Or.inl ⟨hb, hs⟩)]
            right
            refine ⟨hx0, done, [], rfl, hs, ?_, ?_⟩
            · intro y hy hys; exact absurd hys (hno y hy)
            · intro y hy; cases hy
          · rw [if_neg (by rintro (h | h); exact hs h.2; exact hs h.2.1)]
            left
            refine ⟨hb, ?_⟩
            intro y hy
            rcases List.mem_append.1 hy with e | e
            · exact hno y e
            · rw [List.mem_singleton.1 e]; exact hs
        · right
          by_cases hs : size ≤ (hdr cur).size ∧ (hdr cur).size < (hdr best).size
          · rw [if_pos (Or.inr ⟨hb, hs⟩)]
            refine ⟨hx0, done, [], rfl, hs.1, ?_, ?_⟩
            · intro y hy hys
              rw [hd] at hy
              rcases List.mem_append.1 hy with e | e
              · exact lt_trans hs.2 (hl1 y e hys)
              · rcases List.mem_cons.1 e with e | e
                · rw [e]; exact hs.2
                · exact lt_of_lt_of_le hs.2 (hl2 y e hys)
            · intro y hy; cases hy
          · rw [if_neg (by rintro (h | h); exact hb h.1; exact hs h.2)]
            refine ⟨hb, l1, l2 ++ [cur], by rw [hd]; simp, hfit, hl1, ?_⟩
            intro y hy hys
            rcases List.mem_append.1 hy with e | e
            · exact hl2 y e hys
            · rw [List.mem_singleton.1 e] at hys ⊢
              by_contra hlt
              exact hs ⟨hys, not_le.1 hlt⟩
      by_cases hex : pick_best hdr size cur best ≠ NULL ∧
          (hdr (pick_best hdr size cur best)).size = size
      · rw [if_pos hex]
        refine ⟨_, rfl, Or.inr ⟨hex.1, ?_⟩⟩
        rcases hstep with h | ⟨_, l1, l2, hd, hfit, hl1, hl2⟩
        · exact absurd h.1 hex.1
        · refine ⟨l1, l2 ++ xs, ?_, hfit, hl1, ?_⟩
          · have : done ++ cur :: xs = (done ++ [cur]) ++ xs := by simp
            rw [this, hd]; simp
          · intro y _ hys; rw [hex.2]; exact hys
      · rw [if_neg hex]
        have hinv1 : (pick_best hdr size cur best = NULL ∧
              ∀ y ∈ done ++ [cur], ¬ size ≤ (hdr y).size) ∨
            (pick_best hdr size cur best ≠ NULL ∧
              IsBestFit hdr size (done ++ [cur]) (pick_best hdr size cur best) ∧
              (hdr (pick_best hdr size cur best)).size ≠ size) := by
          rcases hstep with h | h
          · exact Or.inl h
          · exact Or.inr ⟨h.1, h.2, fun e => hex ⟨h.1, e⟩⟩
        have := find_best_spec size xs (done ++ [cur]) fuel cur (hdr cur).next _ ht
          (fun y hy => hfree y (List.mem_cons_of_mem _ hy)) hdone1 hinv1
          (by simpa using hfuel)
        simpa using this

theorem take_hdr_eq (hdr : Nat → header_s) (b c : Nat) :
    take_hdr hdr b c = set_allocated (free_hdr hdr b c) b true := by
  funext a
  unfold take_hdr free_hdr push_hdr
  simp only [set_prev_next, set_next_next, set_allocated_next, if_true]
  by_cases hc : c = NULL
  · simp only [hc, ne_eq, not_true_eq_false, if_false]
    by_cases hab : a = b
    · subst hab; simp [set_prev, set_next, set_allocated]
    · simp [set_prev, set_next, set_allocated, hab]
  · simp only [hc, ne_eq, not_false_eq_true, if_true]
    by_cases hab : a = b
    · subst hab
      by_cases hac : a = c
      · subst hac; simp [set_prev, set_next, set_allocated]
      · simp [set_prev, set_next, set_allocated, hac]
    · by_cases hac : a = c
      · subst hac; simp [set_prev, set_next, set_allocated, hab]
      · simp [set_prev, set_next, set_allocated, hab, hac]

theorem take_hdr_size (hdr : Nat → header_s) (b c a : Nat) :
    (take_hdr hdr b c a).size = (hdr a).size := by
  rw [take_hdr_eq, set_allocated_size, free_hdr_size]
theorem take_hdr_marked (hdr : Nat → header_s) (b c a : Nat) :
    (take_hdr hdr b c a).marked = (hdr a).marked := by
  rw [take_hdr_eq, set_allocated_marked, free_hdr_marked]
theorem take_hdr_layout (hdr : Nat → header_s) (b c a : Nat) :
    (take_hdr hdr b c a).layout = (hdr a).layout := by
  rw [take_hdr_eq, set_allocated_layout, free_hdr_layout]
theorem take_hdr_allocated (hdr : Nat → header_s) (b c a : Nat) :
    (take_hdr hdr b c a).allocated = if a = b then true else (hdr a).allocated := by
  rw [take_hdr_eq, set_allocated_allocated, free_hdr_allocated]
  split_ifs <;> rfl

/-- The state after the recycling branch of `gc_malloc` followed by the
insertion into the allocated list. -/
theorem malloc_prepend_take (b : Nat) (s : State) (hb : b < W) :
    malloc_prepend (HEADER_TO_BLOCK b) (malloc_take b s) =
      (HEADER_TO_BLOCK b, { s with
        hdr := take_hdr s.hdr b s.allocated_list_head
        free_list_head := if (s.hdr b).prev = NULL then (s.hdr b).next else s.free_list_head
        allocated_list_head := b }) := by
  unfold malloc_prepend
  rw [BLOCK_TO_HEADER_HEADER_TO_BLOCK b hb]
  rfl

/-- Recycling a free block of a well-formed state: it moves to the head of the
allocated list and the free list keeps its other members in order. -/
theorem take_WF {s : State} {la lf : List Nat} (hwf : WF s la lf) (b : Nat) (hb : b ∈ lf) :
    WF { s with
        hdr := take_hdr s.hdr b s.allocated_list_head
        free_list_head := if (s.hdr b).prev = NULL then (s.hdr b).next else s.free_list_head
        allocated_list_head := b } (b :: la) (lf.erase b) := by
  have hn : (lf ++ la).Nodup := (List.perm_append_comm.nodup_iff).1 hwf.nodup
  obtain ⟨h1, h2⟩ := free_hdr_lists b _ _ lf la hwf.free hwf.alloc hn hb
  have hnf : lf.Nodup := (List.nodup_append.1 hn).1
  have hbe : b ∉ lf.erase b := fun h => (List.Nodup.mem_erase_iff hnf).1 h |>.1 rfl
  have hfr : ∀ (l : List Nat) (p c : Nat), IsList (free_hdr s.hdr b s.allocated_list_head) p c l →
      IsList (take_hdr s.hdr b s.allocated_list_head) p c l := by
    intro l p c h
    refine IsList_frame l p c (fun x _ => ?_) h
    rw [take_hdr_eq]; exact ⟨set_allocated_next _ _ _ _, set_allocated_prev _ _ _ _⟩
  refine ⟨hfr _ _ _ h2, hfr _ _ _ h1, ?_, ?_, ?_, ?_⟩
  · have p1 : (b :: la ++ lf.erase b).Perm (la ++ lf) := by
      have : (b :: la ++ lf.erase b).Perm (la ++ b :: lf.erase b) := List.perm_middle.symm
      exact this.trans ((List.perm_cons_erase hb).symm.append_left la)
    exact p1.nodup_iff.2 hwf.nodup
  · intro x hx
    show (take_hdr _ _ _ x).allocated = true
    rw [take_hdr_allocated]
    split_ifs with e
    · rfl
    · rcases List.mem_cons.1 hx with e2 | e2
      · exact absurd e2 e
      · exact hwf.alloc_flag x e2
  · intro x hx
    show (take_hdr _ _ _ x).allocated = false
    rw [take_hdr_allocated, if_neg (fun (e : x = b) => hbe (e ▸ hx))]
    exact hwf.free_flag x (List.mem_of_mem_erase hx)
  · intro x hx
    apply hwf.bound
    rcases List.mem_append.1 hx with e | e
    · rcases List.mem_cons.1 e with e2 | e2
      · exact e2 ▸ List.mem_append_right _ hb
      · exact List.mem_append_left _ e2
    · exact List.mem_append_right _ (List.mem_of_mem_erase e)

theorem IsBestFit_mem {hdr : Nat → header_s} {n : Nat} {l : List Nat} {b : Nat}
    (h : IsBestFit hdr n l b) : b ∈ l := by
  obtain ⟨l1, l2, e, _⟩ := h
  rw [e]; simp

/-- Best-fit allocation: with a fitting block on the free list, `gc_malloc`
returns the payload of the best fit and moves that block to the head of the
allocated list; the frontier only receives its alignment padding. -/
theorem gc_malloc_best_fit (heap fuel n : Nat) {s : State} {la lf : List Nat}
    (hwf : WF s la lf) (hinit : s.start_addr ≠ 0) (hn : 0 < n)
    (hfit : ∃ x ∈ lf, n ≤ (s.hdr x).size) (hfuel : lf.length ≤ fuel) :
    ∃ b s1, gc_malloc heap fuel n s = .ok (HEADER_TO_BLOCK b, s1) ∧
      IsBestFit s.hdr n lf b ∧ WF s1 (b :: la) (lf.erase b) ∧
      s1.hdr = take_hdr s.hdr b s.allocated_list_head ∧
      s1.free_addr = wrap (s.free_addr + padding s.free_addr) ∧
      s1.start_addr = s.start_addr ∧ s1.end_addr = s.end_addr ∧
      s1.root_set_head = s.root_set_head ∧ s1.mem = s.mem := by
  obtain ⟨r, hr, hres⟩ := find_best_spec n lf [] fuel NULL s.free_list_head NULL hwf.free
    hwf.free_flag (by simp) (Or.inl ⟨rfl, by simp⟩) hfuel
  rw [List.nil_append] at hres
  rcases hres with ⟨_, hno⟩ | ⟨hr0, hbest⟩
  · obtain ⟨x, hx, hxs⟩ := hfit
    exact absurd hxs (hno x hx)
  · have hmem := IsBestFit_mem hbest
    have hbd := hwf.bound r (List.mem_append_right _ hmem)
    have hwfp : WF (padded s) la lf :=
      ⟨hwf.alloc, hwf.free, hwf.nodup, hwf.alloc_flag, hwf.free_flag, hwf.bound⟩
    refine ⟨r, _, ?_, hbest, take_WF hwfp r hmem, rfl, rfl, rfl, rfl, rfl, rfl⟩
    unfold gc_malloc
    rw [gc_init_of_initialised heap s hinit]
    simp only [Nat.pos_iff_ne_zero.1 hn, if_false]
    have : find_best s.hdr n fuel s.free_list_head NULL = .ok r := hr
    simp only [this, hr0, ne_eq, not_false_eq_true, if_true]
    exact congrArg Result.ok (malloc_prepend_take r (padded s) (by omega))

/-- Initialisation touches only the three heap addresses. -/
theorem gc_init_ok {heap : Nat} {s s0 : State} (h : gc_init heap s = .ok s0) :
    s0.hdr = s.hdr ∧ s0.mem = s.mem ∧ s0.free_list_head = s.free_list_head ∧
      s0.allocated_list_head = s.allocated_list_head ∧ s0.root_set_head = s.root_set_head := by
  unfold gc_init at h
  split_ifs at h
  · injection h with h; subst h; exact ⟨rfl, rfl, rfl, rfl, rfl⟩
  · injection h with h; subst h; exact ⟨rfl, rfl, rfl, rfl, rfl⟩

/-- The ways in which `gc_malloc` returns: a zero-size request, a recycled
block, a failed bump and a successful bump. -/
theorem gc_malloc_cases {heap fuel n : Nat} {s s1 : State} {p : Nat}
    (h : gc_malloc heap fuel n s = .ok (p, s1)) :
    ∃ s0, gc_init heap s = .ok s0 ∧
      ((n = 0 ∧ p = NULL ∧ s1 = padded s0) ∨
       (n ≠ 0 ∧ ∃ r, find_best s0.hdr n fuel s0.free_list_head NULL = .ok r ∧
          ((r ≠ NULL ∧ (p, s1) = malloc_prepend (HEADER_TO_BLOCK r) (malloc_take r (padded s0))) ∨
           (r = NULL ∧
              toSigned (wrap (HEADER_TO_BLOCK (padded s0).free_addr + n)) > toSigned s0.end_addr ∧
              p = NULL ∧ s1 = malloc_bump_header n (padded s0)) ∨
           (r = NULL ∧
              ¬ toSigned (wrap (HEADER_TO_BLOCK (padded s0).free_addr + n)) > toSigned s0.end_addr ∧
              (p, s1) = malloc_prepend (HEADER_TO_BLOCK (padded s0).free_addr)
                { malloc_bump_header n (padded s0) with
                  free_addr := wrap (HEADER_TO_BLOCK (padded s0).free_addr + n) })))) := by
  unfold gc_malloc at h
  cases hi : gc_init heap s with
  | ok s0 =>
    rw [hi] at h
    refine ⟨s0, rfl, ?_⟩
    dsimp only at h
    by_cases hn : n = 0
    · left
      rw [if_pos hn] at h
      injection h with h
      injection h with h1 h2
      exact ⟨hn, h1.symm, h2.symm⟩
    · right
      rw [if_neg hn] at h
      refine ⟨hn, ?_⟩
      cases hf : find_best s0.hdr n fuel s0.free_list_head NULL with
      | ok r =>
        rw [hf] at h
        refine ⟨r, rfl, ?_⟩
        dsimp only at h
        by_cases hr : r = NULL
        · right
          rw [if_neg (not_not.2 hr)] at h
          split_ifs at h with hov
          · left
            injection h with h
            injection h with h1 h2
            exact ⟨hr, hov, h1.symm, h2.symm⟩
          · right
            injection h with h
            exact ⟨hr, hov, h.symm⟩
        · left
          rw [if_pos hr] at h
          injection h with h
          exact ⟨hr, h.symm⟩
      | error e => rw [hf] at h; cases h
      | fault => rw [hf] at h; cases h
      | timeout => rw [hf] at h; cases h
  | error e => rw [hi] at h; cases h
  | fault => rw [hi] at h; cases h
  | timeout => rw [hi] at h; cases h

/-- The ways in which `gc_new` returns. -/
theorem gc_new_cases {heap fuel : Nat} {L : gc_layout_s} {s s1 : State} {p : Nat}
    (h : gc_new heap fuel L s = .ok (p, s1)) :
    ∃ s2, gc_malloc heap fuel L.size s = .ok (p, s2) ∧
      s1 = { s2 with hdr := set_layout s2.hdr (BLOCK_TO_HEADER p) (some L) } := by
  unfold gc_new at h
  cases hm : gc_malloc heap fuel L.size s with
  | ok r =>
    obtain ⟨q, s2⟩ := r
    rw [hm] at h
    injection h with h
    injection h with h1 h2
    subst h1
    exact ⟨s2, rfl, h2.symm⟩
  | error e => rw [hm] at h; cases h
  | fault => rw [hm] at h; cases h
  | timeout => rw [hm] at h; cases h

theorem malloc_prepend_eq (p : Nat) (s : State) :
    malloc_prepend p s = (p, { s with
      hdr := push_hdr s.hdr (BLOCK_TO_HEADER p) s.allocated_list_head
      allocated_list_head := BLOCK_TO_HEADER p }) := rfl

theorem BLOCK_TO_HEADER_lt (p : Nat) : BLOCK_TO_HEADER p < W := wrap_lt _

theorem HEADER_TO_BLOCK_lt (p : Nat) : HEADER_TO_BLOCK p < W := wrap_lt _

/-- A successful `gc_new`: the returned block heads the allocated list, carries
the given layout and is large enough; a bump-allocated block has exactly the
requested size. -/
theorem gc_new_success {heap fuel : Nat} {L : gc_layout_s} {s s1 : State} {la lf : List Nat}
    {p : Nat} (hwf : WF s la lf) (h : gc_new heap fuel L s = .ok (p, s1)) (hp : p ≠ NULL) :
    HEADER_TO_BLOCK (BLOCK_TO_HEADER p) = p ∧
      s1.allocated_list_head = BLOCK_TO_HEADER p ∧
      (s1.hdr (BLOCK_TO_HEADER p)).layout = some L ∧
      (s1.hdr (BLOCK_TO_HEADER p)).allocated = true ∧
      L.size ≤ (s1.hdr (BLOCK_TO_HEADER p)).size ∧
      ((∀ x ∈ lf, (s.hdr x).size < L.size) → (s1.hdr (BLOCK_TO_HEADER p)).size = L.size) := by
  obtain ⟨s2, hm, rfl⟩ := gc_new_cases h
  obtain ⟨s0, hi, hc⟩ := gc_malloc_cases hm
  obtain ⟨e1, _, e3, _, _⟩ := gc_init_ok hi
  rcases hc with ⟨_, h0, _⟩ | ⟨hn, r, hf, hc⟩
  · exact absurd h0 hp
  · rcases hc with ⟨hr, hres⟩ | ⟨_, _, h0, _⟩ | ⟨hr, hov, hres⟩
    · rw [e1, e3] at hf
      have hmem : r ∈ lf ∧ L.size ≤ (s.hdr r).size := by
        rcases find_best_mem L.size fuel lf NULL _ NULL r hwf.free hf with e | e
        · exact absurd e hr
        · exact e
      have hbd := hwf.bound r (List.mem_append_right _ hmem.1)
      have hrW : r < W := lt_of_le_of_lt (Nat.le_add_right _ _) hbd
      rw [malloc_prepend_take r _ hrW] at hres
      injection hres with hp1 hs2
      subst hp1 hs2
      have hrt := BLOCK_TO_HEADER_HEADER_TO_BLOCK r hrW
      dsimp only
      rw [hrt]
      simp only [set_layout_layout, set_layout_allocated, set_layout_size, take_hdr_allocated,
        take_hdr_size, if_true, true_and]
      rw [show (padded s0).hdr = s.hdr from e1]
      exact ⟨hmem.2, fun hno => absurd hmem.2 (not_le.2 (hno r hmem.1))⟩
    · exact absurd h0 hp
    · rw [malloc_prepend_eq] at hres
      injection hres with hp1 hs2
      subst hp1 hs2
      have hlt : (padded s0).free_addr < W := wrap_lt _
      have hrt := BLOCK_TO_HEADER_HEADER_TO_BLOCK _ hlt
      dsimp only
      rw [hrt]
      simp only [set_layout_layout, set_layout_allocated, set_layout_size, push_hdr_allocated,
        push_hdr_size, if_true, true_and, malloc_bump_header, set_allocated_allocated,
        set_allocated_size, set_size_size, le_refl, implies_true, and_self]

/-! ### The collector -/

/-- The ways in which `gc_free` returns. -/
theorem gc_free_cases {ptr : Nat} {s s1 : State} (h : gc_free ptr s = .ok s1) :
    (ptr = NULL ∧ s1 = s) ∨
      (ptr ≠ NULL ∧ (s.hdr (BLOCK_TO_HEADER ptr)).allocated = true ∧
        s1 = { s with
          hdr := free_hdr s.hdr (BLOCK_TO_HEADER ptr) s.free_list_head
          allocated_list_head :=
            if (s.hdr (BLOCK_TO_HEADER ptr)).prev = NULL then (s.hdr (BLOCK_TO_HEADER ptr)).next
            else s.allocated_list_head
          free_list_head := BLOCK_TO_HEADER ptr }) := by
  by_cases hp : ptr = NULL
  · left
    unfold gc_free at h
    rw [if_pos hp] at h
    injection h with h
    exact ⟨hp, h.symm⟩
  · right
    by_cases ha : (s.hdr (BLOCK_TO_HEADER ptr)).allocated = true
    · rw [gc_free_eq ptr s hp ha] at h
      injection h with h
      exact ⟨hp, ha, h.symm⟩
    · unfold gc_free at h
      rw [if_neg hp] at h
      simp only [ha, Bool.not_false, if_true] at h
      simp at h

/-- The `for` loop of `mark` pushes the pointer words at the offsets
`i, …, i + k - 1`, the last one on top. -/
theorem mark_children_ok (p : Nat) (L : gc_layout_s) :
    ∀ (k i : Nat) (s s1 : State), mark_children p L k i s = .ok s1 →
      s1 = { s with root_set_head :=
        (((L.ptr_offsets.drop i).take k).map (fun off => s.mem (wrap (p + off)))).reverse
          ++ s.root_set_head }
  | 0, i, s, s1, h => by
    unfold mark_children at h
    injection h with h
    subst h
    simp
  | k + 1, i, s, s1, h => by
    unfold mark_children at h
    cases ho : L.ptr_offsets[i]? with
    | none => rw [ho] at h; cases h
    | some off =>
      rw [ho] at h
      dsimp only at h
      have hs := mark_children_ok p L k (i + 1) _ s1 h
      have hi : i < L.ptr_offsets.length := by
        by_contra hc
        rw [List.getElem?_eq_none (not_lt.1 hc)] at ho
        cases ho
      have hoff : L.ptr_offsets[i] = off := by
        rw [List.getElem?_eq_getElem hi] at ho
        injection ho
      rw [hs, List.drop_eq_getElem_cons hi, hoff]
      simp [rs_push]

/-- With at least `num_ptrs` offsets in the layout the `for` loop of `mark`
completes. -/
theorem mark_children_total (p : Nat) (L : gc_layout_s) :
    ∀ (k i : Nat) (s : State), i + k ≤ L.ptr_offsets.length →
      ∃ s1, mark_children p L k i s = .ok s1
  | 0, i, s, _ => ⟨s, rfl⟩
  | k + 1, i, s, h => by
    unfold mark_children
    have hi : i < L.ptr_offsets.length := by omega
    rw [List.getElem?_eq_getElem hi]
    exact mark_children_total p L k (i + 1) _ (by omega)

theorem set_marked_self (hdr : Nat → header_s) (h : Nat) (hm : (hdr h).marked = true) :
    set_marked hdr h true = hdr := by
  funext a
  unfold set_marked
  split_ifs with e
  · subst e
    cases hh : hdr a
    rw [hh] at hm
    simp only at hm
    subst hm
    rfl
  · rfl

theorem rs_pop_cons (s : State) (p : Nat) (rest : List Nat) (h : s.root_set_head = p :: rest) :
    rs_pop s = (p, { s with root_set_head := rest }) := by
  unfold rs_pop
  rw [h]

theorem mark_zero (s : State) :
    mark 0 s = if s.root_set_head = [] then .ok s else .timeout := rfl

/-- One iteration of the loop of `mark` on a non-empty stack. -/
theorem mark_succ_cons (fuel : Nat) (s : State) (p : Nat) (rest : List Nat)
    (h : s.root_set_head = p :: rest) :
    mark (fuel + 1) s =
      if p ≠ NULL then
        match (s.hdr (BLOCK_TO_HEADER p)).layout with
        | none => .fault
        | some L =>
          match mark_children p L L.num_ptrs 0
              { s with root_set_head := rest
                       hdr := set_marked s.hdr (BLOCK_TO_HEADER p) true } with
          | .ok s3 => mark fuel s3
          | .error e => .error e
          | .fault => .fault
          | .timeout => .timeout
      else mark fuel { s with root_set_head := rest } := by
  have hne : s.root_set_head ≠ [] := by rw [h]; exact List.cons_ne_nil _ _
  rw [mark, if_neg hne, rs_pop_cons s p rest h]
  dsimp only
  by_cases hp : p = NULL
  · rw [if_neg (not_not.2 hp), if_neg (not_not.2 hp)]
  · rw [if_pos hp, if_pos hp]
    by_cases hm : (s.hdr (BLOCK_TO_HEADER p)).marked = true
    · simp only [hm, Bool.not_true, Bool.false_eq_true, if_false]
      rw [set_marked_self _ _ hm]
    · simp only [hm, Bool.not_false, if_true]
      simp only [set_marked_layout]

theorem MarkInv_init (s0 : State) : MarkInv s0 s0 (fun _ => False) where
  frame := fun _ => ⟨rfl, rfl, rfl, rfl, rfl⟩
  mem_eq := rfl
  globals := ⟨rfl, rfl, rfl, rfl, rfl⟩
  stack_reach := fun _ hp hp0 => Reach.root hp hp0
  sound := fun _ h => Or.inl h
  mono := fun _ h => h
  visited_marked := fun _ h => h.elim
  roots_seen := fun _ hr _ => Or.inr hr
  closed := fun _ h => h.elim

/-- Popping a null pointer keeps the invariant. -/
theorem MarkInv_pop_null {s0 s : State} {V : Nat → Prop} {rest : List Nat}
    (hinv : MarkInv s0 s V) (h : s.root_set_head = NULL :: rest) :
    MarkInv s0 { s with root_set_head := rest } V where
  frame := hinv.frame
  mem_eq := hinv.mem_eq
  globals := hinv.globals
  stack_reach := fun p hp hp0 => hinv.stack_reach p (by rw [h]; exact List.mem_cons_of_mem _ hp) hp0
  sound := hinv.sound
  mono := hinv.mono
  visited_marked := hinv.visited_marked
  roots_seen := fun r hr hr0 => by
    rcases hinv.roots_seen r hr hr0 with e | e
    · exact Or.inl e
    · rw [h] at e
      rcases List.mem_cons.1 e with e | e
      · exact absurd e hr0
      · exact Or.inr e
  closed := fun p hp L hL q hq hq0 => by
    rcases hinv.closed p hp L hL q hq hq0 with e | e
    · exact Or.inl e
    · rw [h] at e
      rcases List.mem_cons.1 e with e | e
      · exact absurd e hq0
      · exact Or.inr e

/-- Visiting a non-null pointer (marking its header and pushing its pointer
words) keeps the invariant. -/
theorem MarkInv_visit {s0 s : State} {V : Nat → Prop} {p : Nat} {rest : List Nat}
    {L : gc_layout_s} (hinv : MarkInv s0 s V) (h : s.root_set_head = p :: rest)
    (hp : p ≠ NULL) (hL : (s.hdr (BLOCK_TO_HEADER p)).layout = some L) :
    MarkInv s0 { s with
        root_set_head := (children s.mem p L).reverse ++ rest
        hdr := set_marked s.hdr (BLOCK_TO_HEADER p) true }
      (fun x => V x ∨ x = p) := by
  have hreach : Reach s0 p := hinv.stack_reach p (by rw [h]; exact List.mem_cons_self _ _) hp
  have hL0 : (s0.hdr (BLOCK_TO_HEADER p)).layout = some L := by
    rw [← (hinv.frame _).2.2.2.2]; exact hL
  constructor
  · intro a
    obtain ⟨f1, f2, f3, f4, f5⟩ := hinv.frame a
    exact ⟨by rw [set_marked_next]; exact f1, by rw [set_marked_prev]; exact f2,
      by rw [set_marked_size]; exact f3, by rw [set_marked_allocated]; exact f4,
      by rw [set_marked_layout]; exact f5⟩
  · exact hinv.mem_eq
  · exact hinv.globals
  · intro q hq hq0
    rcases List.mem_append.1 hq with e | e
    · refine Reach.step hreach hL0 ?_ hq0
      rw [← hinv.mem_eq]; exact List.mem_reverse.1 e
    · exact hinv.stack_reach q (by rw [h]; exact List.mem_cons_of_mem _ e) hq0
  · intro a ha
    rw [set_marked_marked] at ha
    split_ifs at ha with e
    · exact Or.inr ⟨p, hreach, e⟩
    · exact hinv.sound a ha
  · intro a ha
    dsimp only
    rw [set_marked_marked]
    split_ifs
    · rfl
    · exact hinv.mono a ha
  · intro x hx
    dsimp only
    rw [set_marked_marked]
    split_ifs with e
    · rfl
    · rcases hx with hx | hx
      · exact hinv.visited_marked x hx
      · exact absurd (by rw [hx]) e
  · intro r hr hr0
    rcases hinv.roots_seen r hr hr0 with e | e
    · exact Or.inl (Or.inl e)
    · rw [h] at e
      rcases List.mem_cons.1 e with e | e
      · exact Or.inl (Or.inr e)
      · exact Or.inr (List.mem_append_right _ e)
  · intro x hx L1 hL1 q hq hq0
    rcases hx with hx | hx
    · rcases hinv.closed x hx L1 hL1 q hq hq0 with e | e
      · exact Or.inl (Or.inl e)
      · rw [h] at e
        rcases List.mem_cons.1 e with e | e
        · exact Or.inl (Or.inr e)
        · exact Or.inr (List.mem_append_right _ e)
    · subst hx
      rw [hL0] at hL1
      injection hL1 with hL1
      subst hL1
      right
      refine List.mem_append_left _ (List.mem_reverse.2 ?_)
      rw [hinv.mem_eq]; exact hq

/-- The loop of `mark` keeps its invariant and ends with an empty stack. -/
theorem mark_inv (s0 : State) :
    ∀ (fuel : Nat) (s s1 : State) (V : Nat → Prop), MarkInv s0 s V → mark fuel s = .ok s1 →
      ∃ V1, MarkInv s0 s1 V1 ∧ s1.root_set_head = []
  | 0, s, s1, V, hinv, h => by
    rw [mark_zero] at h
    split_ifs at h with e
    injection h with h
    subst h
    exact ⟨V, hinv, e⟩
  | fuel + 1, s, s1, V, hinv, h => by
    cases hs : s.root_set_head with
    | nil =>
      rw [mark, if_pos hs] at h
      injection h with h
      subst h
      exact ⟨V, hinv, hs⟩
    | cons p rest =>
      rw [mark_succ_cons fuel s p rest hs] at h
      by_cases hp : p = NULL
      · rw [if_neg (not_not.2 hp)] at h
        subst hp
        exact mark_inv s0 fuel _ s1 V (MarkInv_pop_null hinv hs) h
      · rw [if_pos hp] at h
        cases hL : (s.hdr (BLOCK_TO_HEADER p)).layout with
        | none => rw [hL] at h; cases h
        | some L =>
          rw [hL] at h
          dsimp only at h
          cases hc : mark_children p L L.num_ptrs 0
              { s with root_set_head := rest
                       hdr := set_marked s.hdr (BLOCK_TO_HEADER p) true } with
          | ok s3 =>
            rw [hc] at h
            dsimp only at h
            have e3 := mark_children_ok p L _ _ _ _ hc
            have hv := MarkInv_visit hinv hs hp hL
            refine mark_inv s0 fuel s3 s1 (fun x => V x ∨ x = p) ?_ h
            rw [e3]
            exact hv
          | error e => rw [hc] at h; cases h
          | fault => rw [hc] at h; cases h
          | timeout => rw [hc] at h; cases h

/-- What `mark` does when it returns: the stack is empty, only mark bits have
changed, and the marked headers are those marked before together with the
headers of the blocks reachable from the roots. -/
theorem mark_spec {fuel : Nat} {s s1 : State} (h : mark fuel s = .ok s1) :
    s1.root_set_head = [] ∧ SameButMarks s1.hdr s.hdr ∧ s1.mem = s.mem ∧
      (s1.free_addr = s.free_addr ∧ s1.start_addr = s.start_addr ∧
        s1.end_addr = s.end_addr ∧ s1.free_list_head = s.free_list_head ∧
        s1.allocated_list_head = s.allocated_list_head) ∧
      ∀ a, (s1.hdr a).marked = true ↔
        ((s.hdr a).marked = true ∨ ∃ p, Reach s p ∧ a = BLOCK_TO_HEADER p) := by
  obtain ⟨V, hinv, he⟩ := mark_inv s fuel s s1 _ (MarkInv_init s) h
  refine ⟨he, hinv.frame, hinv.mem_eq, hinv.globals, fun a => ⟨hinv.sound a, ?_⟩⟩
  rintro (hm | ⟨p, hp, rfl⟩)
  · exact hinv.mono a hm
  · apply hinv.visited_marked
    induction hp with
    | root hr hr0 =>
      rcases hinv.roots_seen _ hr hr0 with e | e
      · exact e
      · rw [he] at e; cases e
    | step _ hL hq hq0 ih =>
      rcases hinv.closed _ ih _ hL _ hq hq0 with e | e
      · exact e
      · rw [he] at e; cases e

/-! ### Sweep -/

theorem sweep_loop_zero (cur : Nat) (s : State) :
    sweep_loop 0 cur s = if cur = NULL then .ok s else .timeout := rfl

theorem sweep_loop_succ (fuel cur : Nat) (s : State) :
    sweep_loop (fuel + 1) cur s =
      if cur = NULL then .ok s
      else if (s.hdr cur).marked then
        sweep_loop fuel (s.hdr cur).next { s with hdr := set_marked s.hdr cur false }
      else
        match gc_free (HEADER_TO_BLOCK cur) s with
        | .ok s1 => sweep_loop fuel (s.hdr cur).next s1
        | .error e => .error e
        | .fault => .fault
        | .timeout => .timeout := rfl

/-- More fuel does not change a result of the sweep loop. -/
theorem sweep_loop_mono :
    ∀ (fuel : Nat) (cur : Nat) (s s1 : State), sweep_loop fuel cur s = .ok s1 →
      ∀ fuel1, fuel ≤ fuel1 → sweep_loop fuel1 cur s = .ok s1
  | 0, cur, s, s1, h, fuel1, _ => by
    rw [sweep_loop_zero] at h
    split_ifs at h with hc
    cases fuel1 with
    | zero => rw [sweep_loop_zero, if_pos hc]; exact h
    | succ n => rw [sweep_loop_succ, if_pos hc]; exact h
  | fuel + 1, cur, s, s1, h, fuel1, hle => by
    cases fuel1 with
    | zero => omega
    | succ n =>
      rw [sweep_loop_succ] at h ⊢
      by_cases hc : cur = NULL
      · rw [if_pos hc] at h ⊢; exact h
      · rw [if_neg hc] at h ⊢
        by_cases hm : (s.hdr cur).marked = true
        · rw [if_pos hm] at h ⊢
          exact sweep_loop_mono fuel _ _ s1 h n (by omega)
        · rw [if_neg hm] at h ⊢
          cases hf : gc_free (HEADER_TO_BLOCK cur) s with
          | ok s2 =>
            rw [hf] at h
            exact sweep_loop_mono fuel _ _ s1 h n (by omega)
          | error e => rw [hf] at h; cases h
          | fault => rw [hf] at h; cases h
          | timeout => rw [hf] at h; cases h

/-- Clearing a mark keeps a state well formed. -/
theorem WF_set_marked {s : State} {la lf : List Nat} (hwf : WF s la lf) (x : Nat) (v : Bool) :
    WF { s with hdr := set_marked s.hdr x v } la lf where
  alloc := IsList_frame _ _ _ (fun _ _ => ⟨set_marked_next _ _ _ _, set_marked_prev _ _ _ _⟩) hwf.alloc
  free := IsList_frame _ _ _ (fun _ _ => ⟨set_marked_next _ _ _ _, set_marked_prev _ _ _ _⟩) hwf.free
  nodup := hwf.nodup
  alloc_flag := fun h hh => (set_marked_allocated _ _ _ _).trans (hwf.alloc_flag h hh)
  free_flag := fun h hh => (set_marked_allocated _ _ _ _).trans (hwf.free_flag h hh)
  bound := hwf.bound

/-- The sweep loop over the unvisited part `rest` of the allocated list of a
well-formed state: with fuel for every member it returns; the marked members
stay on the allocated list, in order, and the unmarked ones are pushed onto the
free list one after the other. -/
theorem sweep_loop_spec :
    ∀ (rest kept lf : List Nat) (s : State) (fuel : Nat), WF s (kept ++ rest) lf →
      rest.length ≤ fuel →
      ∃ s1, sweep_loop fuel (rest.headD NULL) s = .ok s1 ∧
        WF s1 (kept ++ rest.filter (fun h => (s.hdr h).marked))
          ((rest.filter (fun h => !(s.hdr h).marked)).reverse ++ lf) ∧
        SweepSpec s s1 rest
  | [], kept, lf, s, fuel, hwf, _ => by
    refine ⟨s, ?_, by simpa using hwf, ⟨by simp, by simp, fun _ => rfl, fun _ => rfl,
      ⟨rfl, rfl, rfl, rfl, rfl⟩⟩⟩
    cases fuel with
    | zero => rfl
    | succ n => rfl
  | x :: xs, kept, lf, s, fuel, hwf, hfuel => by
    cases fuel with
    | zero => simp at hfuel
    | succ fuel =>
    have hfuel1 : xs.length ≤ fuel := by simpa using hfuel
    have hx0 : x ≠ NULL := IsList_ne_null _ _ _ hwf.alloc x (by simp)
    have hnext : (s.hdr x).next = xs.headD NULL := (IsList_next kept xs _ _ x hwf.alloc).1
    have hnd : (kept ++ x :: xs).Nodup := (List.nodup_append.1 hwf.nodup).1
    have hxk : x ∉ kept := fun h => (List.nodup_append.1 hnd).2.2 h (List.mem_cons_self _ _)
    have hxxs : x ∉ xs := (List.nodup_cons.1 (List.nodup_append.1 hnd).2.1).1
    rw [List.headD_cons, sweep_loop_succ, if_neg hx0, hnext]
    by_cases hm : (s.hdr x).marked = true
    · rw [if_pos hm]
      have hwf1 : WF { s with hdr := set_marked s.hdr x false } ((kept ++ [x]) ++ xs) lf := by
        have := WF_set_marked hwf x false
        simpa using this
      obtain ⟨s1, h1, hwfs, hsp⟩ := sweep_loop_spec xs (kept ++ [x]) lf _ fuel hwf1 hfuel1
      refine ⟨s1, h1, ?_, ?_⟩
      · have e1 : xs.filter (fun h => (set_marked s.hdr x false h).marked) =
            xs.filter (fun h => (s.hdr h).marked) := by
          apply List.filter_congr
          intro y hy
          rw [set_marked_marked, if_neg (fun (e : y = x) => hxxs (e ▸ hy))]
        have e2 : xs.filter (fun h => !(set_marked s.hdr x false h).marked) =
            xs.filter (fun h => !(s.hdr h).marked) := by
          apply List.filter_congr
          intro y hy
          rw [set_marked_marked, if_neg (fun (e : y = x) => hxxs (e ▸ hy))]
        have hwfs1 : WF s1 ((kept ++ [x]) ++ xs.filter (fun h => (s.hdr h).marked))
            ((xs.filter (fun h => !(s.hdr h).marked)).reverse ++ lf) := by
          rw [← e1, ← e2]; exact hwfs
        have f1 : (x :: xs).filter (fun h => (s.hdr h).marked) =
            x :: xs.filter (fun h => (s.hdr h).marked) := by
          rw [List.filter_cons, if_pos hm]
        have f2 : (x :: xs).filter (fun h => !(s.hdr h).marked) =
            xs.filter (fun h => !(s.hdr h).marked) := by
          rw [List.filter_cons, if_neg (by simp [hm])]
        rw [f1, f2]
        simpa using hwfs1
      · constructor
        · intro a
          have := hsp.marked a
          dsimp only at this
          rw [this, set_marked_marked]
          by_cases ha : a = x
          · subst ha; simp
          · simp [ha]
        · intro a
          have := hsp.allocated a
          dsimp only at this
          rw [this, set_marked_marked, set_marked_allocated]
          by_cases ha : a = x
          · subst ha; simp [hxxs, hm]
          · simp [ha]
        · intro a; have := hsp.size a; dsimp only at this; rw [this, set_marked_size]
        · intro a; have := hsp.layout a; dsimp only at this; rw [this, set_marked_layout]
        · exact hsp.globals
    · rw [if_neg hm]
      obtain ⟨s1, hfree, hwf1, hh, hg⟩ := gc_free_WF hwf x (by simp)
      rw [hfree]
      dsimp only
      have herase : (kept ++ x :: xs).erase x = kept ++ xs := by
        rw [List.erase_append_right _ hxk, List.erase_cons_head]
      rw [herase] at hwf1
      obtain ⟨s2, h2, hwfs, hsp⟩ := sweep_loop_spec xs kept (x :: lf) s1 fuel hwf1 hfuel1
      have hmf : (s.hdr x).marked = false := by simpa using hm
      have e1 : xs.filter (fun h => (s1.hdr h).marked) =
          xs.filter (fun h => (s.hdr h).marked) := by
        apply List.filter_congr
        intro y _
        rw [hh, free_hdr_marked]
      have e2 : xs.filter (fun h => !(s1.hdr h).marked) =
          xs.filter (fun h => !(s.hdr h).marked) := by
        apply List.filter_congr
        intro y _
        rw [hh, free_hdr_marked]
      refine ⟨s2, h2, ?_, ?_⟩
      · have f1 : (x :: xs).filter (fun h => (s.hdr h).marked) =
            xs.filter (fun h => (s.hdr h).marked) := by
          rw [List.filter_cons, if_neg hm]
        have f2 : (x :: xs).filter (fun h => !(s.hdr h).marked) =
            x :: xs.filter (fun h => !(s.hdr h).marked) := by
          rw [List.filter_cons, if_pos (by simp [hmf])]
        rw [f1, f2, ← e1, ← e2]
        simpa using hwfs
      · constructor
        · intro a
          rw [hsp.marked a, hh, free_hdr_marked]
          by_cases ha : a = x
          · subst ha; simp [hmf, hxxs]
          · simp [ha]
        · intro a
          rw [hsp.allocated a, hh, free_hdr_marked, free_hdr_allocated]
          by_cases ha : a = x
          · subst ha; simp [hmf]
          · simp [ha]
        · intro a; rw [hsp.size a, hh, free_hdr_size]
        · intro a; rw [hsp.layout a, hh, free_hdr_layout]
        · obtain ⟨g1, g2, g3, g4, g5⟩ := hsp.globals
          obtain ⟨k1, k2, k3, k4, k5⟩ := hg
          exact ⟨g1.trans k1, g2.trans k2, g3.trans k3, g4.trans k4, g5.trans k5⟩

/-! ### Collection -/

/-- The ways in which `gc` returns. -/
theorem gc_cases {fuel : Nat} {s s2 : State} (h : gc fuel s = .ok s2) :
    ∃ s1, mark fuel s = .ok s1 ∧ sweep_loop fuel s1.allocated_list_head s1 = .ok s2 ∧
      s2.root_set_head = [] := by
  unfold gc at h
  cases hm : mark fuel s with
  | ok s1 =>
    rw [hm] at h
    dsimp only at h
    refine ⟨s1, rfl, ?_⟩
    unfold sweep at h
    cases hs : sweep_loop fuel s1.allocated_list_head s1 with
    | ok s3 =>
      rw [hs] at h
      dsimp only at h
      split_ifs at h with he
      injection h with h
      subst h
      exact ⟨rfl, he⟩
    | error e => rw [hs] at h; cases h
    | fault => rw [hs] at h; cases h
    | timeout => rw [hs] at h; cases h
  | error e => rw [hm] at h; cases h
  | fault => rw [hm] at h; cases h
  | timeout => rw [hm] at h; cases h

/-- Well-formedness does not depend on mark bits. -/
theorem WF_of_SameButMarks {s s1 : State} {la lf : List Nat} (hwf : WF s la lf)
    (hf : SameButMarks s1.hdr s.hdr) (ha : s1.allocated_list_head = s.allocated_list_head)
    (hfl : s1.free_list_head = s.free_list_head) : WF s1 la lf where
  alloc := by
    rw [ha]
    exact IsList_frame _ _ _ (fun x _ => ⟨(hf x).1, (hf x).2.1⟩) hwf.alloc
  free := by
    rw [hfl]
    exact IsList_frame _ _ _ (fun x _ => ⟨(hf x).1, (hf x).2.1⟩) hwf.free
  nodup := hwf.nodup
  alloc_flag := fun h hh => ((hf h).2.2.2.1).trans (hwf.alloc_flag h hh)
  free_flag := fun h hh => ((hf h).2.2.2.1).trans (hwf.free_flag h hh)
  bound := hwf.bound

/-- With valid pointers, everything reachable is the payload of an allocated
block. -/
theorem Reach_valid {s : State} {la lf : List Nat} (hwf : WF s la lf)
    (hv : ValidPointers s la) {p : Nat} (hp : Reach s p) :
    ∃ h ∈ la, p = HEADER_TO_BLOCK h := by
  induction hp with
  | root hr hr0 =>
    rcases hv.1 _ hr with e | e
    · exact absurd e hr0
    · obtain ⟨h, hh, e⟩ := List.mem_map.1 e
      exact ⟨h, hh, e.symm⟩
  | @step p q L _ hL hq hq0 ih =>
    obtain ⟨h, hh, e⟩ := ih
    have hbd := hwf.bound h (List.mem_append_left _ hh)
    have hrt : BLOCK_TO_HEADER p = h := by
      rw [e]; exact BLOCK_TO_HEADER_HEADER_TO_BLOCK h (lt_of_le_of_lt (Nat.le_add_right _ _) hbd)
    have hw : q ∈ block_words s h := by
      unfold block_words
      rw [← hrt, hL]
      dsimp only
      rw [hrt, ← e]
      exact hq
    rcases hv.2 h hh q hw with e2 | e2
    · exact absurd e2 hq0
    · obtain ⟨h2, hh2, e3⟩ := List.mem_map.1 e2
      exact ⟨h2, hh2, e3.symm⟩

/-- The state in which `gc` returns, for a well-formed state: the allocated
list keeps the members marked by `mark`, the others are on the free list. -/
theorem gc_spec {fuel : Nat} {s s2 : State} {la lf : List Nat} (hwf : WF s la lf)
    (h : gc fuel s = .ok s2) :
    ∃ s1, mark fuel s = .ok s1 ∧
      WF s2 (la.filter (fun h => (s1.hdr h).marked))
        ((la.filter (fun h => !(s1.hdr h).marked)).reverse ++ lf) ∧
      SweepSpec s1 s2 la ∧ s2.root_set_head = [] := by
  obtain ⟨s1, hm, hs, he⟩ := gc_cases h
  obtain ⟨_, hfr, _, hg, _⟩ := mark_spec hm
  have hwf1 : WF s1 ([] ++ la) lf := by
    rw [List.nil_append]
    exact WF_of_SameButMarks hwf hfr hg.2.2.2.2 hg.2.2.2.1
  obtain ⟨s3, h3, hwf3, hsp⟩ :=
    sweep_loop_spec la [] lf s1 (max fuel la.length) hwf1 (le_max_right _ _)
  have hhead : s1.allocated_list_head = la.headD NULL := IsList_head _ _ _ hwf1.alloc
  rw [hhead] at hs
  have := sweep_loop_mono fuel _ _ s2 hs (max fuel la.length) (le_max_left _ _)
  rw [h3] at this
  injection this with this
  subst this
  rw [List.nil_append] at hwf3
  exact ⟨s1, hm, hwf3, hsp, he⟩

/-! ### Survivors and garbage -/

/-- After a returning `gc` on a well-formed state with valid pointers, a
reachable block is a member of the allocated list, flagged allocated and
unmarked, and payload memory is untouched. -/
theorem gc_keeps_reachable {fuel : Nat} {s s2 : State} {la lf : List Nat} (hwf : WF s la lf)
    (hv : ValidPointers s la) (hgc : gc fuel s = .ok s2) {p : Nat} (hp : Reach s p) :
    ∃ la2 lf2, WF s2 la2 lf2 ∧ BLOCK_TO_HEADER p ∈ la2 ∧
      (s2.hdr (BLOCK_TO_HEADER p)).allocated = true ∧
      (s2.hdr (BLOCK_TO_HEADER p)).marked = false ∧ s2.mem = s.mem := by
  obtain ⟨s1, hm, hwf2, hsp, _⟩ := gc_spec hwf hgc
  obtain ⟨_, _, hmem, _, hmk⟩ := mark_spec hm
  obtain ⟨h, hh, e⟩ := Reach_valid hwf hv hp
  have hbd := hwf.bound h (List.mem_append_left _ hh)
  have hrt : BLOCK_TO_HEADER p = h := by
    rw [e]; exact BLOCK_TO_HEADER_HEADER_TO_BLOCK h (lt_of_le_of_lt (Nat.le_add_right _ _) hbd)
  have hmarked : (s1.hdr h).marked = true := (hmk h).2 (Or.inr ⟨p, hp, hrt.symm⟩)
  have hmem2 : h ∈ la.filter (fun h => (s1.hdr h).marked) :=
    List.mem_filter.2 ⟨hh, hmarked⟩
  rw [hrt]
  refine ⟨_, _, hwf2, hmem2, hwf2.alloc_flag h hmem2, ?_, hsp.globals.2.2.2.2.trans hmem⟩
  rw [hsp.marked h, if_pos hh]

/-- After a returning `gc` on a well-formed state with valid pointers and clear
marks, an allocated block that is not reachable is a member of the free list
and flagged free. -/
theorem gc_frees_unreachable {fuel : Nat} {s s2 : State} {la lf : List Nat} (hwf : WF s la lf)
    (hmarks : ∀ h ∈ la, (s.hdr h).marked = false)
    (hv : ValidPointers s la) (hgc : gc fuel s = .ok s2) {h : Nat} (hh : h ∈ la)
    (hun : ¬ Reach s (HEADER_TO_BLOCK h)) :
    ∃ la2 lf2, WF s2 la2 lf2 ∧ h ∈ lf2 ∧ h ∉ la2 ∧ (s2.hdr h).allocated = false := by
  obtain ⟨s1, hm, hwf2, hsp, _⟩ := gc_spec hwf hgc
  obtain ⟨_, _, _, _, hmk⟩ := mark_spec hm
  have hunmarked : (s1.hdr h).marked = false := by
    by_contra hc
    have hc1 : (s1.hdr h).marked = true := by simpa using hc
    rcases (hmk h).1 hc1 with e | ⟨p, hp, e⟩
    · rw [hmarks h hh] at e; cases e
    · obtain ⟨h2, hh2, e2⟩ := Reach_valid hwf hv hp
      have hbd := hwf.bound h2 (List.mem_append_left _ hh2)
      have hrt : BLOCK_TO_HEADER p = h2 := by
        rw [e2]
        exact BLOCK_TO_HEADER_HEADER_TO_BLOCK h2 (lt_of_le_of_lt (Nat.le_add_right _ _) hbd)
      rw [hrt] at e
      subst e
      exact hun (e2 ▸ hp)
  have hmem2 : h ∈ (la.filter (fun h => !(s1.hdr h).marked)).reverse ++ lf :=
    List.mem_append_left _ (List.mem_reverse.2 (List.mem_filter.2 ⟨hh, by simp [hunmarked]⟩))
  refine ⟨_, _, hwf2, hmem2, ?_, hwf2.free_flag h hmem2⟩
  intro hc
  have := (List.mem_filter.1 hc).2
  rw [hunmarked] at this
  cases this

/-! ### Concrete heaps -/

theorem gctest_gc : gc 10 gctest_state = .ok gctest_after := rfl

theorem gctest_WF : WF gctest_state [4216, 4168, 4104] [] where
  alloc := ⟨rfl, by decide, rfl, rfl, by decide, rfl, rfl, by decide, rfl, rfl⟩
  free := rfl
  nodup := by decide
  alloc_flag := by decide
  free_flag := by decide
  bound := by decide

theorem gctest_valid : ValidPointers gctest_state [4216, 4168, 4104] := by
  constructor
  · decide
  · decide

theorem gctest_reach : Reach gctest_state 4208 :=
  Reach.step (p := 4144) (q := 4208) (L := array_layout)
    (Reach.root (by decide) (by decide)) rfl (by decide) (by decide)

theorem garbage_gc : gc 10 garbage_state = .ok garbage_after := rfl

theorem garbage_WF : WF garbage_state [4216, 4168, 4104] [] where
  alloc := ⟨rfl, by decide, rfl, rfl, by decide, rfl, rfl, by decide, rfl, rfl⟩
  free := rfl
  nodup := by decide
  alloc_flag := by decide
  free_flag := by decide
  bound := by decide

theorem garbage_valid : ValidPointers garbage_state [4216, 4168, 4104] := by
  constructor
  · decide
  · decide

theorem garbage_reach {p : Nat} (h : Reach garbage_state p) : p = 4208 := by
  induction h with
  | root hr _ => simpa [garbage_state] using hr
  | step _ hL hq _ ih =>
    subst ih
    have e : (garbage_state.hdr (BLOCK_TO_HEADER 4208)).layout = some int_layout := rfl
    rw [e] at hL
    injection hL with hL
    subst hL
    simp [children, int_layout] at hq

theorem gctest_free : gc_free 4208 gctest_state = .ok gctest_freed := rfl

/-! ### Specified properties -/

/-- C7: `gc_free(p)` ends in the fatal double-free error exactly when `p` is not
null and the header of `p` has `allocated = false` (the process stops there, so
no list is written); `gc_free(NULL)` returns the state unchanged; and after a
`gc_free(p)` that returned, a second `gc_free(p)` of the same non-null pointer
ends in the double-free error. -/
theorem C7_double_free (p : Nat) (s : State) :
    (gc_free p s = .error .double_free ↔
        (p ≠ NULL ∧ (s.hdr (BLOCK_TO_HEADER p)).allocated = false)) ∧
      gc_free NULL s = .ok s ∧
      (∀ s1, p ≠ NULL → gc_free p s = .ok s1 → gc_free p s1 = .error .double_free) := by
  refine ⟨?_, rfl, ?_⟩
  · constructor
    · intro h
      by_cases hp : p = NULL
      · unfold gc_free at h; rw [if_pos hp] at h; cases h
      · refine ⟨hp, ?_⟩
        by_contra ha
        have ha1 : (s.hdr (BLOCK_TO_HEADER p)).allocated = true := by simpa using ha
        rw [gc_free_eq p s hp ha1] at h
        cases h
    · rintro ⟨hp, ha⟩
      unfold gc_free
      rw [if_neg hp]
      simp only [ha, Bool.not_false, if_true]
  · intro s1 hp h
    rcases gc_free_cases h with ⟨e, _⟩ | ⟨_, _, e⟩
    · exact absurd e hp
    · subst e
      unfold gc_free
      rw [if_neg hp]
      dsimp only
      rw [free_hdr_allocated, if_pos rfl]
      rfl

/-- C7, on the heap of `gctest.c`: freeing the `int` at 4208 twice. -/
theorem C7_double_free_witness : gc_free 4208 gctest_freed = .error .double_free :=
  (C7_double_free 4208 gctest_state).2.2 gctest_freed (by decide) gctest_free

theorem fresh_WF : WF fresh_state [] [] where
  alloc := rfl
  free := rfl
  nodup := by decide
  alloc_flag := by decide
  free_flag := by decide
  bound := by decide

theorem bestfit_WF : WF bestfit_state [] [4216, 4392, 4104] where
  alloc := rfl
  free := ⟨rfl, by decide, rfl, rfl, by decide, rfl, rfl, by decide, rfl, rfl⟩
  nodup := by decide
  alloc_flag := by decide
  free_flag := by decide
  bound := by decide

theorem fresh_gc_new : gc_new 4096 0 int_layout fresh_state = .ok (4144, fresh_new) := rfl

theorem nullroots_gc : gc 10 nullroots_state = .ok nullroots_after := rfl

/-- C8 (the code at the failing input): on an initialised empty heap `gc_new` of
a layout of size zero returns `NULL`, and yet it has stored the layout in the
`layout` field of the header address computed from `NULL`, which is
`2^64 - 40`. -/
theorem C8_gc_new_null_write :
    ∃ s1, gc_new 4096 0 empty_layout fresh_state = .ok (NULL, s1) ∧
      BLOCK_TO_HEADER NULL = 18446744073709551576 ∧
      (fresh_state.hdr (BLOCK_TO_HEADER NULL)).layout = none ∧
      (s1.hdr (BLOCK_TO_HEADER NULL)).layout = some empty_layout :=
  ⟨_, rfl, rfl, rfl, rfl⟩

/-- C10 (counterexample): on the initialised empty heap at 4096, `gc_malloc(0)`
returns `NULL` but moves the frontier from 4096 to 4104. -/
theorem C10_counterexample :
    gc_malloc 4096 0 0 fresh_state = .ok (NULL, padded fresh_state) ∧
      fresh_state.free_addr = 4096 ∧ (padded fresh_state).free_addr = 4104 :=
  ⟨rfl, rfl, rfl⟩

/-- C10 (amended): on an initialised state `gc_malloc(0)` returns `NULL` and
leaves both lists, every header, the root set, payload memory and the heap
bounds unchanged; the frontier is advanced by the alignment padding
`(40 + 16 - free_addr mod 16) mod 16`. -/
theorem C10_gc_malloc_zero (heap fuel : Nat) (s : State) (h : s.start_addr ≠ 0) :
    ∃ s1, gc_malloc heap fuel 0 s = .ok (NULL, s1) ∧
      s1.free_list_head = s.free_list_head ∧
      s1.allocated_list_head = s.allocated_list_head ∧ s1.hdr = s.hdr ∧
      s1.root_set_head = s.root_set_head ∧ s1.mem = s.mem ∧
      s1.start_addr = s.start_addr ∧ s1.end_addr = s.end_addr ∧
      s1.free_addr = wrap (s.free_addr + (40 + 16 - s.free_addr % 16) % 16) :=
  ⟨padded s, gc_malloc_zero heap fuel s h, rfl, rfl, rfl, rfl, rfl, rfl, rfl, rfl⟩

/-- C10 (amended), on the fresh heap. -/
theorem C10_gc_malloc_zero_witness :
    ∃ s1, gc_malloc 4096 0 0 fresh_state = .ok (NULL, s1) ∧
      s1.free_list_head = fresh_state.free_list_head ∧
      s1.allocated_list_head = fresh_state.allocated_list_head ∧ s1.hdr = fresh_state.hdr ∧
      s1.root_set_head = fresh_state.root_set_head ∧ s1.mem = fresh_state.mem ∧
      s1.start_addr = fresh_state.start_addr ∧ s1.end_addr = fresh_state.end_addr ∧
      s1.free_addr = wrap (fresh_state.free_addr + (40 + 16 - fresh_state.free_addr % 16) % 16) :=
  C10_gc_malloc_zero 4096 0 fresh_state (by decide)

/-- C11 (the code at the failing input): on the fresh heap, whose free list is
empty, a request of `2^63` bytes exceeds the heap (`4104 + 40 + 2^63` is beyond
`end_addr`), and yet `gc_malloc` returns the non-null pointer 4144, puts the
header 4104 on the allocated list and moves the frontier to `2^63 + 4144`. -/
theorem C11_overflow_not_rejected :
    ∃ s1, gc_malloc 4096 0 9223372036854775808 fresh_state = .ok (4144, s1) ∧
      fresh_state.free_list_head = NULL ∧
      fresh_state.end_addr < 4104 + 40 + 9223372036854775808 ∧
      s1.allocated_list_head = 4104 ∧ s1.free_addr = 9223372036854779952 :=
  ⟨_, rfl, rfl, by decide, rfl, rfl⟩

theorem mark_children_link (p : Nat) (s : State) :
    mark_children p link_layout link_layout.num_ptrs 0 s =
      .ok (rs_push (s.mem (wrap (p + 0))) s) := rfl

/-- On the two-block cycle the loop of `mark` never empties its stack. -/
theorem mark_cycle : ∀ (fuel : Nat) (s : State), OnCycle s → mark fuel s = .timeout
  | 0, s, h => by
    rw [mark_zero]
    rcases h.2.2.2.2 with e | e <;> rw [e] <;> rfl
  | fuel + 1, s, ⟨h1, h2, h3, h4, h5⟩ => by
    rcases h5 with e | e
    · rw [mark_succ_cons fuel s 4144 [] e, if_pos (by decide),
        show BLOCK_TO_HEADER 4144 = 4104 from rfl, h1]
      dsimp only
      rw [mark_children_link]
      dsimp only
      apply mark_cycle fuel
      refine ⟨?_, ?_, h3, h4, Or.inr ?_⟩
      · show (set_marked s.hdr 4104 true 4104).layout = _
        rw [set_marked_layout]; exact h1
      · show (set_marked s.hdr 4104 true 4152).layout = _
        rw [set_marked_layout]; exact h2
      · show [s.mem (wrap (4144 + 0))] = [4192]
        rw [show wrap (4144 + 0) = 4144 from rfl, h3]
    · rw [mark_succ_cons fuel s 4192 [] e, if_pos (by decide),
        show BLOCK_TO_HEADER 4192 = 4152 from rfl, h2]
      dsimp only
      rw [mark_children_link]
      dsimp only
      apply mark_cycle fuel
      refine ⟨?_, ?_, h3, h4, Or.inl ?_⟩
      · show (set_marked s.hdr 4152 true 4104).layout = _
        rw [set_marked_layout]; exact h1
      · show (set_marked s.hdr 4152 true 4152).layout = _
        rw [set_marked_layout]; exact h2
      · show [s.mem (wrap (4192 + 0))] = [4144]
        rw [show wrap (4192 + 0) = 4192 from rfl, h4]

/-- C3 (the code at the failing input): on the two-block cycle `a[0] = b`,
`b[0] = a` with `a` as only root, `gc()` does not return: for every amount of
fuel the model runs out of it, because `mark` pushes the pointer fields of a
block every time it pops it, whether or not its header is already marked. -/
theorem C3_gc_diverges_on_cycle : ∀ fuel, gc fuel cycle_state = .timeout := by
  intro fuel
  have h : mark fuel cycle_state = .timeout :=
    mark_cycle fuel cycle_state ⟨rfl, rfl, rfl, rfl, Or.inl rfl⟩
  unfold gc
  rw [h]

/-- C17 (the code at the failing input): a block obtained from `gc_malloc(8)` on
the fresh heap has no layout; with that block as root `gc()` reads the fields
of the null layout pointer, which the model reports as a fault. -/
theorem C17_null_layout_fault :
    (nolayout_state.hdr (BLOCK_TO_HEADER 4144)).layout = none ∧
      nolayout_state.root_set_head = [4144] ∧
      nolayout_state.allocated_list_head = BLOCK_TO_HEADER 4144 ∧
      ∀ fuel, gc (fuel + 1) nolayout_state = .fault := by
  refine ⟨rfl, rfl, rfl, fun fuel => ?_⟩
  have h : mark (fuel + 1) nolayout_state = .fault := by
    rw [mark_succ_cons fuel nolayout_state 4144 [] rfl, if_pos (by decide)]
    rfl
  unfold gc
  rw [h]

/-- The sweep loop does not touch the root-set stack. -/
theorem sweep_loop_roots :
    ∀ (fuel cur : Nat) (s s1 : State), sweep_loop fuel cur s = .ok s1 →
      s1.root_set_head = s.root_set_head
  | 0, cur, s, s1, h => by
    rw [sweep_loop_zero] at h
    split_ifs at h
    injection h with h
    rw [h]
  | fuel + 1, cur, s, s1, h => by
    rw [sweep_loop_succ] at h
    by_cases hc : cur = NULL
    · rw [if_pos hc] at h; injection h with h; rw [h]
    · rw [if_neg hc] at h
      by_cases hm : (s.hdr cur).marked = true
      · rw [if_pos hm] at h
        have e := sweep_loop_roots fuel _ _ s1 h
        exact e
      · rw [if_neg hm] at h
        cases hf : gc_free (HEADER_TO_BLOCK cur) s with
        | ok s2 =>
          rw [hf] at h
          have e := sweep_loop_roots fuel _ _ s1 h
          rcases gc_free_cases hf with ⟨_, e2⟩ | ⟨_, _, e2⟩
          · rw [e, e2]
          · rw [e, e2]
        | error e => rw [hf] at h; cases h
        | fault => rw [hf] at h; cases h
        | timeout => rw [hf] at h; cases h

/-- The only fatal error of `gc_free` is the double free. -/
theorem gc_free_error {p : Nat} {s : State} {e : Fatal} (h : gc_free p s = .error e) :
    e = .double_free := by
  by_cases hp : p = NULL
  · unfold gc_free at h; rw [if_pos hp] at h; cases h
  · by_cases ha : (s.hdr (BLOCK_TO_HEADER p)).allocated = true
    · rw [gc_free_eq p s hp ha] at h; cases h
    · unfold gc_free at h
      rw [if_neg hp] at h
      simp only [ha, Bool.not_false, if_true] at h
      injection h with h
      exact h.symm

/-- The only fatal error of the sweep loop is the double free. -/
theorem sweep_loop_error :
    ∀ (fuel cur : Nat) (s : State) (e : Fatal), sweep_loop fuel cur s = .error e →
      e = .double_free
  | 0, cur, s, e, h => by
    rw [sweep_loop_zero] at h
    split_ifs at h
  | fuel + 1, cur, s, e, h => by
    rw [sweep_loop_succ] at h
    by_cases hc : cur = NULL
    · rw [if_pos hc] at h; cases h
    · rw [if_neg hc] at h
      by_cases hm : (s.hdr cur).marked = true
      · rw [if_pos hm] at h
        exact sweep_loop_error fuel _ _ e h
      · rw [if_neg hm] at h
        cases hf : gc_free (HEADER_TO_BLOCK cur) s with
        | ok s2 =>
          rw [hf] at h
          exact sweep_loop_error fuel _ _ e h
        | error e2 =>
          rw [hf] at h
          injection h with h
          rw [← h]
          exact gc_free_error hf
        | fault => rw [hf] at h; cases h
        | timeout => rw [hf] at h; cases h

theorem mark_children_no_error (p : Nat) (L : gc_layout_s) :
    ∀ (k i : Nat) (s : State) (e : Fatal), mark_children p L k i s ≠ .error e
  | 0, _, _, _, h => by cases h
  | k + 1, i, s, e, h => by
    unfold mark_children at h
    cases ho : L.ptr_offsets[i]? with
    | none => rw [ho] at h; cases h
    | some off =>
      rw [ho] at h
      exact mark_children_no_error p L k (i + 1) _ e h

/-- The loop of `mark` raises no fatal error. -/
theorem mark_no_error : ∀ (fuel : Nat) (s : State) (e : Fatal), mark fuel s ≠ .error e
  | 0, s, e, h => by
    rw [mark_zero] at h
    split_ifs at h
  | fuel + 1, s, e, h => by
    cases hs : s.root_set_head with
    | nil => rw [mark, if_pos hs] at h; cases h
    | cons p rest =>
      rw [mark_succ_cons fuel s p rest hs] at h
      by_cases hp : p = NULL
      · rw [if_neg (not_not.2 hp)] at h
        exact mark_no_error fuel _ e h
      · rw [if_pos hp] at h
        cases hL : (s.hdr (BLOCK_TO_HEADER p)).layout with
        | none => rw [hL] at h; cases h
        | some L =>
          rw [hL] at h
          dsimp only at h
          cases hc : mark_children p L L.num_ptrs 0
              { s with root_set_head := rest
                       hdr := set_marked s.hdr (BLOCK_TO_HEADER p) true } with
          | ok s3 =>
            rw [hc] at h
            exact mark_no_error fuel s3 e h
          | error e2 => exact absurd hc (mark_children_no_error p L _ _ _ e2)
          | fault => rw [hc] at h; cases h
          | timeout => rw [hc] at h; cases h

/-- C12: whenever `gc()` returns, the root-set stack is empty, whatever roots
(null ones included) were registered; and the final assertion of `gc()` never
fails. -/
theorem C12_root_set_empty_after_gc (fuel : Nat) (s : State) :
    (∀ s2, gc fuel s = .ok s2 → s2.root_set_head = []) ∧
      gc fuel s ≠ .error .assertion_failed := by
  constructor
  · intro s2 h
    obtain ⟨_, _, _, he⟩ := gc_cases h
    exact he
  · intro h
    unfold gc at h
    cases hm : mark fuel s with
    | ok s1 =>
      rw [hm] at h
      dsimp only at h
      unfold sweep at h
      cases hs : sweep_loop fuel s1.allocated_list_head s1 with
      | ok s2 =>
        rw [hs] at h
        dsimp only at h
        have e1 := sweep_loop_roots _ _ _ _ hs
        have e2 := (mark_spec hm).1
        rw [if_pos (e1.trans e2)] at h
        cases h
      | error e =>
        rw [hs] at h
        injection h with h
        have := sweep_loop_error _ _ _ _ hs
        rw [h] at this
        cases this
      | fault => rw [hs] at h; cases h
      | timeout => rw [hs] at h; cases h
    | error e => exact mark_no_error fuel s e hm
    | fault => rw [hm] at h; cases h
    | timeout => rw [hm] at h; cases h

/-- C12, on the heap of `gctest.c` with two null roots besides the array. -/
theorem C12_root_set_empty_after_gc_witness : nullroots_after.root_set_head = [] :=
  (C12_root_set_empty_after_gc 10 nullroots_state).1 nullroots_after nullroots_gc

/-- C14 (the code at the failing input): on the fresh heap a request of
`2^64 - 48` bytes wraps the frontier back to 4096, so the next request is
bump-allocated at the same header 4104 and returns the same pointer 4144 again;
after `gc_free(4144)` the header 4104 is the head of the allocated list and of
the free list at once, with `allocated = false`. -/
theorem C14_overflow_breaks_partition :
    ∃ s1 s2 s3, gc_malloc 4096 0 18446744073709551568 fresh_state = .ok (4144, s1) ∧
      gc_malloc 4096 0 1 s1 = .ok (4144, s2) ∧ gc_free 4144 s2 = .ok s3 ∧
      s3.allocated_list_head = 4104 ∧ s3.free_list_head = 4104 ∧
      (s3.hdr 4104).allocated = false :=
  ⟨_, _, _, rfl, rfl, rfl, rfl, rfl, rfl⟩

/-- C15 (the code at the failing input): a request of `2^31 - 48` bytes on the
fresh heap fills the heap exactly (`free_addr = end_addr`); the alignment
padding of the following `gc_malloc(0)` then moves the frontier 8 bytes past
`end_addr`. -/
theorem C15_padding_passes_end :
    ∃ s1 s2, gc_malloc 4096 0 2147483600 fresh_state = .ok (4144, s1) ∧
      s1.free_addr = s1.end_addr ∧ gc_malloc 4096 0 0 s1 = .ok (NULL, s2) ∧
      s2.start_addr = 4096 ∧ s2.end_addr = 2147487744 ∧ s2.free_addr = 2147487752 :=
  ⟨_, _, rfl, rfl, rfl, rfl, rfl, rfl⟩

theorem rs_pop_push (p : Nat) (s : State) : rs_pop (rs_push p s) = (p, s) := rfl

theorem rs_pop_n_snoc : ∀ (k : Nat) (s : State),
    rs_pop_n (k + 1) s =
      ((rs_pop_n k s).1 ++ [(rs_pop (rs_pop_n k s).2).1], (rs_pop (rs_pop_n k s).2).2)
  | 0, s => rfl
  | k + 1, s => by
    have ih := rs_pop_n_snoc k (rs_pop s).2
    rw [rs_pop_n, ih]
    rfl

theorem rs_pop_push_all : ∀ (ps : List Nat) (s : State),
    rs_pop_n ps.length (rs_push_all ps s) = (ps.reverse, s)
  | [], s => rfl
  | p :: ps, s => by
    have ih := rs_pop_push_all ps (rs_push p s)
    rw [List.length_cons, rs_pop_n_snoc,
      show rs_push_all (p :: ps) s = rs_push_all ps (rs_push p s) from rfl, ih]
    simp [rs_pop_push]

/-- C19: the root-set stack is LIFO: a pop after a push returns the pushed
pointer (null included) and restores the stack; `gc_root_set_insert` is that
push; pushing `p1..pk` and popping `k` times yields `pk..p1` and the original
stack; a pop on the empty stack returns `NULL` and leaves it empty. -/
theorem C19_root_set_lifo (p : Nat) (ps : List Nat) (s : State) :
    rs_pop (rs_push p s) = (p, s) ∧ gc_root_set_insert p s = rs_push p s ∧
      rs_pop_n ps.length (rs_push_all ps s) = (ps.reverse, s) ∧
      rs_pop { s with root_set_head := [] } = (NULL, { s with root_set_head := [] }) :=
  ⟨rs_pop_push p s, rfl, rs_pop_push_all ps s, rfl⟩

/-! ### Collection without roots -/

theorem gctest_gc_twice : gc 10 gctest_after = .ok gctest_twice := rfl

/-- With an empty root set `mark` returns at once. -/
theorem mark_nil (fuel : Nat) (s : State) (h : s.root_set_head = []) : mark fuel s = .ok s := by
  cases fuel with
  | zero => rw [mark_zero, if_pos h]
  | succ n => rw [mark, if_pos h]

/-- With only null roots `mark` drains the stack and changes nothing else. -/
theorem mark_null_roots :
    ∀ (roots : List Nat) (fuel : Nat) (s : State), s.root_set_head = roots →
      (∀ r ∈ roots, r = NULL) → roots.length ≤ fuel →
      mark fuel s = .ok { s with root_set_head := [] }
  | [], fuel, s, h, _, _ => by
    rw [mark_nil fuel s h]
    cases s
    dsimp only at h
    subst h
    rfl
  | r :: rest, fuel, s, h, hn, hf => by
    cases fuel with
    | zero => simp at hf
    | succ fuel =>
      have hr : r = NULL := hn r (List.mem_cons_self _ _)
      rw [mark_succ_cons fuel s r rest h, if_neg (not_not.2 hr)]
      exact mark_null_roots rest fuel _ rfl (fun x hx => hn x (List.mem_cons_of_mem _ hx))
        (by simpa using hf)

theorem sweep_loop_null (fuel : Nat) (s : State) : sweep_loop fuel NULL s = .ok s := by
  cases fuel with
  | zero => rfl
  | succ n => rfl

/-- The collection of a well-formed state with clear marks whose roots are all
null: with fuel for the root set and for the allocated list `gc` returns, the
allocated list is empty and its former members are on the free list. -/
theorem gc_null_roots {s : State} {la lf : List Nat} (fuel : Nat) (hwf : WF s la lf)
    (hmarks : ∀ h ∈ la, (s.hdr h).marked = false)
    (hroots : ∀ r ∈ s.root_set_head, r = NULL)
    (hf1 : s.root_set_head.length ≤ fuel) (hf2 : la.length ≤ fuel) :
    ∃ s2, gc fuel s = .ok s2 ∧ WF s2 [] (la.reverse ++ lf) ∧
      SweepSpec { s with root_set_head := [] } s2 la := by
  have hm := mark_null_roots s.root_set_head fuel s rfl hroots hf1
  have hwf1 : WF { s with root_set_head := [] } ([] ++ la) lf := by
    rw [List.nil_append]
    exact ⟨hwf.alloc, hwf.free, hwf.nodup, hwf.alloc_flag, hwf.free_flag, hwf.bound⟩
  obtain ⟨s2, h2, hwf2, hsp⟩ := sweep_loop_spec la [] lf _ fuel hwf1 hf2
  have e1 : la.filter (fun h => (s.hdr h).marked) = [] := by
    rw [List.filter_eq_nil_iff]
    intro a ha
    rw [hmarks a ha]
    simp
  have e2 : la.filter (fun h => !(s.hdr h).marked) = la := by
    rw [List.filter_eq_self]
    intro a ha
    rw [hmarks a ha]
    rfl
  have hwf3 : WF s2 [] (la.reverse ++ lf) := by
    have := hwf2
    dsimp only at this
    rw [e1, e2] at this
    simpa using this
  refine ⟨s2, ?_, hwf3, hsp⟩
  have hhead : s.allocated_list_head = la.headD NULL := IsList_head _ _ _ hwf.alloc
  rw [← hhead] at h2
  unfold gc
  rw [hm]
  dsimp only
  unfold sweep
  dsimp only
  rw [h2]
  dsimp only
  rw [if_pos hsp.globals.2.2.2.1]

theorem AlignedPtr_null : AlignedPtr NULL := Or.inl rfl

theorem HEADER_TO_BLOCK_aligned (h : Nat) (hh : h % DBL_WORD_SIZE = 8) :
    HEADER_TO_BLOCK h % DBL_WORD_SIZE = 0 := by
  rw [HEADER_TO_BLOCK_def]
  unfold W sizeof_header_s DBL_WORD_SIZE at *
  omega

theorem BLOCK_TO_HEADER_aligned (p : Nat) (hp : p % DBL_WORD_SIZE = 0) :
    BLOCK_TO_HEADER p % DBL_WORD_SIZE = 8 := by
  rw [BLOCK_TO_HEADER_def]
  unfold W sizeof_header_s DBL_WORD_SIZE at *
  omega

theorem padded_aligned (s : State) : (padded s).free_addr % DBL_WORD_SIZE = 8 := by
  show wrap (s.free_addr + padding s.free_addr) % DBL_WORD_SIZE = 8
  rw [wrap_def]
  unfold padding W sizeof_header_s DBL_WORD_SIZE
  omega

theorem AlignedHdr_set_next {hdr : Nat → header_s} (h : AlignedHdr hdr) (p v : Nat)
    (hv : AlignedPtr v) : AlignedHdr (set_next hdr p v) := by
  intro a
  rw [set_next_next, set_next_prev, set_next_allocated]
  refine ⟨?_, (h a).2.1, (h a).2.2⟩
  split_ifs
  · exact hv
  · exact (h a).1

theorem AlignedHdr_set_prev {hdr : Nat → header_s} (h : AlignedHdr hdr) (p v : Nat)
    (hv : AlignedPtr v) : AlignedHdr (set_prev hdr p v) := by
  intro a
  rw [set_prev_next, set_prev_prev, set_prev_allocated]
  refine ⟨(h a).1, ?_, (h a).2.2⟩
  split_ifs
  · exact hv
  · exact (h a).2.1

theorem AlignedHdr_set_size {hdr : Nat → header_s} (h : AlignedHdr hdr) (p v : Nat) :
    AlignedHdr (set_size hdr p v) := by
  intro a
  rw [set_size_next, set_size_prev, set_size_allocated]
  exact h a

theorem AlignedHdr_set_marked {hdr : Nat → header_s} (h : AlignedHdr hdr) (p : Nat) (v : Bool) :
    AlignedHdr (set_marked hdr p v) := by
  intro a
  rw [set_marked_next, set_marked_prev, set_marked_allocated]
  exact h a

theorem AlignedHdr_set_layout {hdr : Nat → header_s} (h : AlignedHdr hdr) (p : Nat)
    (v : Option gc_layout_s) : AlignedHdr (set_layout hdr p v) := by
  intro a
  rw [set_layout_next, set_layout_prev, set_layout_allocated]
  exact h a

theorem AlignedHdr_set_allocated {hdr : Nat → header_s} (h : AlignedHdr hdr) (p : Nat)
    (v : Bool) (hp : v = true → p % DBL_WORD_SIZE = 8) : AlignedHdr (set_allocated hdr p v) := by
  intro a
  rw [set_allocated_next, set_allocated_prev, set_allocated_allocated]
  refine ⟨(h a).1, (h a).2.1, ?_⟩
  split_ifs with e
  · intro hv; rw [e]; exact hp hv
  · exact (h a).2.2

theorem AlignedHdr_unlink {hdr : Nat → header_s} (h : AlignedHdr hdr) (b : Nat) :
    AlignedHdr (unlink_hdr hdr b) := by
  unfold unlink_hdr
  have h1 : AlignedHdr (if (hdr b).prev = NULL then hdr
      else set_next hdr (hdr b).prev (hdr b).next) := by
    split_ifs
    · exact h
    · exact AlignedHdr_set_next h _ _ (h b).1
  generalize (if (hdr b).prev = NULL then hdr
      else set_next hdr (hdr b).prev (hdr b).next) = g at h1
  dsimp only
  split_ifs
  · exact AlignedHdr_set_prev h1 _ _ (h1 b).2.1
  · exact h1

theorem AlignedHdr_push {hdr : Nat → header_s} (h : AlignedHdr hdr) (b c : Nat)
    (hb : AlignedPtr b) (hc : AlignedPtr c) : AlignedHdr (push_hdr hdr b c) := by
  unfold push_hdr
  have h2 : AlignedHdr (set_prev (set_next hdr b c) b NULL) :=
    AlignedHdr_set_prev (AlignedHdr_set_next h b c hc) b NULL AlignedPtr_null
  dsimp only
  split_ifs
  · exact AlignedHdr_set_prev h2 _ _ hb
  · exact h2

theorem AlignedHdr_free {hdr : Nat → header_s} (h : AlignedHdr hdr) (b c : Nat)
    (hb : AlignedPtr b) (hc : AlignedPtr c) : AlignedHdr (free_hdr hdr b c) := by
  unfold free_hdr
  refine AlignedHdr_set_allocated (AlignedHdr_push ?_ b c hb hc) b false (fun e => by cases e)
  exact AlignedHdr_set_next (AlignedHdr_set_prev (AlignedHdr_unlink h b) b NULL AlignedPtr_null)
    b NULL AlignedPtr_null

theorem AlignedHdr_take {hdr : Nat → header_s} (h : AlignedHdr hdr) (b c : Nat)
    (hb : b % DBL_WORD_SIZE = 8) (hc : AlignedPtr c) : AlignedHdr (take_hdr hdr b c) := by
  unfold take_hdr
  refine AlignedHdr_push (AlignedHdr_set_allocated ?_ b true (fun _ => hb)) b c (Or.inr hb) hc
  exact AlignedHdr_set_next (AlignedHdr_set_prev (AlignedHdr_unlink h b) b NULL AlignedPtr_null)
    b NULL AlignedPtr_null

/-- The search returns an aligned header address. -/
theorem find_best_aligned {hdr : Nat → header_s} (h : AlignedHdr hdr) (size : Nat) :
    ∀ (fuel cur best r : Nat), AlignedPtr cur → AlignedPtr best →
      find_best hdr size fuel cur best = .ok r → AlignedPtr r
  | 0, cur, best, r, _, hb, hr => by
    rw [find_best_zero] at hr
    split_ifs at hr
    injection hr with hr
    rw [← hr]; exact hb
  | fuel + 1, cur, best, r, hc, hb, hr => by
    rw [find_best_succ] at hr
    have hpick : AlignedPtr (pick_best hdr size cur best) := by
      rcases pick_best_cases hdr size cur best with e | e
      · rw [e]; exact hb
      · rw [e.1]; exact hc
    split_ifs at hr
    · injection hr with hr; rw [← hr]; exact hb
    · injection hr with hr; rw [← hr]; exact hpick
    · exact find_best_aligned h size fuel _ _ r (h cur).1 hpick hr

theorem Aligned_gc_free {p : Nat} {s s1 : State} (ha : Aligned s) (h : gc_free p s = .ok s1) :
    Aligned s1 := by
  rcases gc_free_cases h with ⟨_, e⟩ | ⟨_, hal, e⟩
  · rw [e]; exact ha
  · subst e
    have hb : AlignedPtr (BLOCK_TO_HEADER p) := Or.inr ((ha.2.2 _).2.2 hal)
    refine ⟨hb, ?_, AlignedHdr_free ha.2.2 _ _ hb ha.1⟩
    dsimp only
    split_ifs
    · exact (ha.2.2 _).1
    · exact ha.2.1

/-- A returning `gc_malloc` keeps the alignment invariant and returns `NULL` or
a pointer on a double-word boundary. -/
theorem Aligned_gc_malloc {heap fuel n p : Nat} {s s1 : State} (ha : Aligned s)
    (h : gc_malloc heap fuel n s = .ok (p, s1)) :
    Aligned s1 ∧ (p = NULL ∨ p % DBL_WORD_SIZE = 0) := by
  obtain ⟨s0, hi, hc⟩ := gc_malloc_cases h
  obtain ⟨e1, _, e3, e4, _⟩ := gc_init_ok hi
  have ha0 : Aligned (padded s0) := by
    refine ⟨?_, ?_, ?_⟩
    · show AlignedPtr s0.free_list_head; rw [e3]; exact ha.1
    · show AlignedPtr s0.allocated_list_head; rw [e4]; exact ha.2.1
    · show AlignedHdr s0.hdr; rw [e1]; exact ha.2.2
  rcases hc with ⟨_, h0, e⟩ | ⟨_, r, hf, hc⟩
  · rw [e]; exact ⟨ha0, Or.inl h0⟩
  · have hbump : AlignedHdr (malloc_bump_header n (padded s0)).hdr := by
      unfold malloc_bump_header
      dsimp only
      exact AlignedHdr_set_allocated (AlignedHdr_set_size (AlignedHdr_set_prev
        (AlignedHdr_set_next ha0.2.2 _ _ AlignedPtr_null) _ _ AlignedPtr_null) _ _) _ true
        (fun _ => padded_aligned s0)
    rcases hc with ⟨hr, hres⟩ | ⟨_, _, h0, e⟩ | ⟨_, _, hres⟩
    · have har : AlignedPtr r :=
        find_best_aligned ha0.2.2 n fuel _ _ r ha0.1 AlignedPtr_null hf
      have hr8 : r % DBL_WORD_SIZE = 8 := by
        rcases har with e | e
        · exact absurd e hr
        · exact e
      have hp0 := HEADER_TO_BLOCK_aligned r hr8
      have hb8 := BLOCK_TO_HEADER_aligned _ hp0
      rw [malloc_prepend_eq] at hres
      injection hres with hp1 hs2
      subst hp1 hs2
      refine ⟨⟨?_, Or.inr hb8, ?_⟩, Or.inr hp0⟩
      · show AlignedPtr (malloc_take r (padded s0)).free_list_head
        unfold malloc_take
        dsimp only
        split_ifs
        · exact (ha0.2.2 r).1
        · exact ha0.1
      · dsimp only
        refine AlignedHdr_push ?_ _ _ (Or.inr hb8) ha0.2.1
        unfold malloc_take
        dsimp only
        exact AlignedHdr_set_allocated (AlignedHdr_set_next (AlignedHdr_set_prev
          (AlignedHdr_unlink ha0.2.2 r) r NULL AlignedPtr_null) r NULL AlignedPtr_null) r true
          (fun _ => hr8)
    · rw [e]
      exact ⟨⟨ha0.1, ha0.2.1, hbump⟩, Or.inl h0⟩
    · have hp0 := HEADER_TO_BLOCK_aligned _ (padded_aligned s0)
      have hb8 := BLOCK_TO_HEADER_aligned _ hp0
      rw [malloc_prepend_eq] at hres
      injection hres with hp1 hs2
      subst hp1 hs2
      refine ⟨⟨?_, Or.inr hb8, ?_⟩, Or.inr hp0⟩
      · exact ha0.1
      · dsimp only
        exact AlignedHdr_push hbump _ _ (Or.inr hb8) ha0.2.1

theorem Aligned_gc_new {heap fuel p : Nat} {L : gc_layout_s} {s s1 : State} (ha : Aligned s)
    (h : gc_new heap fuel L s = .ok (p, s1)) :
    Aligned s1 ∧ (p = NULL ∨ p % DBL_WORD_SIZE = 0) := by
  obtain ⟨s2, hm, e⟩ := gc_new_cases h
  obtain ⟨ha2, hp⟩ := Aligned_gc_malloc ha hm
  rw [e]
  exact ⟨⟨ha2.1, ha2.2.1, AlignedHdr_set_layout ha2.2.2 _ _⟩, hp⟩

theorem Aligned_sweep_loop :
    ∀ (fuel cur : Nat) (s s1 : State), Aligned s → sweep_loop fuel cur s = .ok s1 → Aligned s1
  | 0, cur, s, s1, ha, h => by
    rw [sweep_loop_zero] at h
    split_ifs at h
    injection h with h
    rw [← h]; exact ha
  | fuel + 1, cur, s, s1, ha, h => by
    rw [sweep_loop_succ] at h
    by_cases hc : cur = NULL
    · rw [if_pos hc] at h; injection h with h; rw [← h]; exact ha
    · rw [if_neg hc] at h
      by_cases hm : (s.hdr cur).marked = true
      · rw [if_pos hm] at h
        have ha1 : Aligned { s with hdr := set_marked s.hdr cur false } :=
          ⟨ha.1, ha.2.1, AlignedHdr_set_marked ha.2.2 cur false⟩
        exact Aligned_sweep_loop fuel _ _ s1 ha1 h
      · rw [if_neg hm] at h
        cases hf : gc_free (HEADER_TO_BLOCK cur) s with
        | ok s2 =>
          rw [hf] at h
          exact Aligned_sweep_loop fuel _ _ s1 (Aligned_gc_free ha hf) h
        | error e => rw [hf] at h; cases h
        | fault => rw [hf] at h; cases h
        | timeout => rw [hf] at h; cases h

theorem Aligned_gc {fuel : Nat} {s s1 : State} (ha : Aligned s) (h : gc fuel s = .ok s1) :
    Aligned s1 := by
  obtain ⟨s0, hm, hs, _⟩ := gc_cases h
  obtain ⟨_, hfr, _, hg, _⟩ := mark_spec hm
  refine Aligned_sweep_loop fuel _ s0 s1 ⟨?_, ?_, ?_⟩ hs
  · rw [hg.2.2.2.1]; exact ha.1
  · rw [hg.2.2.2.2]; exact ha.2.1
  · intro a
    obtain ⟨f1, f2, _, f4, _⟩ := hfr a
    rw [f1, f2, f4]
    exact ha.2.2 a

/-! ### Frame of the allocator on mark bits -/

theorem malloc_take_hdr (r : Nat) (s : State) :
    (malloc_take r s).hdr =
      set_allocated (set_next (set_prev (unlink_hdr s.hdr r) r NULL) r NULL) r true := rfl

/-- A returning `gc_malloc` writes no mark bit. -/
theorem gc_malloc_marked {heap fuel n p : Nat} {s s1 : State}
    (h : gc_malloc heap fuel n s = .ok (p, s1)) :
    ∀ a, (s1.hdr a).marked = (s.hdr a).marked := by
  obtain ⟨s0, hi, hc⟩ := gc_malloc_cases h
  obtain ⟨e1, _, _, _, _⟩ := gc_init_ok hi
  have hb : ∀ a, ((malloc_bump_header n (padded s0)).hdr a).marked = (s.hdr a).marked := by
    intro a
    unfold malloc_bump_header
    dsimp only
    rw [set_allocated_marked, set_size_marked, set_prev_marked, set_next_marked]
    show (s0.hdr a).marked = _
    rw [e1]
  intro a
  rcases hc with ⟨_, _, e⟩ | ⟨_, r, _, hc⟩
  · rw [e]; show (s0.hdr a).marked = _; rw [e1]
  · rcases hc with ⟨_, hres⟩ | ⟨_, _, _, e⟩ | ⟨_, _, hres⟩
    · rw [malloc_prepend_eq] at hres
      injection hres with _ hs2
      rw [hs2]
      dsimp only
      rw [push_hdr_marked, malloc_take_hdr, set_allocated_marked, set_next_marked,
        set_prev_marked, unlink_hdr_marked]
      show (s0.hdr a).marked = _
      rw [e1]
    · rw [e]; exact hb a
    · rw [malloc_prepend_eq] at hres
      injection hres with _ hs2
      rw [hs2]
      dsimp only
      rw [push_hdr_marked]
      exact hb a

/-- C16 (the code at the failing input): on the fresh heap (all marks false) a
request of `2^64 - 48` bytes returns 4144 and wraps the frontier back to 4096;
in the state so reached all marks are false, and `gc_malloc(1)` returns the
non-null pointer 4144 whose header 4104 heads the allocated list with
`prev = 4104` instead of `NULL`. -/
theorem C16_overflow_self_link :
    ∃ s1 s2, gc_malloc 4096 0 18446744073709551568 fresh_state = .ok (4144, s1) ∧
      (∀ a, (s1.hdr a).marked = false) ∧
      gc_malloc 4096 0 1 s1 = .ok (4144, s2) ∧ s2.allocated_list_head = 4104 ∧
      (s2.hdr 4104).prev = 4104 ∧ (s2.hdr 4104).next = 4104 :=
  ⟨_, _, rfl,
    fun a => (gc_malloc_marked
      (rfl : gc_malloc 4096 0 18446744073709551568 fresh_state = .ok (4144, _)) a).trans rfl,
    rfl, rfl, rfl, rfl⟩

theorem malloc_bump_header_hdr (n : Nat) (s : State) :
    (malloc_bump_header n s).hdr =
      set_allocated (set_size (set_prev (set_next s.hdr s.free_addr NULL) s.free_addr NULL)
        s.free_addr n) s.free_addr true := rfl

theorem malloc_bump_header_outside (n : Nat) (s : State) (a : Nat) (ha : a ≠ s.free_addr) :
    (malloc_bump_header n s).hdr a = s.hdr a := by
  rw [malloc_bump_header_hdr]
  simp [set_allocated, set_size, set_prev, set_next, ha]

/-- Without a fitting free block the search returns `NULL`. -/
theorem find_best_none {s : State} {la lf : List Nat} (hwf : WF s la lf) (n fuel : Nat)
    (hnofit : ∀ x ∈ lf, (s.hdr x).size < n) (hfuel : lf.length ≤ fuel) :
    find_best s.hdr n fuel s.free_list_head NULL = .ok NULL := by
  obtain ⟨r, hr, hres⟩ := find_best_spec n lf [] fuel NULL s.free_list_head NULL hwf.free
    hwf.free_flag (by simp) (Or.inl ⟨rfl, by simp⟩) hfuel
  rcases hres with ⟨e, _⟩ | ⟨_, hb⟩
  · rw [hr, e]
  · obtain ⟨l1, l2, e, hfit, _⟩ := hb
    rw [List.nil_append] at e
    have hm : r ∈ lf := by rw [e]; simp
    exact absurd hfit (not_le.2 (hnofit r hm))

/-- The successful pointer-bumping branch keeps the lists well formed when the
frontier is not a listed header: the new header becomes the head of the
allocated list. -/
theorem bump_WF (n f : Nat) {t : State} {la lf : List Nat} (hwf : WF t la lf)
    (hfresh : t.free_addr ∉ la ++ lf) (h0 : t.free_addr ≠ NULL)
    (hb : t.free_addr + sizeof_header_s < W) :
    WF { malloc_bump_header n t with
      free_addr := f
      hdr := push_hdr (malloc_bump_header n t).hdr t.free_addr t.allocated_list_head
      allocated_list_head := t.free_addr } (t.free_addr :: la) lf := by
  have hPla : t.free_addr ∉ la := fun h => hfresh (List.mem_append_left _ h)
  have hPlf : t.free_addr ∉ lf := fun h => hfresh (List.mem_append_right _ h)
  have hna : la.Nodup := (List.nodup_append.1 hwf.nodup).1
  have hbase : ∀ x, x ≠ t.free_addr →
      (malloc_bump_header n t).hdr x = t.hdr x :=
    fun x hx => malloc_bump_header_outside n t x hx
  have hla : IsList (malloc_bump_header n t).hdr NULL t.allocated_list_head la := by
    refine IsList_frame la _ _ (fun x hx => ?_) hwf.alloc
    rw [hbase x (fun e => hPla (e ▸ hx))]
    exact ⟨rfl, rfl⟩
  refine ⟨push_IsList _ _ la hla hna hPla h0, ?_, ?_, ?_, ?_, ?_⟩
  · refine IsList_frame lf _ _ (fun x hx => ?_) hwf.free
    have hxP : x ≠ t.free_addr := fun e => hPlf (e ▸ hx)
    have hxa : x ≠ t.allocated_list_head := by
      intro e
      cases la with
      | nil => exact IsList_ne_null lf _ _ hwf.free x hx (e.trans hwf.alloc)
      | cons y ys =>
        refine (List.nodup_append.1 hwf.nodup).2.2 (List.mem_cons_self y ys) ?_
        rw [← hwf.alloc.1, ← e]; exact hx
    show (push_hdr _ _ _ x).next = _ ∧ (push_hdr _ _ _ x).prev = _
    rw [push_hdr_outside _ _ _ _ hxP hxa, hbase x hxP]
    exact ⟨rfl, rfl⟩
  · show (t.free_addr :: la ++ lf).Nodup
    rw [List.cons_append]
    exact List.nodup_cons.2 ⟨hfresh, hwf.nodup⟩
  · intro x hx
    show (push_hdr _ _ _ x).allocated = true
    rw [push_hdr_allocated]
    rcases List.mem_cons.1 hx with e | e
    · rw [e, malloc_bump_header_hdr, set_allocated_allocated, if_pos rfl]
    · rw [hbase x (fun e2 => hPla (e2 ▸ e))]
      exact hwf.alloc_flag x e
  · intro x hx
    show (push_hdr _ _ _ x).allocated = false
    rw [push_hdr_allocated, hbase x (fun e2 => hPlf (e2 ▸ hx))]
    exact hwf.free_flag x hx
  · intro x hx
    rcases List.mem_append.1 hx with e | e
    · rcases List.mem_cons.1 e with e2 | e2
      · rw [e2]; exact hb
      · exact hwf.bound x (List.mem_append_left _ e2)
    · exact hwf.bound x (List.mem_append_right _ e)

/-- Bump allocation on a well-formed, initialised state: when no free block
fits, the padded frontier is not a listed header and the request passes the
bound check, `gc_malloc` places a header of exactly the requested size at the
padded frontier, puts it at the head of the allocated list and advances the
frontier behind the payload. -/
theorem gc_malloc_bump (heap fuel n : Nat) {s : State} {la lf : List Nat}
    (hwf : WF s la lf) (hinit : s.start_addr ≠ 0) (hn : 0 < n)
    (hnofit : ∀ x ∈ lf, (s.hdr x).size < n) (hfuel : lf.length ≤ fuel)
    (hfresh : (padded s).free_addr ∉ la ++ lf) (h0 : (padded s).free_addr ≠ NULL)
    (hb : (padded s).free_addr + sizeof_header_s < W)
    (hfits : ¬ toSigned (wrap (HEADER_TO_BLOCK (padded s).free_addr + n)) > toSigned s.end_addr) :
    ∃ s1, gc_malloc heap fuel n s = .ok (HEADER_TO_BLOCK (padded s).free_addr, s1) ∧
      WF s1 ((padded s).free_addr :: la) lf ∧
      s1.hdr = push_hdr (malloc_bump_header n (padded s)).hdr (padded s).free_addr
        s.allocated_list_head ∧
      s1.free_addr = wrap (HEADER_TO_BLOCK (padded s).free_addr + n) ∧
      s1.start_addr = s.start_addr ∧ s1.end_addr = s.end_addr ∧
      s1.root_set_head = s.root_set_head ∧ s1.mem = s.mem := by
  have hP : (padded s).free_addr < W := lt_of_le_of_lt (Nat.le_add_right _ _) hb
  have hrt := BLOCK_TO_HEADER_HEADER_TO_BLOCK _ hP
  have hfb := find_best_none hwf n fuel hnofit hfuel
  refine ⟨{ malloc_bump_header n (padded s) with
      free_addr := wrap (HEADER_TO_BLOCK (padded s).free_addr + n)
      hdr := push_hdr (malloc_bump_header n (padded s)).hdr (padded s).free_addr
        s.allocated_list_head
      allocated_list_head := (padded s).free_addr }, ?_, ?_, rfl, rfl, rfl, rfl, rfl, rfl⟩
  · unfold gc_malloc
    rw [gc_init_of_initialised heap s hinit]
    simp only [Nat.pos_iff_ne_zero.1 hn, if_false]
    have : find_best s.hdr n fuel s.free_list_head NULL = .ok NULL := hfb
    simp only [this, ne_eq, not_true_eq_false, if_false]
    have hf2 : ¬ toSigned (wrap (HEADER_TO_BLOCK (wrap (s.free_addr + padding s.free_addr)) + n)) >
        toSigned (malloc_bump_header n
          { s with free_addr := wrap (s.free_addr + padding s.free_addr) }).end_addr := hfits
    rw [if_neg hf2, malloc_prepend_eq]
    dsimp only
    have hrt2 : BLOCK_TO_HEADER (HEADER_TO_BLOCK (wrap (s.free_addr + padding s.free_addr))) =
        wrap (s.free_addr + padding s.free_addr) := hrt
    rw [hrt2]
    rfl
  · exact bump_WF n _ ⟨hwf.alloc, hwf.free, hwf.nodup, hwf.alloc_flag, hwf.free_flag, hwf.bound⟩
      hfresh h0 hb

/-- The links of a header at the head of a well-formed allocated list that was
put in front of the list `la`. -/
theorem head_links {s s1 : State} {la lf lf1 : List Nat} {h : Nat} (hwf : WF s la lf)
    (hwf1 : WF s1 (h :: la) lf1) :
    s1.allocated_list_head = h ∧ (s1.hdr h).prev = NULL ∧
      (s1.hdr h).next = s.allocated_list_head ∧
      (s.allocated_list_head ≠ NULL → (s1.hdr s.allocated_list_head).prev = h) ∧
      (s1.hdr h).allocated = true := by
  obtain ⟨e1, _, e3, e4⟩ := hwf1.alloc
  have hh : s.allocated_list_head = la.headD NULL := IsList_head _ _ _ hwf.alloc
  have hn : (s1.hdr h).next = la.headD NULL := IsList_head _ _ _ e4
  refine ⟨e1, e3, hn.trans hh.symm, ?_, hwf1.alloc_flag h (List.mem_cons_self _ _)⟩
  intro hne
  cases la with
  | nil => exact absurd hh hne
  | cons y ys =>
    rw [hh]
    exact e4.2.2.1

/-- On a well-formed, initialised state with all marks clear whose padded
frontier is not a listed header: a `gc_malloc(n)` with `n > 0` that returns a
non-null pointer returns the payload of a header that is the new head of the
allocated list, with `prev = NULL`, `next` the previous head, the previous
head's `prev` pointing to it, `allocated = true` and `marked = false`, whether
the block was recycled or bump-allocated. -/
theorem gc_malloc_prepends (heap fuel n p : Nat) {s s1 : State} {la lf : List Nat}
    (hwf : WF s la lf) (hinit : s.start_addr ≠ 0) (hn : 0 < n)
    (hmarks : ∀ a, (s.hdr a).marked = false) (hfuel : lf.length ≤ fuel)
    (hfresh : (padded s).free_addr ∉ la ++ lf) (h0 : (padded s).free_addr ≠ NULL)
    (hb : (padded s).free_addr + sizeof_header_s < W)
    (h : gc_malloc heap fuel n s = .ok (p, s1)) (hp : p ≠ NULL) :
    ∃ hd lf1, p = HEADER_TO_BLOCK hd ∧ WF s1 (hd :: la) lf1 ∧
      s1.allocated_list_head = hd ∧ (s1.hdr hd).prev = NULL ∧
      (s1.hdr hd).next = s.allocated_list_head ∧
      (s.allocated_list_head ≠ NULL → (s1.hdr s.allocated_list_head).prev = hd) ∧
      (s1.hdr hd).allocated = true ∧ (s1.hdr hd).marked = false := by
  have hmk : ∀ a, (s1.hdr a).marked = false := fun a => (gc_malloc_marked h a).trans (hmarks a)
  by_cases hfit : ∃ x ∈ lf, n ≤ (s.hdr x).size
  · obtain ⟨b, s2, h2, _, hwf2, _⟩ := gc_malloc_best_fit heap fuel n hwf hinit hn hfit hfuel
    rw [h] at h2
    injection h2 with h2
    injection h2 with hp2 hs2
    subst hs2
    obtain ⟨l1, l2, l3, l4, l5⟩ := head_links hwf hwf2
    exact ⟨b, _, hp2, hwf2, l1, l2, l3, l4, l5, hmk b⟩
  · have hnofit : ∀ x ∈ lf, (s.hdr x).size < n := by
      intro x hx
      by_contra hc
      exact hfit ⟨x, hx, not_lt.1 hc⟩
    by_cases hov : toSigned (wrap (HEADER_TO_BLOCK (padded s).free_addr + n)) > toSigned s.end_addr
    · exfalso
      obtain ⟨s0, hi, hc⟩ := gc_malloc_cases h
      rw [gc_init_of_initialised heap s hinit] at hi
      injection hi with hi
      subst hi
      rcases hc with ⟨e, _, _⟩ | ⟨_, r, hf, hc⟩
      · omega
      · rw [find_best_none hwf n fuel hnofit hfuel] at hf
        injection hf with hf
        rcases hc with ⟨hr, _⟩ | ⟨_, _, e, _⟩ | ⟨_, hno, _⟩
        · exact hr hf.symm
        · exact hp e
        · exact hno hov
    · obtain ⟨s2, h2, hwf2, _⟩ :=
        gc_malloc_bump heap fuel n hwf hinit hn hnofit hfuel hfresh h0 hb hov
      rw [h] at h2
      injection h2 with h2
      injection h2 with hp2 hs2
      subst hs2
      obtain ⟨l1, l2, l3, l4, l5⟩ := head_links hwf hwf2
      exact ⟨_, _, hp2, hwf2, l1, l2, l3, l4, l5, hmk _⟩

/-! ### Freeing and recycling the same block -/

theorem header_ext (x y : header_s) (h1 : x.next = y.next) (h2 : x.prev = y.prev)
    (h3 : x.size = y.size) (h4 : x.allocated = y.allocated) (h5 : x.marked = y.marked)
    (h6 : x.layout = y.layout) : x = y := by
  cases x; cases y; simp_all

theorem push_hdr_next (hdr : Nat → header_s) (b c a : Nat) :
    (push_hdr hdr b c a).next = if a = b then c else (hdr a).next := by
  unfold push_hdr; split_ifs <;> simp_all

theorem push_hdr_prev (hdr : Nat → header_s) (b c a : Nat) :
    (push_hdr hdr b c a).prev =
      if a = c ∧ c ≠ NULL then b else if a = b then NULL else (hdr a).prev := by
  unfold push_hdr
  simp only [set_prev_next, set_next_next, if_true]
  by_cases hc : c = NULL
  · simp [hc]
  · by_cases hac : a = c
    · simp [hc, hac]
    · simp [hc, hac]

/-- Unlinking a header that is linked to itself in both directions writes
nothing new. -/
theorem unlink_hdr_self (hdr : Nat → header_s) (b : Nat) (hb0 : b ≠ NULL)
    (hp : (hdr b).prev = b) (hn : (hdr b).next = b) : unlink_hdr hdr b = hdr := by
  funext a
  unfold unlink_hdr
  simp only [hp, hn, hb0, if_false, set_next_next, set_next_prev, if_true, ne_eq,
    not_false_eq_true]
  by_cases hab : a = b
  · subst hab
    apply header_ext <;> simp [set_prev, set_next, hp, hn]
  · apply header_ext <;> simp [set_prev, set_next, hab]

theorem free_hdr_next (hdr : Nat → header_s) (b c a : Nat) :
    (free_hdr hdr b c a).next = if a = b then c else (unlink_hdr hdr b a).next := by
  unfold free_hdr
  rw [set_allocated_next, push_hdr_next]
  split_ifs with h
  · rfl
  · simp [h]

theorem free_hdr_prev (hdr : Nat → header_s) (b c a : Nat) :
    (free_hdr hdr b c a).prev =
      if a = c ∧ c ≠ NULL then b else if a = b then NULL else (unlink_hdr hdr b a).prev := by
  unfold free_hdr
  rw [set_allocated_prev, push_hdr_prev]
  split_ifs with h1 h2
  · rfl
  · rfl
  · simp [h2]

theorem take_hdr_next (hdr : Nat → header_s) (b c a : Nat) :
    (take_hdr hdr b c a).next = if a = b then c else (unlink_hdr hdr b a).next := by
  rw [take_hdr_eq, set_allocated_next, free_hdr_next]

theorem take_hdr_prev (hdr : Nat → header_s) (b c a : Nat) :
    (take_hdr hdr b c a).prev =
      if a = c ∧ c ≠ NULL then b else if a = b then NULL else (unlink_hdr hdr b a).prev := by
  rw [take_hdr_eq, set_allocated_prev, free_hdr_prev]

/-- Freeing the block at the head of the allocated list and recycling it at
once restores header memory.  The header `b` is either a regular head
(`prev = NULL`, its successor pointing back to it) or linked to itself; `F` is
the free-list head, whose `prev` is `NULL`. -/
theorem take_free_hdr (H : Nat → header_s) (b F : Nat) (hb0 : b ≠ NULL)
    (hal : (H b).allocated = true)
    (hlink : ((H b).prev = NULL ∧ ((H b).next ≠ NULL → (H (H b).next).prev = b)) ∨
      ((H b).prev = b ∧ (H b).next = b))
    (hF : F ≠ NULL → F ≠ b → (H F).prev = NULL) (hFN : F ≠ NULL → F ≠ (H b).next) :
    take_hdr (free_hdr H b F) b (if (H b).prev = NULL then (H b).next else b) = H ∧
      (if (free_hdr H b F b).prev = NULL then (free_hdr H b F b).next else b) = F := by
  -- header memory after the unlinking writes of `gc_free`
  have hU : ∀ a, (unlink_hdr H b a).next = (H a).next ∧
      (unlink_hdr H b a).prev =
        if a = (H b).next ∧ (H b).next ≠ NULL ∧ (H b).prev = NULL then NULL else (H a).prev := by
    intro a
    rcases hlink with ⟨hp, _⟩ | ⟨hp, hn⟩
    · have hpb : (H b).prev ≠ b := by rw [hp]; exact Ne.symm hb0
      rw [unlink_hdr_next, unlink_hdr_prev _ _ _ hpb, hp]
      simp
    · rw [unlink_hdr_self H b hb0 hp hn, hp]
      simp [hb0]
  have hGn : ∀ a, (free_hdr H b F a).next = if a = b then F else (H a).next := by
    intro a; rw [free_hdr_next, (hU a).1]
  have hGp : ∀ a, (free_hdr H b F a).prev =
      if a = F ∧ F ≠ NULL then b else if a = b then NULL else
        if a = (H b).next ∧ (H b).next ≠ NULL ∧ (H b).prev = NULL then NULL else (H a).prev := by
    intro a; rw [free_hdr_prev, (hU a).2]
  -- header memory after the unlinking writes of `gc_malloc`
  have hV : ∀ a, (unlink_hdr (free_hdr H b F) b a).next = (free_hdr H b F a).next ∧
      (unlink_hdr (free_hdr H b F) b a).prev =
        if a = F ∧ F ≠ NULL ∧ F ≠ b then NULL else (free_hdr H b F a).prev := by
    intro a
    by_cases hFb : F = b
    · have e1 : (free_hdr H b F b).prev = b := by rw [hGp]; simp [hFb, hb0]
      have e2 : (free_hdr H b F b).next = b := by rw [hGn]; simp [hFb]
      rw [unlink_hdr_self _ b hb0 e1 e2]
      simp [hFb]
    · have e1 : (free_hdr H b F b).prev = NULL := by
        rw [hGp]; simp [Ne.symm hFb]
      have e2 : (free_hdr H b F b).next = F := by rw [hGn]; simp
      have hpb : (free_hdr H b F b).prev ≠ b := by rw [e1]; exact Ne.symm hb0
      rw [unlink_hdr_next, unlink_hdr_prev _ _ _ hpb, e1, e2]
      simp [hFb]
  constructor
  · funext a
    apply header_ext
    · rw [take_hdr_next, (hV a).1, hGn]
      by_cases hab : a = b
      · subst hab
        rcases hlink with ⟨hp, _⟩ | ⟨hp, hn⟩
        · simp [hp]
        · simp [hp, hn, hb0]
      · simp [hab]
    · rw [take_hdr_prev, (hV a).2, hGp]
      rcases hlink with ⟨hp, hnp⟩ | ⟨hp, hn⟩
      · simp only [hp, if_true, and_true]
        by_cases hN : (H b).next = NULL
        · simp only [hN, ne_eq, not_true_eq_false, and_false, if_false]
          by_cases hab : a = b
          · subst hab
            by_cases hFa : a = F
            · subst hFa; simp [hb0, hp]
            · simp [hFa, hp]
          · by_cases hFa : a = F
            · subst hFa
              by_cases hF0 : a = NULL
              · simp [hF0, Ne.symm hb0]
              · simp [hF0, hab, hF hF0 hab]
            · simp [hab, hFa]
        · have hNp := hnp hN
          have hNb : (H b).next ≠ b := by
            intro e; rw [e, hp] at hNp; exact hb0 hNp.symm
          by_cases haN : a = (H b).next
          · simp [haN, hN, hNp]
          · by_cases hab : a = b
            · subst hab
              by_cases hFa : a = F
              · subst hFa; simp [hb0, hp, haN, hN]
              · simp [hFa, hp, haN, hN]
            · by_cases hFa : a = F
              · subst hFa
                by_cases hF0 : a = NULL
                · simp [hF0, Ne.symm hb0, Ne.symm hN]
                · simp [hF0, hab, hF hF0 hab, haN, hN]
              · simp [hab, hFa, haN, hN]
      · have hFb : F ≠ NULL → F ≠ b := fun h0 => by rw [← hn]; exact hFN h0
        simp only [hp, hn, hb0, if_false, and_false]
        by_cases hab : a = b
        · subst hab; simp [hb0, hp]
        · by_cases hFa : a = F
          · subst hFa
            by_cases hF0 : a = NULL
            · simp [hF0, Ne.symm hb0]
            · simp [hF0, hab, hF hF0 hab]
          · simp [hab, hFa]
    · rw [take_hdr_size, free_hdr_size]
    · rw [take_hdr_allocated, free_hdr_allocated]
      by_cases hab : a = b
      · subst hab; simp [hal]
      · simp [hab]
    · rw [take_hdr_marked, free_hdr_marked]
    · rw [take_hdr_layout, free_hdr_layout]
  · rw [hGp, hGn]
    by_cases hFb : F = b
    · simp [hFb, hb0]
    · simp [Ne.symm hFb]

theorem WF_of_eq {s t : State} {la lf : List Nat} (hwf : WF s la lf) (hh : t.hdr = s.hdr)
    (ha : t.allocated_list_head = s.allocated_list_head)
    (hf : t.free_list_head = s.free_list_head) : WF t la lf where
  alloc := by rw [hh, ha]; exact hwf.alloc
  free := by rw [hh, hf]; exact hwf.free
  nodup := hwf.nodup
  alloc_flag := by rw [hh]; exact hwf.alloc_flag
  free_flag := by rw [hh]; exact hwf.free_flag
  bound := hwf.bound

/-- The head of the free list of a well-formed state is no header of the
allocated list, and its `prev` is `NULL`. -/
theorem WF_free_head {s : State} {la lf : List Nat} (hwf : WF s la lf)
    (h0 : s.free_list_head ≠ NULL) :
    s.free_list_head ∈ lf ∧ (s.hdr s.free_list_head).prev = NULL ∧
      s.free_list_head ≠ s.allocated_list_head := by
  have hfr := hwf.free
  cases lf with
  | nil => exact absurd hfr h0
  | cons f fs =>
    obtain ⟨e1, _, e3, _⟩ := hfr
    refine ⟨by rw [e1]; exact List.mem_cons_self _ _, by rw [e1]; exact e3, ?_⟩
    intro e
    have hal := hwf.alloc
    cases la with
    | nil => exact h0 (e.trans hal)
    | cons y ys =>
      refine (List.nodup_append.1 hwf.nodup).2.2 (List.mem_cons_self y ys) ?_
      rw [← hal.1, ← e, e1]
      exact List.mem_cons_self _ _

/-- The head of the allocated list of a well-formed state: its `prev` is
`NULL` and its successor, if any, points back to it. -/
theorem WF_alloc_head {s : State} {b : Nat} {la lf : List Nat} (hwf : WF s (b :: la) lf) :
    s.allocated_list_head = b ∧ b ≠ NULL ∧ (s.hdr b).prev = NULL ∧
      ((s.hdr b).next ≠ NULL → (s.hdr b).next ∈ la ∧ (s.hdr (s.hdr b).next).prev = b) := by
  obtain ⟨e1, e2, e3, e4⟩ := hwf.alloc
  refine ⟨e1, e2, e3, ?_⟩
  intro hne
  cases la with
  | nil => exact absurd e4 hne
  | cons y ys =>
    obtain ⟨f1, _, f3, _⟩ := e4
    rw [f1]
    exact ⟨List.mem_cons_self _ _, f3⟩

/-- A block at the head of a list that fits the request and is not larger than
any other fitting block of the list is the best fit. -/
theorem IsBestFit_head {hdr : Nat → header_s} {n b r : Nat} {l : List Nat}
    (hb : n ≤ (hdr b).size)
    (hmin : ∀ x ∈ l, n ≤ (hdr x).size → (hdr b).size ≤ (hdr x).size)
    (h : IsBestFit hdr n (b :: l) r) : r = b := by
  obtain ⟨l1, l2, e, hfit, hbefore, _⟩ := h
  cases l1 with
  | nil =>
    rw [List.nil_append] at e
    injection e with e1 _
    exact e1.symm
  | cons y ys =>
    rw [List.cons_append] at e
    injection e with e1 e2
    subst e1
    have hr : r ∈ l := by rw [e2]; simp
    have h1 := hmin r hr hfit
    have h2 := hbefore b (List.mem_cons_self _ _) hb
    omega

/-- The best fit of a list is not larger than any other fitting block. -/
theorem IsBestFit_min {hdr : Nat → header_s} {n b : Nat} {l : List Nat}
    (h : IsBestFit hdr n l b) : ∀ x ∈ l, n ≤ (hdr x).size → (hdr b).size ≤ (hdr x).size := by
  obtain ⟨l1, l2, e, _, h1, h2⟩ := h
  intro x hx hs
  rw [e] at hx
  rcases List.mem_append.1 hx with hx | hx
  · exact le_of_lt (h1 x hx hs)
  · rcases List.mem_cons.1 hx with hx | hx
    · rw [hx]
    · exact h2 x hx hs

/-- A second call of `gc_init` in a state that kept the `start_addr` of an
initialised state. -/
theorem gc_init_again {heap : Nat} {s s0 t : State} (h : gc_init heap s = .ok s0)
    (ht : t.start_addr = s0.start_addr) :
    ∃ t0, gc_init heap t = .ok t0 ∧ t0.hdr = t.hdr ∧ t0.mem = t.mem ∧
      t0.free_list_head = t.free_list_head ∧
      t0.allocated_list_head = t.allocated_list_head ∧
      t0.root_set_head = t.root_set_head ∧ (t.start_addr ≠ 0 → t0 = t) := by
  by_cases h0 : t.start_addr = 0
  · have hm : heap ≠ MAP_FAILED := by
      intro e
      unfold gc_init at h
      split_ifs at h with h1
      injection h with h
      subst h
      exact h1 (ht.symm.trans h0)
    refine ⟨{ t with start_addr := heap, end_addr := wrap (heap + HEAP_SIZE), free_addr := heap },
      ?_, rfl, rfl, rfl, rfl, rfl, fun h => absurd h0 h⟩
    unfold gc_init
    rw [if_pos h0, if_neg hm]
  · exact ⟨t, gc_init_of_initialised heap t h0, rfl, rfl, rfl, rfl, rfl, fun _ => rfl⟩

/-- Freeing the block at the head of the allocated list and requesting the
same size again: when the search of the second request stops at the freed
block, the request returns the same pointer and restores header memory and
both list heads. -/
theorem free_malloc_head (heap fuel n : Nat) (s1 : State) (b : Nat)
    (hb0 : b ≠ NULL) (hbW : b < W) (hp : HEADER_TO_BLOCK b ≠ NULL) (hn : n ≠ 0)
    (halh : s1.allocated_list_head = b)
    (hal : (s1.hdr b).allocated = true)
    (hlink : ((s1.hdr b).prev = NULL ∧
        ((s1.hdr b).next ≠ NULL → (s1.hdr (s1.hdr b).next).prev = b)) ∨
      ((s1.hdr b).prev = b ∧ (s1.hdr b).next = b))
    (hF : s1.free_list_head ≠ NULL → s1.free_list_head ≠ b →
      (s1.hdr s1.free_list_head).prev = NULL)
    (hFN : s1.free_list_head ≠ NULL → s1.free_list_head ≠ (s1.hdr b).next)
    (hfind : find_best (free_hdr s1.hdr b s1.free_list_head) n fuel b NULL = .ok b)
    (hinit : ∀ t : State, t.start_addr = s1.start_addr → ∃ t0, gc_init heap t = .ok t0 ∧
      t0.hdr = t.hdr ∧ t0.mem = t.mem ∧ t0.free_list_head = t.free_list_head ∧
      t0.allocated_list_head = t.allocated_list_head ∧
      t0.root_set_head = t.root_set_head ∧ (t.start_addr ≠ 0 → t0 = t)) :
    ∃ s2 s3, gc_free (HEADER_TO_BLOCK b) s1 = .ok s2 ∧ s2.free_list_head = b ∧
      s2.hdr = free_hdr s1.hdr b s1.free_list_head ∧
      gc_malloc heap fuel n s2 = .ok (HEADER_TO_BLOCK b, s3) ∧
      s3.hdr = s1.hdr ∧ s3.free_list_head = s1.free_list_head ∧
      s3.allocated_list_head = s1.allocated_list_head ∧ s3.mem = s1.mem ∧
      s3.root_set_head = s1.root_set_head ∧ (s1.start_addr ≠ 0 → s3 = padded s1) := by
  have hrt := BLOCK_TO_HEADER_HEADER_TO_BLOCK b hbW
  have hfree := gc_free_eq (HEADER_TO_BLOCK b) s1 hp (by rw [hrt]; exact hal)
  rw [hrt] at hfree
  obtain ⟨hT, hFl⟩ := take_free_hdr s1.hdr b s1.free_list_head hb0 hal hlink hF hFN
  obtain ⟨t0, hi, e1, e2, e3, e4, e5, e6⟩ := hinit { s1 with
      hdr := free_hdr s1.hdr b s1.free_list_head
      allocated_list_head := if (s1.hdr b).prev = NULL then (s1.hdr b).next
        else s1.allocated_list_head
      free_list_head := b } rfl
  dsimp only at e1 e2 e3 e4 e5 e6
  rw [halh] at e4
  have hm : gc_malloc heap fuel n { s1 with
      hdr := free_hdr s1.hdr b s1.free_list_head
      allocated_list_head := if (s1.hdr b).prev = NULL then (s1.hdr b).next
        else s1.allocated_list_head
      free_list_head := b } = .ok (HEADER_TO_BLOCK b, { padded t0 with
        hdr := take_hdr (padded t0).hdr b (padded t0).allocated_list_head
        free_list_head := if ((padded t0).hdr b).prev = NULL then ((padded t0).hdr b).next
          else (padded t0).free_list_head
        allocated_list_head := b }) := by
    unfold gc_malloc
    rw [hi]
    simp only [hn, if_false]
    have : find_best t0.hdr n fuel t0.free_list_head NULL = .ok b := by
      rw [e1, e3]; exact hfind
    simp only [this, hb0, ne_eq, not_false_eq_true, if_true]
    exact congrArg Result.ok (malloc_prepend_take b (padded t0) hbW)
  have hh3 : take_hdr t0.hdr b t0.allocated_list_head = s1.hdr := by
    rw [e1, e4]; exact hT
  have hf3 : (if (t0.hdr b).prev = NULL then (t0.hdr b).next else t0.free_list_head) =
      s1.free_list_head := by
    rw [e1, e3]; exact hFl
  refine ⟨_, _, hfree, rfl, rfl, hm, hh3, hf3, halh.symm, e2, e5, ?_⟩
  intro hs
  have ht0 := e6 hs
  subst ht0
  show ({ padded _ with hdr := take_hdr _ b _, free_list_head := _, allocated_list_head := b }
    : State) = padded s1
  have hh3a : take_hdr (free_hdr s1.hdr b s1.free_list_head) b
      (if (s1.hdr b).prev = NULL then (s1.hdr b).next else s1.allocated_list_head) = s1.hdr := hh3
  have hf3a : (if (free_hdr s1.hdr b s1.free_list_head b).prev = NULL
      then (free_hdr s1.hdr b s1.free_list_head b).next else b) = s1.free_list_head := hf3
  unfold padded
  dsimp only
  rw [hh3a, hf3a, ← halh]

theorem IsBestFit_fit {hdr : Nat → header_s} {n b : Nat} {l : List Nat}
    (h : IsBestFit hdr n l b) : n ≤ (hdr b).size := by
  obtain ⟨_, _, _, h1, _⟩ := h
  exact h1

/-- An exact fit at the head of the free list ends the search at once. -/
theorem find_best_exact (hdr : Nat → header_s) (n fuel b : Nat) (hb0 : b ≠ NULL)
    (hal : (hdr b).allocated = false) (hsz : (hdr b).size = n) :
    find_best hdr n (fuel + 1) b NULL = .ok b := by
  have hpick : pick_best hdr n b NULL = b := by
    unfold pick_best
    rw [if_pos (Or.inl ⟨rfl, le_of_eq hsz.symm⟩)]
  rw [find_best_succ, if_neg hb0, hpick]
  simp [hal, hb0, hsz]

/-- Allocate, free, allocate again: on a well-formed state, a request that
returned a non-null pointer returns the same pointer when it is repeated right
after the block was freed, and header memory and both list heads are then as
they were after the first request. -/
theorem malloc_free_malloc (heap fuel n p : Nat) {s s1 : State} {la lf : List Nat}
    (hwf : WF s la lf) (hn : 0 < n) (hfuel : lf.length < fuel)
    (h : gc_malloc heap fuel n s = .ok (p, s1)) (hp : p ≠ NULL) :
    ∃ s2 s3, gc_free p s1 = .ok s2 ∧ s2.free_list_head = BLOCK_TO_HEADER p ∧
      n ≤ (s2.hdr (BLOCK_TO_HEADER p)).size ∧
      (∀ x ∈ lf, n ≤ (s2.hdr x).size →
        (s2.hdr (BLOCK_TO_HEADER p)).size ≤ (s2.hdr x).size) ∧
      gc_malloc heap fuel n s2 = .ok (p, s3) ∧
      s3.hdr = s1.hdr ∧ s3.free_list_head = s1.free_list_head ∧
      s3.allocated_list_head = s1.allocated_list_head ∧ s3.mem = s1.mem ∧
      s3.root_set_head = s1.root_set_head ∧ (s1.start_addr ≠ 0 → s3 = padded s1) := by
  have hn0 : n ≠ 0 := Nat.pos_iff_ne_zero.1 hn
  obtain ⟨s0, hi, hc⟩ := gc_malloc_cases h
  obtain ⟨i1, _, i3, i4, _⟩ := gc_init_ok hi
  have hwf0 : WF s0 la lf := WF_of_eq hwf i1 i4 i3
  have hwfp : WF (padded s0) la lf := WF_of_eq hwf0 rfl rfl rfl
  rcases hc with ⟨e, _⟩ | ⟨_, r, hfb, hc⟩
  · exact absurd e hn0
  obtain ⟨r1, hr1, hres⟩ := find_best_spec n lf [] fuel NULL s0.free_list_head NULL hwf0.free
    hwf0.free_flag (by simp) (Or.inl ⟨rfl, by simp⟩) (le_of_lt hfuel)
  rw [hfb] at hr1
  injection hr1 with hr1
  subst hr1
  rw [List.nil_append] at hres
  rcases hc with ⟨hr, hc⟩ | ⟨_, _, e, _⟩ | ⟨hr, _, hc⟩
  · -- the first request recycled the best fit `r`
    rcases hres with ⟨e, _⟩ | ⟨_, hbest⟩
    · exact absurd e hr
    have hmem := IsBestFit_mem hbest
    have hbd := hwf0.bound r (List.mem_append_right _ hmem)
    have hbW : r < W := lt_of_le_of_lt (Nat.le_add_right _ _) hbd
    rw [malloc_prepend_take r (padded s0) hbW] at hc
    injection hc with hc1 hc2
    subst hc1
    subst hc2
    have hwf1 := take_WF hwfp r hmem
    obtain ⟨a1, a2, a3, a4⟩ := WF_alloc_head hwf1
    have hrt := BLOCK_TO_HEADER_HEADER_TO_BLOCK r hbW
    obtain ⟨s2, hfree, hwf2, hh2, _⟩ := gc_free_WF hwf1 r (List.mem_cons_self _ _)
    have hflh2 : s2.free_list_head = r := hwf2.free.1
    have hsz : ∀ x, (s2.hdr x).size = (s0.hdr x).size := by
      intro x
      rw [hh2, free_hdr_size]
      exact take_hdr_size _ _ _ _
    have hfitr : n ≤ (s2.hdr r).size := by rw [hsz]; exact IsBestFit_fit hbest
    have hmin : ∀ x ∈ lf, n ≤ (s2.hdr x).size → (s2.hdr r).size ≤ (s2.hdr x).size := by
      intro x hx hxs
      rw [hsz] at hxs ⊢
      rw [hsz]
      exact IsBestFit_min hbest x hx hxs
    have hlen : (r :: lf.erase r).length ≤ fuel := by
      rw [List.length_cons, List.length_erase_of_mem hmem]
      have : 0 < lf.length := List.length_pos_of_mem hmem
      omega
    obtain ⟨r2, hr2, hres2⟩ := find_best_spec n (r :: lf.erase r) [] fuel NULL
      s2.free_list_head NULL hwf2.free hwf2.free_flag (by simp) (Or.inl ⟨rfl, by simp⟩) hlen
    rw [List.nil_append] at hres2
    have hr2r : r2 = r := by
      rcases hres2 with ⟨_, hno⟩ | ⟨_, hb2⟩
      · exact absurd hfitr (hno r (List.mem_cons_self _ _))
      · exact IsBestFit_head hfitr
          (fun x hx => hmin x (List.mem_of_mem_erase hx)) hb2
    rw [hr2r, hflh2, hh2] at hr2
    have hF1 := hwf1.free
    obtain ⟨t2, t3, f1, f2, f3, f4, f5, f6, f7, f8, f9, f10⟩ :=
      free_malloc_head heap fuel n _ r a2 hbW (HEADER_TO_BLOCK_ne_null r hbd) hn0 a1
        (hwf1.alloc_flag r (List.mem_cons_self _ _))
        (Or.inl ⟨a3, fun hne => (a4 hne).2⟩)
        (fun h0 _ => (WF_free_head hwf1 h0).2.1)
        (fun h0 e => by
          have hm1 := (WF_free_head hwf1 h0).1
          have hne : (take_hdr (padded s0).hdr r (padded s0).allocated_list_head r).next ≠ NULL :=
            fun e2 => h0 (e.trans e2)
          have hm2 := (a4 hne).1
          rw [← e] at hm2
          exact (List.nodup_append.1 hwf1.nodup).2.2 (List.mem_cons_of_mem _ hm2) hm1)
        hr2 (fun t ht => gc_init_again hi ht)
    rw [hfree] at f1
    injection f1 with f1
    subst f1
    rw [hrt]
    exact ⟨_, t3, hfree, f2, hfitr, hmin, f4, f5, f6, f7, f8, f9, f10⟩
  · exact absurd e hp
  · -- the first request was bump-allocated at the padded frontier
    have hP0 : (padded s0).free_addr ≠ NULL := by
      intro e
      have := padded_aligned s0
      rw [e] at this
      exact absurd this (by decide)
    have hPW : (padded s0).free_addr < W := wrap_lt _
    have hrt := BLOCK_TO_HEADER_HEADER_TO_BLOCK _ hPW
    rw [malloc_prepend_eq] at hc
    injection hc with hc1 hc2
    subst hc1
    subst hc2
    dsimp only at *
    rw [hrt]
    have hHn : ∀ a, (push_hdr (malloc_bump_header n (padded s0)).hdr (padded s0).free_addr
        s0.allocated_list_head a).next =
        if a = (padded s0).free_addr then s0.allocated_list_head
        else ((malloc_bump_header n (padded s0)).hdr a).next := fun a => push_hdr_next _ _ _ a
    have hHp : ∀ a, (push_hdr (malloc_bump_header n (padded s0)).hdr (padded s0).free_addr
        s0.allocated_list_head a).prev =
        if a = s0.allocated_list_head ∧ s0.allocated_list_head ≠ NULL then (padded s0).free_addr
        else if a = (padded s0).free_addr then NULL
        else ((malloc_bump_header n (padded s0)).hdr a).prev := fun a => push_hdr_prev _ _ _ a
    have hal : (push_hdr (malloc_bump_header n (padded s0)).hdr (padded s0).free_addr
        s0.allocated_list_head (padded s0).free_addr).allocated = true := by
      rw [push_hdr_allocated, malloc_bump_header_hdr, set_allocated_allocated, if_pos rfl]
    have hsize : (push_hdr (malloc_bump_header n (padded s0)).hdr (padded s0).free_addr
        s0.allocated_list_head (padded s0).free_addr).size = n := by
      rw [push_hdr_size, malloc_bump_header_hdr, set_allocated_size, set_size_size, if_pos rfl]
    have hn1 : (push_hdr (malloc_bump_header n (padded s0)).hdr (padded s0).free_addr
        s0.allocated_list_head (padded s0).free_addr).next = s0.allocated_list_head := by
      rw [hHn, if_pos rfl]
    have hlink : ((push_hdr (malloc_bump_header n (padded s0)).hdr (padded s0).free_addr
          s0.allocated_list_head (padded s0).free_addr).prev = NULL ∧
        ((push_hdr (malloc_bump_header n (padded s0)).hdr (padded s0).free_addr
          s0.allocated_list_head (padded s0).free_addr).next ≠ NULL →
          (push_hdr (malloc_bump_header n (padded s0)).hdr (padded s0).free_addr
            s0.allocated_list_head
            (push_hdr (malloc_bump_header n (padded s0)).hdr (padded s0).free_addr
              s0.allocated_list_head (padded s0).free_addr).next).prev =
            (padded s0).free_addr)) ∨
        ((push_hdr (malloc_bump_header n (padded s0)).hdr (padded s0).free_addr
          s0.allocated_list_head (padded s0).free_addr).prev = (padded s0).free_addr ∧
         (push_hdr (malloc_bump_header n (padded s0)).hdr (padded s0).free_addr
          s0.allocated_list_head (padded s0).free_addr).next = (padded s0).free_addr) := by
      rw [hn1]
      by_cases e : (padded s0).free_addr = s0.allocated_list_head
      · right
        have h2 : s0.allocated_list_head ≠ NULL := fun e2 => hP0 (e.trans e2)
        rw [hHp, if_pos ⟨e, h2⟩]
        exact ⟨rfl, e.symm⟩
      · left
        constructor
        · rw [hHp, if_neg (fun h2 => e h2.1), if_pos rfl]
        · intro hne
          rw [hHp, if_pos ⟨rfl, hne⟩]
    have hk : ∃ k, fuel = k + 1 := ⟨fuel - 1, by omega⟩
    obtain ⟨k, hk⟩ := hk
    have hfind : find_best (free_hdr (push_hdr (malloc_bump_header n (padded s0)).hdr
        (padded s0).free_addr s0.allocated_list_head) (padded s0).free_addr
        s0.free_list_head) n fuel (padded s0).free_addr NULL = .ok (padded s0).free_addr := by
      rw [hk]
      apply find_best_exact _ _ _ _ hP0
      · rw [free_hdr_allocated, if_pos rfl]
      · rw [free_hdr_size, hsize]
    obtain ⟨t2, t3, f1, f2, f3, f4, f5, f6, f7, f8, f9, f10⟩ :=
      free_malloc_head heap fuel n { malloc_bump_header n (padded s0) with
          free_addr := wrap (HEADER_TO_BLOCK (padded s0).free_addr + n)
          hdr := push_hdr (malloc_bump_header n (padded s0)).hdr (padded s0).free_addr
            s0.allocated_list_head
          allocated_list_head := (padded s0).free_addr } (padded s0).free_addr hP0 hPW hp hn0 rfl
        hal
        hlink
        (fun h0 hne => by
          have h0a : s0.free_list_head ≠ NULL := h0
          have hnea : s0.free_list_head ≠ (padded s0).free_addr := hne
          have hw := WF_free_head hwf0 h0a
          show (push_hdr _ _ _ s0.free_list_head).prev = NULL
          rw [hHp, if_neg (fun e => hw.2.2 e.1), if_neg hnea,
            malloc_bump_header_outside n (padded s0) _ hnea]
          exact hw.2.1)
        (fun h0 => by
          have h0a : s0.free_list_head ≠ NULL := h0
          have hw := WF_free_head hwf0 h0a
          show s0.free_list_head ≠ (push_hdr _ _ _ _).next
          rw [hn1]
          exact hw.2.2)
        hfind (fun t ht => gc_init_again hi ht)
    have hsz2 : (t2.hdr (padded s0).free_addr).size = n := by
      rw [f3, free_hdr_size]; exact hsize
    refine ⟨t2, t3, f1, f2, le_of_eq hsz2.symm, ?_, f4, f5, f6, f7, f8, f9, f10⟩
    intro x _ hx
    rw [hsz2]
    exact hx

/-! ### Round trip, list shape and the frame of `mark` -/

theorem bestfit_malloc : gc_malloc 4096 4 80 bestfit_state = .ok (4432, bestfit_taken) := rfl

theorem wrapped_malloc :
    gc_malloc 4096 0 18446744073709551568 (initial_state (fun _ => 0)) =
      .ok (4144, wrapped_state) := rfl

theorem selflink_malloc : gc_malloc 4096 0 1 wrapped_state = .ok (4144, selflink_state) := rfl

theorem gctest_mark : mark 10 gctest_state = .ok gctest_marked := rfl

theorem SameButMarks_symm {h h0 : Nat → header_s} (hs : SameButMarks h h0) :
    SameButMarks h0 h := fun a =>
  ⟨(hs a).1.symm, (hs a).2.1.symm, (hs a).2.2.1.symm, (hs a).2.2.2.1.symm, (hs a).2.2.2.2.symm⟩

/-- C22 (the code at the failing input): from the initial state with the
mapping at 4096, `gc_malloc(2^64 - 48)` is not rejected and wraps the frontier
back to 4096; the following `gc_malloc(1)` bump-allocates the header 4104 that
already heads the allocated list.  In the state so reached the head of the
allocated list has `prev` and `next` equal to itself, so the allocated list is
cyclic: no finite list of headers describes it. -/
theorem C22_overflow_cyclic_list :
    ∃ s1 s2, gc_malloc 4096 0 18446744073709551568 (initial_state (fun _ => 0)) =
        .ok (4144, s1) ∧
      gc_malloc 4096 0 1 s1 = .ok (4144, s2) ∧ Reachable 4096 s2 ∧
      s2.allocated_list_head = 4104 ∧ (s2.hdr 4104).prev = 4104 ∧
      (s2.hdr 4104).next = 4104 ∧ ∀ l, ¬ IsList s2.hdr NULL s2.allocated_list_head l :=
  ⟨wrapped_state, selflink_state, wrapped_malloc, selflink_malloc,
    Reachable.malloc (Reachable.malloc (Reachable.init (fun _ => 0)) wrapped_malloc)
      selflink_malloc,
    rfl, rfl, rfl, fun l hl => by
      cases l with
      | nil =>
        have e : selflink_state.allocated_list_head = 4104 := rfl
        have hl2 : selflink_state.allocated_list_head = NULL := hl
        rw [e] at hl2
        exact absurd hl2 (by decide)
      | cons x xs =>
        have e : (selflink_state.hdr 4104).prev = 4104 := rfl
        have hx : selflink_state.allocated_list_head = x := hl.1
        have hl2 : (selflink_state.hdr x).prev = NULL := hl.2.2.1
        rw [← hx, show selflink_state.allocated_list_head = 4104 from rfl, e] at hl2
        exact absurd hl2 (by decide)⟩

theorem IsList_unique {hdr : Nat → header_s} :
    ∀ (l l1 : List Nat) (p c : Nat), IsList hdr p c l → IsList hdr p c l1 → l = l1
  | [], [], _, _, _, _ => rfl
  | [], y :: ys, _, _, h, h1 => absurd (h1.1.symm.trans h) h1.2.1
  | x :: xs, [], _, _, h, h1 => absurd (h.1.symm.trans h1) h.2.1
  | x :: xs, y :: ys, _, _, h, h1 => by
    have e : x = y := h.1.symm.trans h1.1
    subst e
    rw [IsList_unique xs ys x _ h.2.2.2 h1.2.2.2]

theorem toSigned_of_lt (x : Nat) (h : x < W / 2) : toSigned x = (x : Int) := by
  unfold toSigned
  rw [if_pos h]

theorem WF_set_layout {s : State} {la lf : List Nat} (hwf : WF s la lf) (x : Nat)
    (v : Option gc_layout_s) : WF { s with hdr := set_layout s.hdr x v } la lf where
  alloc := IsList_frame _ _ _ (fun _ _ => ⟨set_layout_next _ _ _ _, set_layout_prev _ _ _ _⟩) hwf.alloc
  free := IsList_frame _ _ _ (fun _ _ => ⟨set_layout_next _ _ _ _, set_layout_prev _ _ _ _⟩) hwf.free
  nodup := hwf.nodup
  alloc_flag := fun h hh => (set_layout_allocated _ _ _ _).trans (hwf.alloc_flag h hh)
  free_flag := fun h hh => (set_layout_allocated _ _ _ _).trans (hwf.free_flag h hh)
  bound := hwf.bound

/-- The header writes of a failed bump leave the lists alone when the frontier
is not a listed header. -/
theorem bump_header_WF (n : Nat) {t : State} {la lf : List Nat} (hwf : WF t la lf)
    (hfresh : t.free_addr ∉ la ++ lf) : WF (malloc_bump_header n t) la lf := by
  have hbase : ∀ x ∈ la ++ lf, (malloc_bump_header n t).hdr x = t.hdr x :=
    fun x hx => malloc_bump_header_outside n t x (fun e => hfresh (e ▸ hx))
  refine ⟨?_, ?_, hwf.nodup, ?_, ?_, hwf.bound⟩
  · refine IsList_frame la _ _ (fun x hx => ?_) hwf.alloc
    rw [hbase x (List.mem_append_left _ hx)]
    exact ⟨rfl, rfl⟩
  · refine IsList_frame lf _ _ (fun x hx => ?_) hwf.free
    rw [hbase x (List.mem_append_right _ hx)]
    exact ⟨rfl, rfl⟩
  · intro x hx
    rw [hbase x (List.mem_append_left _ hx)]
    exact hwf.alloc_flag x hx
  · intro x hx
    rw [hbase x (List.mem_append_right _ hx)]
    exact hwf.free_flag x hx

theorem Tidy_init (heap : Nat) (mem : Nat → Nat) : Tidy heap (initial_state mem) [] [] where
  wf := ⟨rfl, rfl, List.nodup_nil, fun _ h => (List.not_mem_nil _ h).elim,
    fun _ h => (List.not_mem_nil _ h).elim, fun _ h => (List.not_mem_nil _ h).elim⟩
  below := fun _ h => (List.not_mem_nil _ h).elim
  extent := fun _ h => (List.not_mem_nil _ h).elim
  apart := List.Pairwise.nil
  frontier := Or.inl (le_refl _)
  end_le := Nat.zero_le _
  uninit := fun _ => rfl

theorem Tidy_gc_init {heap : Nat} {s s0 : State} {la lf : List Nat} (hheap : heap ≠ 0)
    (hsmall : heap + HEAP_SIZE ≤ MAX_REQUEST) (ht : Tidy heap s la lf)
    (hi : gc_init heap s = .ok s0) : Tidy heap s0 la lf ∧ s0.start_addr ≠ 0 := by
  unfold gc_init at hi
  by_cases h1 : s.start_addr = 0
  · rw [if_pos h1] at hi
    by_cases h2 : heap = MAP_FAILED
    · rw [if_pos h2] at hi; cases hi
    · rw [if_neg h2] at hi
      injection hi with hi
      subst hi
      have hw : wrap (heap + HEAP_SIZE) = heap + HEAP_SIZE := by
        apply wrap_of_lt
        unfold MAX_REQUEST at hsmall
        unfold W
        omega
      have hf0 := ht.uninit h1
      refine ⟨⟨WF_of_eq ht.wf rfl rfl rfl, ?_, ?_, ht.apart, ?_, ?_, ?_⟩, hheap⟩
      · intro h hh
        have := ht.below h hh
        rw [hf0] at this
        exact absurd this (Nat.not_lt_zero _)
      · intro h hh
        have := ht.below h hh
        rw [hf0] at this
        exact absurd this (Nat.not_lt_zero _)
      · left
        dsimp only
        rw [hw]
        exact Nat.le_add_right _ _
      · dsimp only
        rw [hw]
      · intro e
        exact absurd e hheap
  · rw [if_neg h1] at hi
    injection hi with hi
    subst hi
    exact ⟨ht, h1⟩

theorem Tidy_padded {heap : Nat} {s : State} {la lf : List Nat}
    (hsmall : heap + HEAP_SIZE ≤ MAX_REQUEST) (ht : Tidy heap s la lf)
    (hs : s.start_addr ≠ 0) :
    Tidy heap (padded s) la lf ∧ (padded s).free_addr % DBL_WORD_SIZE = 8 ∧
      (padded s).free_addr ≤ s.end_addr + 15 ∧ s.free_addr ≤ (padded s).free_addr := by
  have hend := ht.end_le
  have hfr := ht.frontier
  have h8 := padded_aligned s
  have hlt : s.free_addr + padding s.free_addr < W := by
    unfold padding sizeof_header_s DBL_WORD_SIZE
    unfold MAX_REQUEST at hsmall
    unfold W
    omega
  have hP : (padded s).free_addr = s.free_addr + padding s.free_addr := wrap_of_lt _ hlt
  have hle : (padded s).free_addr ≤ s.end_addr + 15 := by
    rw [hP]
    unfold padding sizeof_header_s DBL_WORD_SIZE
    unfold DBL_WORD_SIZE at hfr
    omega
  have hge : s.free_addr ≤ (padded s).free_addr := by
    rw [hP]; exact Nat.le_add_right _ _
  refine ⟨⟨WF_of_eq ht.wf rfl rfl rfl, ?_, ?_, ht.apart, Or.inr ⟨h8, hle⟩, hend,
    fun e => absurd e hs⟩, h8, hle, hge⟩
  · intro h hh
    exact lt_of_lt_of_le (ht.below h hh) hge
  · intro h hh
    exact le_trans (ht.extent h hh) hge

theorem Apart_symm {hdr : Nat → header_s} {a b : Nat} (h : Apart hdr a b) : Apart hdr b a :=
  Or.symm h

/-- A tidy state stays tidy when its listed headers are rearranged between the
lists, with their sizes, the frontier and the heap bounds unchanged. -/
theorem Tidy_rearrange {heap : Nat} {s s1 : State} {la lf la1 lf1 : List Nat}
    (ht : Tidy heap s la lf) (hwf : WF s1 la1 lf1) (hperm : (la1 ++ lf1).Perm (la ++ lf))
    (hsize : ∀ x ∈ la ++ lf, (s1.hdr x).size = (s.hdr x).size)
    (hf : s1.free_addr = s.free_addr) (hst : s1.start_addr = s.start_addr)
    (he : s1.end_addr = s.end_addr) : Tidy heap s1 la1 lf1 := by
  have hap : (la ++ lf).Pairwise (Apart s1.hdr) := by
    refine List.Pairwise.imp_of_mem ?_ ht.apart
    intro a b ha hb hab
    unfold Apart at hab ⊢
    rw [hsize a ha, hsize b hb]
    exact hab
  refine ⟨hwf, ?_, ?_, ?_, ?_, ?_, ?_⟩
  · intro x hx
    rw [hf]
    exact ht.below x (hperm.mem_iff.1 hx)
  · intro x hx
    have hx2 := hperm.mem_iff.1 hx
    rw [hf, hsize x hx2]
    exact ht.extent x hx2
  · exact (hperm.pairwise_iff Apart_symm).2 hap
  · rw [hf, he]; exact ht.frontier
  · rw [he]; exact ht.end_le
  · rw [hst, hf]; exact ht.uninit

/-- `gc_malloc` with a request of at most `MAX_REQUEST` bytes keeps a state
tidy: the lists stay as they are when `NULL` is returned, and otherwise the
returned block is the new head of the allocated list, taken from the free list
or placed at the frontier. -/
theorem Tidy_gc_malloc {heap fuel n p : Nat} {s s1 : State} {la lf : List Nat}
    (hheap : heap ≠ 0) (hsmall : heap + HEAP_SIZE ≤ MAX_REQUEST) (hn : n ≤ MAX_REQUEST)
    (ht : Tidy heap s la lf) (h : gc_malloc heap fuel n s = .ok (p, s1)) :
    (p = NULL ∧ Tidy heap s1 la lf) ∨
      (p ≠ NULL ∧ ∃ b, p = HEADER_TO_BLOCK b ∧
        (Tidy heap s1 (b :: la) lf ∨ (b ∈ lf ∧ Tidy heap s1 (b :: la) (lf.erase b)))) := by
  obtain ⟨s0, hi, hc⟩ := gc_malloc_cases h
  obtain ⟨ht0, hs0⟩ := Tidy_gc_init hheap hsmall ht hi
  obtain ⟨htp, h8, hle, hge⟩ := Tidy_padded hsmall ht0 hs0
  have hend := ht0.end_le
  have hfresh : (padded s0).free_addr ∉ la ++ lf := fun hm =>
    absurd (htp.below _ hm) (lt_irrefl _)
  rcases hc with ⟨_, hp0, e⟩ | ⟨hn0, r, hfb, hc⟩
  · left; rw [e]; exact ⟨hp0, htp⟩
  rcases hc with ⟨hr, hc⟩ | ⟨_, _, hp0, e⟩ | ⟨_, hov, hc⟩
  · right
    have hmem : r ∈ lf := by
      rcases find_best_mem n fuel lf NULL s0.free_list_head NULL r ht0.wf.free hfb with e | hm
      · exact absurd e hr
      · exact hm.1
    have hbd := ht0.wf.bound r (List.mem_append_right _ hmem)
    have hbW : r < W := lt_of_le_of_lt (Nat.le_add_right _ _) hbd
    rw [malloc_prepend_take r (padded s0) hbW] at hc
    injection hc with hc1 hc2
    subst hc1
    subst hc2
    refine ⟨HEADER_TO_BLOCK_ne_null r hbd, r, rfl, Or.inr ⟨hmem, ?_⟩⟩
    have hperm : (r :: la ++ lf.erase r).Perm (la ++ lf) :=
      (List.perm_middle.symm : (r :: la ++ lf.erase r).Perm (la ++ r :: lf.erase r)).trans
        ((List.perm_cons_erase hmem).symm.append_left la)
    exact Tidy_rearrange htp (take_WF htp.wf r hmem) hperm
      (fun x _ => take_hdr_size _ _ _ _) rfl rfl rfl
  · left
    rw [e]
    exact ⟨hp0, Tidy_rearrange htp (bump_header_WF n htp.wf hfresh) (List.Perm.refl _)
      (fun x hx => congrArg header_s.size
        (malloc_bump_header_outside n (padded s0) x (fun e => hfresh (e ▸ hx)))) rfl rfl rfl⟩
  · right
    have hP0 : (padded s0).free_addr ≠ NULL := by
      intro e
      rw [e] at h8
      exact absurd h8 (by decide)
    have hb40 : (padded s0).free_addr + sizeof_header_s < W := by
      unfold MAX_REQUEST at hsmall
      unfold sizeof_header_s W
      omega
    have hPW : (padded s0).free_addr < W := lt_of_le_of_lt (Nat.le_add_right _ _) hb40
    have hrt := BLOCK_TO_HEADER_HEADER_TO_BLOCK _ hPW
    have hblock := HEADER_TO_BLOCK_eq _ hb40
    have hnew2 : (padded s0).free_addr + sizeof_header_s + n < W / 2 := by
      unfold MAX_REQUEST at hsmall hn
      unfold sizeof_header_s W
      omega
    have hnewW : (padded s0).free_addr + sizeof_header_s + n < W := by
      unfold W at hnew2 ⊢
      omega
    have hnew : wrap (HEADER_TO_BLOCK (padded s0).free_addr + n) =
        (padded s0).free_addr + sizeof_header_s + n := by
      rw [hblock]; exact wrap_of_lt _ hnewW
    have hend2 : s0.end_addr < W / 2 := by
      unfold MAX_REQUEST at hsmall
      unfold W
      omega
    rw [hnew, toSigned_of_lt _ hnew2, toSigned_of_lt _ hend2] at hov
    have hfit : (padded s0).free_addr + sizeof_header_s + n ≤ s0.end_addr := by
      have := not_lt.1 hov
      exact_mod_cast this
    rw [malloc_prepend_eq, hrt] at hc
    injection hc with hc1 hc2
    subst hc1
    subst hc2
    refine ⟨HEADER_TO_BLOCK_ne_null _ hb40, (padded s0).free_addr, rfl, Or.inl ?_⟩
    have hwf1 := bump_WF n (wrap (HEADER_TO_BLOCK (padded s0).free_addr + n)) htp.wf hfresh
      hP0 hb40
    have hsz : ∀ x, (push_hdr (malloc_bump_header n (padded s0)).hdr (padded s0).free_addr
        (padded s0).allocated_list_head x).size =
        if x = (padded s0).free_addr then n else (s0.hdr x).size := by
      intro x
      rw [push_hdr_size, malloc_bump_header_hdr, set_allocated_size, set_size_size]
      split_ifs
      · rfl
      · rw [set_prev_size, set_next_size]
        rfl
    have hfree1 : ∀ x ∈ la ++ lf, x ≠ (padded s0).free_addr := fun x hx e2 => hfresh (e2 ▸ hx)
    have hext : ∀ x ∈ la ++ lf, x + sizeof_header_s + (s0.hdr x).size ≤
        (padded s0).free_addr := fun x hx => htp.extent x hx
    have key : Tidy heap { malloc_bump_header n (padded s0) with
        free_addr := wrap (HEADER_TO_BLOCK (padded s0).free_addr + n)
        hdr := push_hdr (malloc_bump_header n (padded s0)).hdr (padded s0).free_addr
          (padded s0).allocated_list_head
        allocated_list_head := (padded s0).free_addr } ((padded s0).free_addr :: la) lf := by
      refine ⟨hwf1, ?_, ?_, ?_, ?_, ?_, ?_⟩
      · intro x hx
        have hx2 : x ∈ (padded s0).free_addr :: (la ++ lf) := by
          rw [← List.cons_append]; exact hx
        show x < wrap (HEADER_TO_BLOCK (padded s0).free_addr + n)
        rw [hnew]
        rcases List.mem_cons.1 hx2 with e | e
        · rw [e]; unfold sizeof_header_s; omega
        · have := htp.below x e
          omega
      · intro x hx
        have hx2 : x ∈ (padded s0).free_addr :: (la ++ lf) := by
          rw [← List.cons_append]; exact hx
        show x + sizeof_header_s + (push_hdr (malloc_bump_header n (padded s0)).hdr
          (padded s0).free_addr (padded s0).allocated_list_head x).size ≤
          wrap (HEADER_TO_BLOCK (padded s0).free_addr + n)
        rw [hnew, hsz]
        rcases List.mem_cons.1 hx2 with e | e
        · rw [if_pos e, e]
        · rw [if_neg (hfree1 x e)]
          have := hext x e
          omega
      · show ((padded s0).free_addr :: la ++ lf).Pairwise
          (Apart (push_hdr (malloc_bump_header n (padded s0)).hdr (padded s0).free_addr
            (padded s0).allocated_list_head))
        rw [List.cons_append]
        refine List.pairwise_cons.2 ⟨?_, ?_⟩
        · intro x hx
          right
          rw [hsz, if_neg (hfree1 x hx)]
          exact hext x hx
        · refine List.Pairwise.imp_of_mem ?_ htp.apart
          intro a b ha hb hab
          have hab2 : a + sizeof_header_s + (s0.hdr a).size ≤ b ∨
              b + sizeof_header_s + (s0.hdr b).size ≤ a := hab
          unfold Apart
          rw [hsz, hsz, if_neg (hfree1 a ha), if_neg (hfree1 b hb)]
          exact hab2
      · left
        show wrap (HEADER_TO_BLOCK (padded s0).free_addr + n) ≤ s0.end_addr
        rw [hnew]
        exact hfit
      · exact htp.end_le
      · intro e
        exact absurd e hs0
    exact key

theorem Tidy_set_layout {heap : Nat} {s : State} {la lf : List Nat} (ht : Tidy heap s la lf)
    (x : Nat) (v : Option gc_layout_s) :
    Tidy heap { s with hdr := set_layout s.hdr x v } la lf :=
  Tidy_rearrange ht (WF_set_layout ht.wf x v) (List.Perm.refl _)
    (fun _ _ => set_layout_size _ _ _ _) rfl rfl rfl

theorem Tidy_gc_new {heap fuel p : Nat} {L : gc_layout_s} {s s1 : State} {la lf : List Nat}
    (hheap : heap ≠ 0) (hsmall : heap + HEAP_SIZE ≤ MAX_REQUEST) (hn : L.size ≤ MAX_REQUEST)
    (ht : Tidy heap s la lf) (h : gc_new heap fuel L s = .ok (p, s1)) :
    ∃ la1 lf1, Tidy heap s1 la1 lf1 := by
  obtain ⟨s2, hm, e⟩ := gc_new_cases h
  subst e
  rcases Tidy_gc_malloc hheap hsmall hn ht hm with ⟨_, t⟩ | ⟨_, b, _, t | ⟨_, t⟩⟩
  · exact ⟨_, _, Tidy_set_layout t _ _⟩
  · exact ⟨_, _, Tidy_set_layout t _ _⟩
  · exact ⟨_, _, Tidy_set_layout t _ _⟩

theorem Tidy_gc_free {heap p : Nat} {s s1 : State} {la lf : List Nat} (ht : Tidy heap s la lf)
    (hp : p = NULL ∨ ∃ l h, IsList s.hdr NULL s.allocated_list_head l ∧ h ∈ l ∧
      p = HEADER_TO_BLOCK h)
    (h : gc_free p s = .ok s1) : ∃ la1 lf1, Tidy heap s1 la1 lf1 := by
  rcases hp with hp | ⟨l, b, hl, hb, hp⟩
  · subst hp
    have : s1 = s := by
      unfold gc_free at h
      rw [if_pos rfl] at h
      injection h with h
      exact h.symm
    subst this
    exact ⟨la, lf, ht⟩
  · have e := IsList_unique l la _ _ hl ht.wf.alloc
    rw [e] at hb
    subst hp
    obtain ⟨s2, he, hwf2, hh2, e1, e2, e3, _⟩ := gc_free_WF ht.wf b hb
    rw [h] at he
    injection he with he
    subst he
    have hperm : (la.erase b ++ b :: lf).Perm (la ++ lf) :=
      List.perm_middle.trans ((List.perm_cons_erase hb).symm.append_right lf)
    exact ⟨_, _, Tidy_rearrange ht hwf2 hperm
      (fun x _ => by rw [hh2]; exact free_hdr_size _ _ _ _) e1 e2 e3⟩

theorem Tidy_gc {heap fuel : Nat} {s s1 : State} {la lf : List Nat} (ht : Tidy heap s la lf)
    (h : gc fuel s = .ok s1) : ∃ la1 lf1, Tidy heap s1 la1 lf1 := by
  obtain ⟨sm, hmark, hwf2, hsw, _⟩ := gc_spec ht.wf h
  obtain ⟨_, hsm, _, ⟨g1, g2, g3, _, _⟩, _⟩ := mark_spec hmark
  obtain ⟨w1, w2, w3, _, _⟩ := hsw.globals
  have e1 : s1.free_addr = s.free_addr := w1.trans g1
  have e2 : s1.start_addr = s.start_addr := w2.trans g2
  have e3 : s1.end_addr = s.end_addr := w3.trans g3
  have hperm : (la.filter (fun h => (sm.hdr h).marked) ++
      ((la.filter (fun h => !(sm.hdr h).marked)).reverse ++ lf)).Perm (la ++ lf) := by
    rw [← List.append_assoc]
    refine List.Perm.append_right lf ?_
    exact ((List.reverse_perm _).append_left _).trans (List.filter_append_perm _ la)
  exact ⟨_, _, Tidy_rearrange ht hwf2 hperm
    (fun x _ => (hsw.size x).trans (hsm x).2.2.1) e1 e2 e3⟩

/-- Every state that a client keeping to the contract reaches is tidy, when the
mapping lies at a non-null address and ends below `MAX_REQUEST`. -/
theorem Client_tidy {heap : Nat} {s : State} (hheap : heap ≠ 0)
    (hsmall : heap + HEAP_SIZE ≤ MAX_REQUEST) (hc : Client heap s) :
    ∃ la lf, Tidy heap s la lf := by
  induction hc with
  | init mem => exact ⟨[], [], Tidy_init heap mem⟩
  | malloc _ hn h ih =>
    obtain ⟨la, lf, ht⟩ := ih
    rcases Tidy_gc_malloc hheap hsmall hn ht h with ⟨_, t⟩ | ⟨_, b, _, t | ⟨_, t⟩⟩
    · exact ⟨_, _, t⟩
    · exact ⟨_, _, t⟩
    · exact ⟨_, _, t⟩
  | new _ hn h ih =>
    obtain ⟨la, lf, ht⟩ := ih
    exact Tidy_gc_new hheap hsmall hn ht h
  | free _ hp h ih =>
    obtain ⟨la, lf, ht⟩ := ih
    exact Tidy_gc_free ht hp h
  | collect _ h ih =>
    obtain ⟨la, lf, ht⟩ := ih
    exact Tidy_gc ht h
  | root_insert p _ ih =>
    obtain ⟨la, lf, ht⟩ := ih
    exact ⟨la, lf, ⟨ht.wf.alloc, ht.wf.free, ht.wf.nodup, ht.wf.alloc_flag, ht.wf.free_flag,
      ht.wf.bound⟩, ht.below, ht.extent, ht.apart, ht.frontier, ht.end_le, ht.uninit⟩
  | store mem _ ih =>
    obtain ⟨la, lf, ht⟩ := ih
    exact ⟨la, lf, ⟨ht.wf.alloc, ht.wf.free, ht.wf.nodup, ht.wf.alloc_flag, ht.wf.free_flag,
      ht.wf.bound⟩, ht.below, ht.extent, ht.apart, ht.frontier, ht.end_le, ht.uninit⟩

/-- Without overflow the lists stay well formed and the blocks stay apart.
With the mapping at a non-null address that ends below `2^61`, in every state
reached by requests of at most `2^61` bytes, by `gc_free` on `NULL` or on live
blocks, and by `gc`, both lists are finite doubly linked lists ending in `NULL`
whose heads have `prev = NULL`, they repeat no header and share none, the
`allocated` flags agree with list membership, every listed block ends at or
below the frontier, no two listed blocks overlap, and the frontier is less than
16 bytes past `end_addr`. -/
theorem Client_well_formed {heap : Nat} {s : State} (hheap : heap ≠ 0)
    (hsmall : heap + HEAP_SIZE ≤ MAX_REQUEST) (hc : Client heap s) :
    ∃ la lf, WF s la lf ∧ (∀ h ∈ la ++ lf, h < s.free_addr) ∧
      s.free_addr ≤ s.end_addr + 15 ∧
      (∀ h ∈ la ++ lf, h + sizeof_header_s + (s.hdr h).size ≤ s.free_addr) ∧
      (la ++ lf).Pairwise (Apart s.hdr) := by
  obtain ⟨la, lf, ht⟩ := Client_tidy hheap hsmall hc
  refine ⟨la, lf, ht.wf, ht.below, ?_, ht.extent, ht.apart⟩
  rcases ht.frontier with h | h
  · exact le_trans h (Nat.le_add_right _ _)
  · exact h.2

/-- Every state that a client keeping to the contract reaches satisfies the
alignment invariant. -/
theorem Client_aligned {heap : Nat} {s : State} (h : Client heap s) : Aligned s := by
  induction h with
  | init mem =>
    exact ⟨AlignedPtr_null, AlignedPtr_null,
      fun _ => ⟨AlignedPtr_null, AlignedPtr_null, fun e => by cases e⟩⟩
  | malloc _ _ hm ih => exact (Aligned_gc_malloc ih hm).1
  | new _ _ hn ih => exact (Aligned_gc_new ih hn).1
  | free _ _ hf ih => exact Aligned_gc_free ih hf
  | collect _ hg ih => exact Aligned_gc ih hg
  | root_insert p _ ih => exact ih
  | store mem _ ih => exact ih

/-- Payload alignment without overflow.  With the mapping at a non-null address
that ends below `2^61`, in every state reached by a client that keeps to the
contract the listed blocks are apart, so that no header store reaches another
block, and every non-null pointer that `gc_malloc` or `gc_new` returns for a
request of at most `2^61` bytes is a multiple of 16; and for every frontier `f`,
with `padding = (40 + 16 - f mod 16) mod 16`, `(f + padding + 40) mod 16 = 0`. -/
theorem Client_payload_alignment {heap : Nat} {s : State} (hheap : heap ≠ 0)
    (hsmall : heap + HEAP_SIZE ≤ MAX_REQUEST) (hc : Client heap s) :
    (∃ la lf, Tidy heap s la lf) ∧
      (∀ fuel n p s1, n ≤ MAX_REQUEST → gc_malloc heap fuel n s = .ok (p, s1) →
        p ≠ NULL → p % 16 = 0) ∧
      (∀ fuel L p s1, L.size ≤ MAX_REQUEST → gc_new heap fuel L s = .ok (p, s1) →
        p ≠ NULL → p % 16 = 0) ∧
      ∀ f, padding f = (40 + 16 - f % 16) % 16 ∧ (f + padding f + 40) % 16 = 0 := by
  have ha := Client_aligned hc
  refine ⟨Client_tidy hheap hsmall hc, ?_, ?_, fun f => ⟨rfl, padding_aligned f⟩⟩
  · intro fuel n p s1 _ h hp
    rcases (Aligned_gc_malloc ha h).2 with e | e
    · exact absurd e hp
    · exact e
  · intro fuel L p s1 _ h hp
    rcases (Aligned_gc_new ha h).2 with e | e
    · exact absurd e hp
    · exact e

/-! ### Alignment after an overflow -/

set_option maxRecDepth 1000000

/-- C5 (the code at the failing input): in flat memory, with the mapping at
4096, the calls `gc_malloc(16)`, `gc_malloc(256)`, `gc_free` of the second
block, `gc_malloc(2^64 - 360)`, `gc_malloc(4160)` and `gc_malloc(1)` all return,
and the last one returns 4200, which is 8 modulo 16.  The fourth request is not
rejected and wraps the frontier back to 4152; the header that the fifth request
writes there lies over the free header at 4168, whose `next` then reads 4160
and whose `prev` reads 1; the search of the sixth request follows that link to
4160, finds an exact fit there and returns its payload. -/
theorem C5_overflow_misaligned_pointer :
    ∃ s1 s2 s3 s4 s5 s6, Flat.gc_malloc 4096 2 16 Flat.initial_state = .ok (4144, s1) ∧
      Flat.gc_malloc 4096 2 256 s1 = .ok (4208, s2) ∧
      Flat.gc_free 4208 s2 = .ok s3 ∧
      Flat.gc_malloc 4096 2 18446744073709551256 s3 = .ok (4512, s4) ∧
      s4.free_addr = 4152 ∧ s4.free_list_head = 4168 ∧ Flat.next s4.mem 4168 = NULL ∧
      Flat.gc_malloc 4096 2 4160 s4 = .ok (4192, s5) ∧
      s5.free_list_head = 4168 ∧ Flat.next s5.mem 4168 = 4160 ∧ Flat.prev s5.mem 4168 = 1 ∧
      Flat.gc_malloc 4096 2 1 s5 = .ok (4200, s6) ∧ 4200 % 16 = 8 :=
  ⟨_, _, _, _, _, _, rfl, rfl, rfl, rfl, rfl, rfl, rfl, rfl, rfl, rfl, rfl, rfl, rfl⟩

/-! ### Records and flat memory -/

theorem flat_load8_store8 (m : Nat → Nat) (a b v : Nat) :
    Flat.load8 (Flat.store8 m a v) b = if wrap b = wrap a then v % 256 else Flat.load8 m b := rfl

theorem flat_load8_store8_of_ne (m : Nat → Nat) (a b v : Nat) (ha : a < W) (hb : b < W)
    (h : b ≠ a) : Flat.load8 (Flat.store8 m a v) b = Flat.load8 m b := by
  rw [flat_load8_store8, wrap_of_lt a ha, wrap_of_lt b hb, if_neg h]

theorem flat_load8_store8_same (m : Nat → Nat) (a v : Nat) :
    Flat.load8 (Flat.store8 m a v) a = v % 256 := by
  rw [flat_load8_store8, if_pos rfl]

/-- A byte outside the eight bytes of a word store is unchanged. -/
theorem flat_load8_store64 (m : Nat → Nat) (a b v : Nat) (ha : a + 8 ≤ W) (hb : b < W)
    (h : b < a ∨ a + 8 ≤ b) : Flat.load8 (Flat.store64 m a v) b = Flat.load8 m b := by
  unfold Flat.store64
  rw [flat_load8_store8_of_ne _ _ _ _ (by omega) hb (by omega),
    flat_load8_store8_of_ne _ _ _ _ (by omega) hb (by omega),
    flat_load8_store8_of_ne _ _ _ _ (by omega) hb (by omega),
    flat_load8_store8_of_ne _ _ _ _ (by omega) hb (by omega),
    flat_load8_store8_of_ne _ _ _ _ (by omega) hb (by omega),
    flat_load8_store8_of_ne _ _ _ _ (by omega) hb (by omega),
    flat_load8_store8_of_ne _ _ _ _ (by omega) hb (by omega),
    flat_load8_store8_of_ne _ _ _ _ (by omega) hb (by omega)]

/-- A word outside the eight bytes of a word store is unchanged. -/
theorem flat_load64_store64 (m : Nat → Nat) (a b v : Nat) (ha : a + 8 ≤ W) (hb : b + 8 ≤ W)
    (h : b + 8 ≤ a ∨ a + 8 ≤ b) : Flat.load64 (Flat.store64 m a v) b = Flat.load64 m b := by
  unfold Flat.load64
  rw [flat_load8_store64 m a b v ha (by omega) (by omega),
    flat_load8_store64 m a (b + 1) v ha (by omega) (by omega),
    flat_load8_store64 m a (b + 2) v ha (by omega) (by omega),
    flat_load8_store64 m a (b + 3) v ha (by omega) (by omega),
    flat_load8_store64 m a (b + 4) v ha (by omega) (by omega),
    flat_load8_store64 m a (b + 5) v ha (by omega) (by omega),
    flat_load8_store64 m a (b + 6) v ha (by omega) (by omega),
    flat_load8_store64 m a (b + 7) v ha (by omega) (by omega)]

/-- A word that does not contain the stored byte is unchanged. -/
theorem flat_load64_store8 (m : Nat → Nat) (a b v : Nat) (ha : a < W) (hb : b + 8 ≤ W)
    (h : a < b ∨ b + 8 ≤ a) : Flat.load64 (Flat.store8 m a v) b = Flat.load64 m b := by
  unfold Flat.load64
  rw [flat_load8_store8_of_ne m a b v ha (by omega) (by omega),
    flat_load8_store8_of_ne m a (b + 1) v ha (by omega) (by omega),
    flat_load8_store8_of_ne m a (b + 2) v ha (by omega) (by omega),
    flat_load8_store8_of_ne m a (b + 3) v ha (by omega) (by omega),
    flat_load8_store8_of_ne m a (b + 4) v ha (by omega) (by omega),
    flat_load8_store8_of_ne m a (b + 5) v ha (by omega) (by omega),
    flat_load8_store8_of_ne m a (b + 6) v ha (by omega) (by omega),
    flat_load8_store8_of_ne m a (b + 7) v ha (by omega) (by omega)]

/-- The bytes of a stored word, lowest first. -/
theorem flat_store64_bytes (m : Nat → Nat) (a v : Nat) (ha : a + 8 ≤ W) :
    Flat.load8 (Flat.store64 m a v) a = v % 256 ∧
      Flat.load8 (Flat.store64 m a v) (a + 1) = (v / 256) % 256 ∧
      Flat.load8 (Flat.store64 m a v) (a + 2) = (v / 65536) % 256 ∧
      Flat.load8 (Flat.store64 m a v) (a + 3) = (v / 16777216) % 256 ∧
      Flat.load8 (Flat.store64 m a v) (a + 4) = (v / 4294967296) % 256 ∧
      Flat.load8 (Flat.store64 m a v) (a + 5) = (v / 1099511627776) % 256 ∧
      Flat.load8 (Flat.store64 m a v) (a + 6) = (v / 281474976710656) % 256 ∧
      Flat.load8 (Flat.store64 m a v) (a + 7) = (v / 72057594037927936) % 256 := by
  unfold Flat.store64
  refine ⟨?_, ?_, ?_, ?_, ?_, ?_, ?_, ?_⟩
  · rw [flat_load8_store8_of_ne _ _ _ _ (by omega) (by omega) (by omega),
      flat_load8_store8_of_ne _ _ _ _ (by omega) (by omega) (by omega),
      flat_load8_store8_of_ne _ _ _ _ (by omega) (by omega) (by omega),
      flat_load8_store8_of_ne _ _ _ _ (by omega) (by omega) (by omega),
      flat_load8_store8_of_ne _ _ _ _ (by omega) (by omega) (by omega),
      flat_load8_store8_of_ne _ _ _ _ (by omega) (by omega) (by omega),
      flat_load8_store8_of_ne _ _ _ _ (by omega) (by omega) (by omega),
      flat_load8_store8_same]
  · rw [flat_load8_store8_of_ne _ _ _ _ (by omega) (by omega) (by omega),
      flat_load8_store8_of_ne _ _ _ _ (by omega) (by omega) (by omega),
      flat_load8_store8_of_ne _ _ _ _ (by omega) (by omega) (by omega),
      flat_load8_store8_of_ne _ _ _ _ (by omega) (by omega) (by omega),
      flat_load8_store8_of_ne _ _ _ _ (by omega) (by omega) (by omega),
      flat_load8_store8_of_ne _ _ _ _ (by omega) (by omega) (by omega),
      flat_load8_store8_same]
  · rw [flat_load8_store8_of_ne _ _ _ _ (by omega) (by omega) (by omega),
      flat_load8_store8_of_ne _ _ _ _ (by omega) (by omega) (by omega),
      flat_load8_store8_of_ne _ _ _ _ (by omega) (by omega) (by omega),
      flat_load8_store8_of_ne _ _ _ _ (by omega) (by omega) (by omega),
      flat_load8_store8_of_ne _ _ _ _ (by omega) (by omega) (by omega),
      flat_load8_store8_same]
  · rw [flat_load8_store8_of_ne _ _ _ _ (by omega) (by omega) (by omega),
      flat_load8_store8_of_ne _ _ _ _ (by omega) (by omega) (by omega),
      flat_load8_store8_of_ne _ _ _ _ (by omega) (by omega) (by omega),
      flat_load8_store8_of_ne _ _ _ _ (by omega) (by omega) (by omega),
      flat_load8_store8_same]
  · rw [flat_load8_store8_of_ne _ _ _ _ (by omega) (by omega) (by omega),
      flat_load8_store8_of_ne _ _ _ _ (by omega) (by omega) (by omega),
      flat_load8_store8_of_ne _ _ _ _ (by omega) (by omega) (by omega),
      flat_load8_store8_same]
  · rw [flat_load8_store8_of_ne _ _ _ _ (by omega) (by omega) (by omega),
      flat_load8_store8_of_ne _ _ _ _ (by omega) (by omega) (by omega),
      flat_load8_store8_same]
  · rw [flat_load8_store8_of_ne _ _ _ _ (by omega) (by omega) (by omega),
      flat_load8_store8_same]
  · rw [flat_load8_store8_same]

/-- A word store followed by a load of the same word returns the value. -/
theorem flat_load64_store64_same (m : Nat → Nat) (a v : Nat) (ha : a + 8 ≤ W) (hv : v < W) :
    Flat.load64 (Flat.store64 m a v) a = v := by
  obtain ⟨b0, b1, b2, b3, b4, b5, b6, b7⟩ := flat_store64_bytes m a v ha
  unfold Flat.load64
  rw [b0, b1, b2, b3, b4, b5, b6, b7]
  unfold W at hv
  omega

/-- The stores to the header at `a` act on the header at `a` itself as the
record updates do: each changes its own field and no other. -/
theorem flat_store_same (m : Nat → Nat) (a v : Nat) (c : Bool) (ha : a + sizeof_header_s ≤ W)
    (hv : v < W) :
    (Flat.next (Flat.set_next m a v) a = v ∧ Flat.prev (Flat.set_next m a v) a = Flat.prev m a ∧
      Flat.size (Flat.set_next m a v) a = Flat.size m a ∧
      Flat.allocated (Flat.set_next m a v) a = Flat.allocated m a) ∧
    (Flat.next (Flat.set_prev m a v) a = Flat.next m a ∧ Flat.prev (Flat.set_prev m a v) a = v ∧
      Flat.size (Flat.set_prev m a v) a = Flat.size m a ∧
      Flat.allocated (Flat.set_prev m a v) a = Flat.allocated m a) ∧
    (Flat.next (Flat.set_size m a v) a = Flat.next m a ∧
      Flat.prev (Flat.set_size m a v) a = Flat.prev m a ∧
      Flat.size (Flat.set_size m a v) a = v ∧
      Flat.allocated (Flat.set_size m a v) a = Flat.allocated m a) ∧
    (Flat.next (Flat.set_allocated m a c) a = Flat.next m a ∧
      Flat.prev (Flat.set_allocated m a c) a = Flat.prev m a ∧
      Flat.size (Flat.set_allocated m a c) a = Flat.size m a ∧
      Flat.allocated (Flat.set_allocated m a c) a = c) := by
  unfold sizeof_header_s at ha
  unfold Flat.next Flat.prev Flat.size Flat.allocated Flat.set_next Flat.set_prev Flat.set_size
    Flat.set_allocated
  refine ⟨⟨?_, ?_, ?_, ?_⟩, ⟨?_, ?_, ?_, ?_⟩, ⟨?_, ?_, ?_, ?_⟩, ⟨?_, ?_, ?_, ?_⟩⟩
  · exact flat_load64_store64_same m a v (by omega) hv
  · exact flat_load64_store64 m a (a + 8) v (by omega) (by omega) (by omega)
  · exact flat_load64_store64 m a (a + 16) v (by omega) (by omega) (by omega)
  · rw [flat_load8_store64 m a (a + 24) v (by omega) (by omega) (by omega)]
  · exact flat_load64_store64 m (a + 8) a v (by omega) (by omega) (by omega)
  · exact flat_load64_store64_same m (a + 8) v (by omega) hv
  · exact flat_load64_store64 m (a + 8) (a + 16) v (by omega) (by omega) (by omega)
  · rw [flat_load8_store64 m (a + 8) (a + 24) v (by omega) (by omega) (by omega)]
  · exact flat_load64_store64 m (a + 16) a v (by omega) (by omega) (by omega)
  · exact flat_load64_store64 m (a + 16) (a + 8) v (by omega) (by omega) (by omega)
  · exact flat_load64_store64_same m (a + 16) v (by omega) hv
  · rw [flat_load8_store64 m (a + 16) (a + 24) v (by omega) (by omega) (by omega)]
  · exact flat_load64_store8 m (a + 24) a _ (by omega) (by omega) (by omega)
  · exact flat_load64_store8 m (a + 24) (a + 8) _ (by omega) (by omega) (by omega)
  · exact flat_load64_store8 m (a + 24) (a + 16) _ (by omega) (by omega) (by omega)
  · rw [flat_load8_store8_same]
    cases c <;> rfl

/-- Headers at least 40 bytes apart: a store to a field of the header at `a`
changes no field of the header at `b`. -/
theorem flat_store_frame (m : Nat → Nat) (a b v : Nat) (c : Bool)
    (ha : a + sizeof_header_s ≤ W) (hb : b + sizeof_header_s ≤ W)
    (hab : a + sizeof_header_s ≤ b ∨ b + sizeof_header_s ≤ a) :
    (Flat.next (Flat.set_next m a v) b = Flat.next m b ∧
      Flat.prev (Flat.set_next m a v) b = Flat.prev m b ∧
      Flat.size (Flat.set_next m a v) b = Flat.size m b ∧
      Flat.allocated (Flat.set_next m a v) b = Flat.allocated m b) ∧
    (Flat.next (Flat.set_prev m a v) b = Flat.next m b ∧
      Flat.prev (Flat.set_prev m a v) b = Flat.prev m b ∧
      Flat.size (Flat.set_prev m a v) b = Flat.size m b ∧
      Flat.allocated (Flat.set_prev m a v) b = Flat.allocated m b) ∧
    (Flat.next (Flat.set_size m a v) b = Flat.next m b ∧
      Flat.prev (Flat.set_size m a v) b = Flat.prev m b ∧
      Flat.size (Flat.set_size m a v) b = Flat.size m b ∧
      Flat.allocated (Flat.set_size m a v) b = Flat.allocated m b) ∧
    (Flat.next (Flat.set_allocated m a c) b = Flat.next m b ∧
      Flat.prev (Flat.set_allocated m a c) b = Flat.prev m b ∧
      Flat.size (Flat.set_allocated m a c) b = Flat.size m b ∧
      Flat.allocated (Flat.set_allocated m a c) b = Flat.allocated m b) := by
  unfold sizeof_header_s at ha hb hab
  unfold Flat.next Flat.prev Flat.size Flat.allocated Flat.set_next Flat.set_prev Flat.set_size
    Flat.set_allocated
  refine ⟨⟨?_, ?_, ?_, ?_⟩, ⟨?_, ?_, ?_, ?_⟩, ⟨?_, ?_, ?_, ?_⟩, ⟨?_, ?_, ?_, ?_⟩⟩
  · exact flat_load64_store64 m a b v (by omega) (by omega) (by omega)
  · exact flat_load64_store64 m a (b + 8) v (by omega) (by omega) (by omega)
  · exact flat_load64_store64 m a (b + 16) v (by omega) (by omega) (by omega)
  · rw [flat_load8_store64 m a (b + 24) v (by omega) (by omega) (by omega)]
  · exact flat_load64_store64 m (a + 8) b v (by omega) (by omega) (by omega)
  · exact flat_load64_store64 m (a + 8) (b + 8) v (by omega) (by omega) (by omega)
  · exact flat_load64_store64 m (a + 8) (b + 16) v (by omega) (by omega) (by omega)
  · rw [flat_load8_store64 m (a + 8) (b + 24) v (by omega) (by omega) (by omega)]
  · exact flat_load64_store64 m (a + 16) b v (by omega) (by omega) (by omega)
  · exact flat_load64_store64 m (a + 16) (b + 8) v (by omega) (by omega) (by omega)
  · exact flat_load64_store64 m (a + 16) (b + 16) v (by omega) (by omega) (by omega)
  · rw [flat_load8_store64 m (a + 16) (b + 24) v (by omega) (by omega) (by omega)]
  · exact flat_load64_store8 m (a + 24) b _ (by omega) (by omega) (by omega)
  · exact flat_load64_store8 m (a + 24) (b + 8) _ (by omega) (by omega) (by omega)
  · exact flat_load64_store8 m (a + 24) (b + 16) _ (by omega) (by omega) (by omega)
  · rw [flat_load8_store8_of_ne m (a + 24) (b + 24) _ (by omega) (by omega) (by omega)]

/-- Records and flat memory agree on headers that are apart.  When the record
`hdr b` describes the header at `b`, and `b` is the written header `a` itself or
lies at least 40 bytes from it, then after the same store to `a` in both models
the updated record still describes the header at `b`. -/
theorem flat_store_describes (m : Nat → Nat) (hdr : Nat → header_s) (a b v : Nat) (c : Bool)
    (ha : a + sizeof_header_s ≤ W) (hb : b + sizeof_header_s ≤ W) (hv : v < W)
    (hab : b = a ∨ a + sizeof_header_s ≤ b ∨ b + sizeof_header_s ≤ a)
    (hd : Flat.Describes m b (hdr b)) :
    Flat.Describes (Flat.set_next m a v) b (set_next hdr a v b) ∧
      Flat.Describes (Flat.set_prev m a v) b (set_prev hdr a v b) ∧
      Flat.Describes (Flat.set_size m a v) b (set_size hdr a v b) ∧
      Flat.Describes (Flat.set_allocated m a c) b (set_allocated hdr a c b) := by
  obtain ⟨d1, d2, d3, d4⟩ := hd
  unfold Flat.Describes
  rcases hab with e | hab
  · subst e
    obtain ⟨⟨n1, n2, n3, n4⟩, ⟨p1, p2, p3, p4⟩, ⟨s1, s2, s3, s4⟩, ⟨a1, a2, a3, a4⟩⟩ :=
      flat_store_same m b v c hb hv
    simp only [set_next_next, set_next_prev, set_next_size, set_next_allocated,
      set_prev_next, set_prev_prev, set_prev_size, set_prev_allocated,
      set_size_next, set_size_prev, set_size_size, set_size_allocated,
      set_allocated_next, set_allocated_prev, set_allocated_size, set_allocated_allocated,
      if_true]
    exact ⟨⟨n1, n2.trans d2, n3.trans d3, n4.trans d4⟩,
      ⟨p1.trans d1, p2, p3.trans d3, p4.trans d4⟩,
      ⟨s1.trans d1, s2.trans d2, s3, s4.trans d4⟩,
      ⟨a1.trans d1, a2.trans d2, a3.trans d3, a4⟩⟩
  · have hne : b ≠ a := by
      unfold sizeof_header_s at hab
      omega
    obtain ⟨⟨n1, n2, n3, n4⟩, ⟨p1, p2, p3, p4⟩, ⟨s1, s2, s3, s4⟩, ⟨a1, a2, a3, a4⟩⟩ :=
      flat_store_frame m a b v c ha hb hab
    simp only [set_next_next, set_next_prev, set_next_size, set_next_allocated,
      set_prev_next, set_prev_prev, set_prev_size, set_prev_allocated,
      set_size_next, set_size_prev, set_size_size, set_size_allocated,
      set_allocated_next, set_allocated_prev, set_allocated_size, set_allocated_allocated,
      hne, if_false]
    exact ⟨⟨n1.trans d1, n2.trans d2, n3.trans d3, n4.trans d4⟩,
      ⟨p1.trans d1, p2.trans d2, p3.trans d3, p4.trans d4⟩,
      ⟨s1.trans d1, s2.trans d2, s3.trans d3, s4.trans d4⟩,
      ⟨a1.trans d1, a2.trans d2, a3.trans d3, a4.trans d4⟩⟩

/-! ### Recycled blocks and repeated collection -/

/-- A block recycled by `gc_new` keeps its old size.  With a fitting block on
the free list of a well-formed, initialised state, `gc_new(layout)` returns the
payload of the best fit; the header then carries the given layout and the size
it had on the free list. -/
theorem gc_new_recycled_keeps_size (heap fuel : Nat) (L : gc_layout_s) {s : State}
    {la lf : List Nat} (hwf : WF s la lf) (hinit : s.start_addr ≠ 0) (hn : 0 < L.size)
    (hfit : ∃ x ∈ lf, L.size ≤ (s.hdr x).size) (hfuel : lf.length ≤ fuel) :
    ∃ b s1, gc_new heap fuel L s = .ok (HEADER_TO_BLOCK b, s1) ∧ IsBestFit s.hdr L.size lf b ∧
      (s1.hdr b).size = (s.hdr b).size ∧ (s1.hdr b).layout = some L ∧
      s1.allocated_list_head = b := by
  obtain ⟨b, s2, hm, hbest, hwf2, hh, _⟩ := gc_malloc_best_fit heap fuel L.size hwf hinit hn hfit hfuel
  have hbd := hwf.bound b (List.mem_append_right _ (IsBestFit_mem hbest))
  have hrt := BLOCK_TO_HEADER_HEADER_TO_BLOCK b (lt_of_le_of_lt (Nat.le_add_right _ _) hbd)
  refine ⟨b, { s2 with hdr := set_layout s2.hdr b (some L) }, ?_, hbest, ?_, ?_, hwf2.alloc.1⟩
  · unfold gc_new
    rw [hm]
    dsimp only
    rw [hrt]
  · show (set_layout s2.hdr b (some L) b).size = _
    rw [set_layout_size, hh, take_hdr_size]
  · show (set_layout s2.hdr b (some L) b).layout = _
    rw [set_layout_layout, if_pos rfl]

/-- After a `gc()` that returned on a well-formed state, a second `gc()`
returns as well, given fuel for the blocks that survived the first. -/
theorem second_gc_returns {s s1 : State} {la lf : List Nat} {fuel : Nat} (fuel2 : Nat)
    (hwf : WF s la lf) (h1 : gc fuel s = .ok s1) (hf : la.length ≤ fuel2) :
    ∃ s2, gc fuel2 s1 = .ok s2 := by
  obtain ⟨s0, _, hwf1, hsp1, hr1⟩ := gc_spec hwf h1
  have hmarks : ∀ h ∈ la.filter (fun h => (s0.hdr h).marked), (s1.hdr h).marked = false := by
    intro h hh
    rw [hsp1.marked h, if_pos (List.mem_filter.1 hh).1]
  have hlen : (la.filter (fun h => (s0.hdr h).marked)).length ≤ fuel2 :=
    le_trans (List.length_filter_le _ _) hf
  obtain ⟨s2, h2, _⟩ := gc_null_roots fuel2 hwf1 hmarks
    (by rw [hr1]; intro r hr; cases hr) (by rw [hr1]; exact Nat.zero_le _) hlen
  exact ⟨s2, h2⟩

/-! ### The allocator in flat memory and on records -/

theorem flat_store8_byte (m : Nat → Nat) (a v : Nat) (hm : ∀ x, m x < 256) :
    ∀ x, Flat.store8 m a v x < 256 := by
  intro x
  unfold Flat.store8
  split_ifs
  · exact Nat.mod_lt _ (by decide)
  · exact hm x

theorem flat_store64_byte (m : Nat → Nat) (a v : Nat) (hm : ∀ x, m x < 256) :
    ∀ x, Flat.store64 m a v x < 256 := by
  unfold Flat.store64
  exact flat_store8_byte _ _ _ (flat_store8_byte _ _ _ (flat_store8_byte _ _ _
    (flat_store8_byte _ _ _ (flat_store8_byte _ _ _ (flat_store8_byte _ _ _
    (flat_store8_byte _ _ _ (flat_store8_byte _ _ _ hm)))))))

theorem flat_load64_lt (m : Nat → Nat) (a : Nat) (hm : ∀ x, m x < 256) : Flat.load64 m a < W := by
  unfold Flat.load64 Flat.load8 W
  have h0 := hm (wrap a)
  have h1 := hm (wrap (a + 1))
  have h2 := hm (wrap (a + 2))
  have h3 := hm (wrap (a + 3))
  have h4 := hm (wrap (a + 4))
  have h5 := hm (wrap (a + 5))
  have h6 := hm (wrap (a + 6))
  have h7 := hm (wrap (a + 7))
  omega

/-- The four header stores keep the records in step with memory, for a target
that is clear of the described headers. -/
theorem RepMem_store {m : Nat → Nat} {hdr : Nat → header_s} {L : List Nat} (a v : Nat) (c : Bool)
    (hr : Flat.RepMem m hdr L) (hc : Flat.Clear a L) (hv : v < W) :
    Flat.RepMem (Flat.set_next m a v) (set_next hdr a v) L ∧
      Flat.RepMem (Flat.set_prev m a v) (set_prev hdr a v) L ∧
      Flat.RepMem (Flat.set_size m a v) (set_size hdr a v) L ∧
      Flat.RepMem (Flat.set_allocated m a c) (set_allocated hdr a c) L := by
  obtain ⟨hm, hd⟩ := hr
  obtain ⟨ha, hL⟩ := hc
  have key := fun b (hb : b ∈ L) =>
    flat_store_describes m hdr a b v c ha (hL b hb).1 hv (hL b hb).2 (hd b hb)
  refine ⟨⟨?_, fun b hb => (key b hb).1⟩, ⟨?_, fun b hb => (key b hb).2.1⟩,
    ⟨?_, fun b hb => (key b hb).2.2.1⟩, ⟨?_, fun b hb => (key b hb).2.2.2⟩⟩
  · exact flat_store64_byte m a v hm
  · exact flat_store64_byte m (a + 8) v hm
  · exact flat_store64_byte m (a + 16) v hm
  · exact flat_store8_byte m (a + 24) _ hm

/-- The fields read through a described header are those of its record, and
they are below `2^64`. -/
theorem RepMem_read {m : Nat → Nat} {hdr : Nat → header_s} {L : List Nat} {h : Nat}
    (hr : Flat.RepMem m hdr L) (hh : h ∈ L) :
    Flat.next m h = (hdr h).next ∧ Flat.prev m h = (hdr h).prev ∧
      Flat.size m h = (hdr h).size ∧ Flat.allocated m h = (hdr h).allocated ∧
      (hdr h).next < W ∧ (hdr h).prev < W ∧ (hdr h).size < W := by
  obtain ⟨d1, d2, d3, d4⟩ := hr.2 h hh
  refine ⟨d1, d2, d3, d4, ?_, ?_, ?_⟩
  · rw [← d1]; exact flat_load64_lt _ _ hr.1
  · rw [← d2]; exact flat_load64_lt _ _ hr.1
  · rw [← d3]; exact flat_load64_lt _ _ hr.1

theorem NULL_lt_W : NULL < W := by decide

theorem RepMem_unlink {m : Nat → Nat} {hdr : Nat → header_s} {L : List Nat} {b : Nat}
    (hr : Flat.RepMem m hdr L) (hs : Flat.Spaced L) (hcl : Closed hdr L) (hb : b ∈ L) :
    Flat.RepMem (Flat.unlink m b) (unlink_hdr hdr b) L := by
  obtain ⟨r1, r2, _, _, v1, v2, _⟩ := RepMem_read hr hb
  obtain ⟨cn, cp⟩ := hcl b hb
  unfold Flat.unlink unlink_hdr
  dsimp only
  rw [r1, r2]
  by_cases hp : (hdr b).prev = NULL
  · rw [if_pos hp, if_pos hp, r1, r2]
    by_cases hn : (hdr b).next = NULL
    · rw [if_neg (not_not.2 hn), if_neg (not_not.2 hn)]
      exact hr
    · rw [if_pos hn, if_pos hn]
      have hnL : (hdr b).next ∈ L := cn.resolve_left hn
      exact (RepMem_store _ _ false hr (hs _ hnL) v2).2.1
  · rw [if_neg hp, if_neg hp]
    have hpL : (hdr b).prev ∈ L := cp.resolve_left hp
    have hr1 := (RepMem_store (hdr b).prev (hdr b).next false hr (hs _ hpL) v1).1
    obtain ⟨q1, q2, _⟩ := RepMem_read hr1 hb
    rw [q1, q2]
    have e1 : (set_next hdr (hdr b).prev (hdr b).next b).next = (hdr b).next := by
      rw [set_next_next]
      split_ifs <;> rfl
    have e2 : (set_next hdr (hdr b).prev (hdr b).next b).prev = (hdr b).prev :=
      set_next_prev _ _ _ _
    rw [e1, e2]
    by_cases hn : (hdr b).next = NULL
    · rw [if_neg (not_not.2 hn), if_neg (not_not.2 hn)]
      exact hr1
    · rw [if_pos hn, if_pos hn]
      have hnL : (hdr b).next ∈ L := cn.resolve_left hn
      exact (RepMem_store _ _ false hr1 (hs _ hnL) v2).2.1

theorem RepMem_push {m : Nat → Nat} {hdr : Nat → header_s} {L : List Nat} {b c : Nat}
    (hr : Flat.RepMem m hdr L) (hs : Flat.Spaced L) (hb : b ∈ L) (hc : c = NULL ∨ c ∈ L)
    (hcW : c < W) :
    Flat.RepMem (Flat.push m b c) (push_hdr hdr b c) L := by
  have hr1 := (RepMem_store b c false hr (hs _ hb) hcW).1
  have hr2 := (RepMem_store b NULL false hr1 (hs _ hb) NULL_lt_W).2.1
  obtain ⟨q1, _⟩ := RepMem_read hr2 hb
  unfold Flat.push push_hdr
  dsimp only
  rw [q1]
  have e1 : (set_prev (set_next hdr b c) b NULL b).next = c := by
    rw [set_prev_next, set_next_next, if_pos rfl]
  rw [e1]
  by_cases h0 : c = NULL
  · rw [if_neg (not_not.2 h0), if_neg (not_not.2 h0)]
    exact hr2
  · rw [if_pos h0, if_pos h0]
    have hbW : b < W := by
      have := (hs _ hb).1
      unfold sizeof_header_s at this
      omega
    exact (RepMem_store c b false hr2 (hs _ (hc.resolve_left h0)) hbW).2.1

theorem WF_closed {s : State} {la lf : List Nat} (hwf : WF s la lf) :
    Closed s.hdr (la ++ lf) := by
  have hna : la.Nodup := (List.nodup_append.1 hwf.nodup).1
  have hnf : lf.Nodup := (List.nodup_append.1 hwf.nodup).2.1
  intro h hh
  rcases List.mem_append.1 hh with ha | hf
  · constructor
    · rcases IsList_next_mem la _ _ h hwf.alloc ha with e | e
      · exact Or.inl e
      · exact Or.inr (List.mem_append_left _ e)
    · rcases IsList_prev_mem la _ _ h hwf.alloc hna ha with ⟨_, e⟩ | ⟨_, e⟩
      · exact Or.inl e
      · exact Or.inr (List.mem_append_left _ e)
  · constructor
    · rcases IsList_next_mem lf _ _ h hwf.free hf with e | e
      · exact Or.inl e
      · exact Or.inr (List.mem_append_right _ e)
    · rcases IsList_prev_mem lf _ _ h hwf.free hnf hf with ⟨_, e⟩ | ⟨_, e⟩
      · exact Or.inl e
      · exact Or.inr (List.mem_append_right _ e)

theorem WF_heads {s : State} {la lf : List Nat} (hwf : WF s la lf) :
    (s.allocated_list_head = NULL ∨ s.allocated_list_head ∈ la ++ lf) ∧
      (s.free_list_head = NULL ∨ s.free_list_head ∈ la ++ lf) := by
  constructor
  · have := hwf.alloc
    cases la with
    | nil => exact Or.inl this
    | cons y ys => exact Or.inr (by rw [this.1]; simp)
  · have := hwf.free
    cases lf with
    | nil => exact Or.inl this
    | cons y ys => exact Or.inr (by rw [this.1]; simp)

/-- The listed headers of a tidy state are clear of one another. -/
theorem Tidy_spaced {heap : Nat} {s : State} {la lf : List Nat} (ht : Tidy heap s la lf) :
    Flat.Spaced (la ++ lf) := by
  have hsym : Symmetric (Apart s.hdr) := fun _ _ h => Apart_symm h
  intro a ha
  refine ⟨le_of_lt (ht.wf.bound a ha), fun b hb => ⟨le_of_lt (ht.wf.bound b hb), ?_⟩⟩
  by_cases e : b = a
  · exact Or.inl e
  · right
    have := ht.apart.forall hsym ha hb (Ne.symm e)
    unfold Apart at this
    rcases this with h | h
    · left; omega
    · right; omega

theorem Rep_mono {f : Flat.State} {s : State} {L L1 : List Nat} (hr : Flat.Rep f s L)
    (h : ∀ x ∈ L1, x ∈ L) : Flat.Rep f s L1 :=
  ⟨hr.free_addr, hr.start_addr, hr.end_addr, hr.free_list_head, hr.allocated_list_head,
    hr.mem.1, fun x hx => hr.mem.2 x (h x hx)⟩

/-- The result of `gc_free` in flat memory on a non-null pointer whose header
is flagged allocated. -/
theorem flat_gc_free_eq (ptr : Nat) (f : Flat.State) (hp : ptr ≠ NULL)
    (ha : Flat.allocated f.mem (BLOCK_TO_HEADER ptr) = true) :
    Flat.gc_free ptr f = .ok { f with
      mem := Flat.set_allocated (Flat.push (Flat.set_next (Flat.set_prev
        (Flat.unlink f.mem (BLOCK_TO_HEADER ptr)) (BLOCK_TO_HEADER ptr) NULL)
        (BLOCK_TO_HEADER ptr) NULL) (BLOCK_TO_HEADER ptr) f.free_list_head)
        (BLOCK_TO_HEADER ptr) false
      allocated_list_head :=
        if Flat.prev f.mem (BLOCK_TO_HEADER ptr) = NULL then Flat.next f.mem (BLOCK_TO_HEADER ptr)
        else f.allocated_list_head
      free_list_head := BLOCK_TO_HEADER ptr } := by
  unfold Flat.gc_free
  rw [if_neg hp]
  simp only [ha, Bool.not_true, Bool.false_eq_true, if_false]
  rfl

/-- `gc_free` on the payload of a listed header: the flat-memory function
returns when the record function does, and the results agree. -/
theorem flat_gc_free_refines {f : Flat.State} {s s1 : State} {L : List Nat} {b : Nat}
    (hrep : Flat.Rep f s L) (hs : Flat.Spaced L) (hcl : Closed s.hdr L) (hb : b ∈ L)
    (hfl : s.free_list_head = NULL ∨ s.free_list_head ∈ L)
    (hp : HEADER_TO_BLOCK b ≠ NULL) (h : gc_free (HEADER_TO_BLOCK b) s = .ok s1) :
    ∃ f1, Flat.gc_free (HEADER_TO_BLOCK b) f = .ok f1 ∧ Flat.Rep f1 s1 L := by
  have hb40 := (hs b hb).1
  have hbW : b < W := by
    unfold sizeof_header_s at hb40
    omega
  have hrt := BLOCK_TO_HEADER_HEADER_TO_BLOCK b hbW
  obtain ⟨r1, r2, _, r4, _⟩ := RepMem_read hrep.mem hb
  rcases gc_free_cases h with ⟨e, _⟩ | ⟨_, hal, e⟩
  · exact absurd e hp
  rw [hrt] at hal e
  have hflW : s.free_list_head < W := by
    rcases hfl with e2 | e2
    · rw [e2]; exact NULL_lt_W
    · have := (hs _ e2).1
      unfold sizeof_header_s at this
      omega
  have hfa : Flat.allocated f.mem (BLOCK_TO_HEADER (HEADER_TO_BLOCK b)) = true := by
    rw [hrt, r4]; exact hal
  have hfeq := flat_gc_free_eq (HEADER_TO_BLOCK b) f hp hfa
  rw [hrt] at hfeq
  have m1 := RepMem_unlink hrep.mem hs hcl hb
  have m2 := (RepMem_store b NULL false m1 (hs _ hb) NULL_lt_W).2.1
  have m3 := (RepMem_store b NULL false m2 (hs _ hb) NULL_lt_W).1
  have m4 := RepMem_push m3 hs hb hfl hflW
  have m5 := (RepMem_store b 0 false m4 (hs _ hb) NULL_lt_W).2.2.2
  have halh : (if Flat.prev f.mem b = NULL then Flat.next f.mem b else f.allocated_list_head) =
      if (s.hdr b).prev = NULL then (s.hdr b).next else s.allocated_list_head := by
    rw [r1, r2, hrep.allocated_list_head]
  have hmem : Flat.RepMem (Flat.set_allocated (Flat.push (Flat.set_next (Flat.set_prev
        (Flat.unlink f.mem b) b NULL) b NULL) b f.free_list_head) b false)
      (free_hdr s.hdr b s.free_list_head) L := by
    rw [hrep.free_list_head]
    unfold free_hdr
    exact m5
  refine ⟨_, hfeq, ?_⟩
  subst e
  refine ⟨hrep.free_addr, hrep.start_addr, hrep.end_addr, rfl, ?_, ?_⟩
  · dsimp only
    exact halh
  · dsimp only
    exact hmem

/-- The best-fit search reads the same fields in flat memory as on the records,
as long as it walks described headers. -/
theorem flat_find_best {m : Nat → Nat} {hdr : Nat → header_s} {L : List Nat} (n : Nat)
    (hr : Flat.RepMem m hdr L) (hcl : Closed hdr L) :
    ∀ (fuel cur best : Nat), (cur = NULL ∨ cur ∈ L) → (best = NULL ∨ best ∈ L) →
      Flat.find_best m n fuel cur best = find_best hdr n fuel cur best
  | 0, cur, best, _, _ => rfl
  | fuel + 1, cur, best, hc, hbst => by
    unfold Flat.find_best find_best
    by_cases h0 : cur = NULL
    · rw [if_pos h0, if_pos h0]
    · rw [if_neg h0, if_neg h0]
      have hcL := hc.resolve_left h0
      obtain ⟨r1, _, r3, r4, _⟩ := RepMem_read hr hcL
      rw [r4, r3, r1]
      have hbsz : best ≠ NULL → Flat.size m best = (hdr best).size := fun hb =>
        (RepMem_read hr (hbst.resolve_left hb)).2.2.1
      have hcond : ((best = NULL ∧ n ≤ (hdr cur).size) ∨
          (best ≠ NULL ∧ n ≤ (hdr cur).size ∧ (hdr cur).size < Flat.size m best)) ↔
          ((best = NULL ∧ n ≤ (hdr cur).size) ∨
          (best ≠ NULL ∧ n ≤ (hdr cur).size ∧ (hdr cur).size < (hdr best).size)) := by
        by_cases hb : best = NULL
        · simp [hb]
        · rw [hbsz hb]
      by_cases hal : (hdr cur).allocated = true
      · simp only [hal, if_true]
      · simp only [hal, Bool.false_eq_true, if_false]
        simp only [hcond]
        by_cases hpick : (best = NULL ∧ n ≤ (hdr cur).size) ∨
            (best ≠ NULL ∧ n ≤ (hdr cur).size ∧ (hdr cur).size < (hdr best).size)
        · simp only [hpick, if_true, r3]
          split_ifs
          · rfl
          · exact flat_find_best n hr hcl fuel _ cur
              ((hcl cur hcL).1) (Or.inr hcL)
        · simp only [hpick, if_false]
          by_cases hb : best = NULL
          · simp only [hb, ne_eq, not_true_eq_false, false_and, if_false]
            exact flat_find_best n hr hcl fuel _ NULL ((hcl cur hcL).1) (Or.inl rfl)
          · rw [hbsz hb]
            split_ifs
            · rfl
            · exact flat_find_best n hr hcl fuel _ best ((hcl cur hcL).1) hbst

theorem flat_malloc_take_eq (b : Nat) (f : Flat.State) :
    Flat.malloc_take b f = { f with
      mem := Flat.set_allocated (Flat.set_next (Flat.set_prev (Flat.unlink f.mem b) b NULL)
        b NULL) b true
      free_list_head := if Flat.prev f.mem b = NULL then Flat.next f.mem b
        else f.free_list_head } := rfl

theorem flat_malloc_prepend_eq (p : Nat) (f : Flat.State) :
    Flat.malloc_prepend p f = (p, { f with
      mem := Flat.push f.mem (BLOCK_TO_HEADER p) f.allocated_list_head
      allocated_list_head := BLOCK_TO_HEADER p }) := rfl

theorem flat_malloc_bump_header_eq (n : Nat) (f : Flat.State) :
    Flat.malloc_bump_header n f = { f with
      mem := Flat.set_allocated (Flat.set_size (Flat.set_prev (Flat.set_next f.mem f.free_addr NULL)
        f.free_addr NULL) f.free_addr n) f.free_addr true } := rfl

/-- `gc_init` in flat memory and on records. -/
theorem flat_gc_init {heap : Nat} {f : Flat.State} {s s0 : State} {L : List Nat}
    (hrep : Flat.Rep f s L) (hi : gc_init heap s = .ok s0) :
    ∃ f0, Flat.gc_init heap f = .ok f0 ∧ Flat.Rep f0 s0 L := by
  unfold gc_init at hi
  unfold Flat.gc_init
  rw [hrep.start_addr]
  by_cases h1 : s.start_addr = 0
  · rw [if_pos h1] at hi ⊢
    by_cases h2 : heap = MAP_FAILED
    · rw [if_pos h2] at hi; cases hi
    · rw [if_neg h2] at hi ⊢
      injection hi with hi
      subst hi
      exact ⟨_, rfl, rfl, rfl, rfl, hrep.free_list_head, hrep.allocated_list_head, hrep.mem⟩
  · rw [if_neg h1] at hi ⊢
    injection hi with hi
    subst hi
    exact ⟨f, rfl, hrep⟩

/-- After the four stores of the bump branch the record at the frontier
describes the header there. -/
theorem flat_bump_describes (m : Nat → Nat) (hdr : Nat → header_s) (P n : Nat)
    (hP : P + sizeof_header_s ≤ W) (hn : n < W) :
    Flat.Describes
      (Flat.set_allocated (Flat.set_size (Flat.set_prev (Flat.set_next m P NULL) P NULL) P n)
        P true) P
      (set_allocated (set_size (set_prev (set_next hdr P NULL) P NULL) P n) P true P) := by
  obtain ⟨⟨n1, _, _, _⟩, _, _, _⟩ := flat_store_same m P NULL true hP NULL_lt_W
  obtain ⟨_, ⟨p1, p2, _, _⟩, _, _⟩ :=
    flat_store_same (Flat.set_next m P NULL) P NULL true hP NULL_lt_W
  obtain ⟨_, _, ⟨s1, s2, s3, _⟩, _⟩ :=
    flat_store_same (Flat.set_prev (Flat.set_next m P NULL) P NULL) P n true hP hn
  obtain ⟨_, _, _, ⟨a1, a2, a3, a4⟩⟩ :=
    flat_store_same (Flat.set_size (Flat.set_prev (Flat.set_next m P NULL) P NULL) P n) P n true
      hP hn
  refine ⟨?_, ?_, ?_, ?_⟩
  · rw [a1, s1, p1, n1]
    simp
  · rw [a2, s2, p2]
    simp
  · rw [a3, s3]
    simp
  · rw [a4]
    simp

theorem flat_gc_malloc_zero {heap fuel : Nat} {f f0 : Flat.State}
    (hi : Flat.gc_init heap f = .ok f0) :
    Flat.gc_malloc heap fuel 0 f = .ok (NULL, Flat.padded f0) := by
  unfold Flat.gc_malloc
  rw [hi]
  rfl

theorem flat_gc_malloc_take {heap fuel n r : Nat} {f f0 : Flat.State}
    (hi : Flat.gc_init heap f = .ok f0) (hn : n ≠ 0)
    (hf : Flat.find_best f0.mem n fuel f0.free_list_head NULL = .ok r) (hr : r ≠ NULL) :
    Flat.gc_malloc heap fuel n f =
      .ok (Flat.malloc_prepend (HEADER_TO_BLOCK r) (Flat.malloc_take r (Flat.padded f0))) := by
  unfold Flat.gc_malloc
  rw [hi]
  simp only [hn, if_false]
  have : Flat.find_best f0.mem n fuel f0.free_list_head NULL = .ok r := hf
  simp only [this, hr, ne_eq, not_false_eq_true, if_true]
  rfl

theorem flat_gc_malloc_fail {heap fuel n : Nat} {f f0 : Flat.State}
    (hi : Flat.gc_init heap f = .ok f0) (hn : n ≠ 0)
    (hf : Flat.find_best f0.mem n fuel f0.free_list_head NULL = .ok NULL)
    (hov : toSigned (wrap (HEADER_TO_BLOCK (Flat.padded f0).free_addr + n)) >
      toSigned f0.end_addr) :
    Flat.gc_malloc heap fuel n f = .ok (NULL, Flat.malloc_bump_header n (Flat.padded f0)) := by
  unfold Flat.gc_malloc
  rw [hi]
  simp only [hn, if_false]
  have : Flat.find_best f0.mem n fuel f0.free_list_head NULL = .ok NULL := hf
  simp only [this, ne_eq, not_true_eq_false, if_false]
  have hov2 : toSigned (wrap (HEADER_TO_BLOCK (wrap (f0.free_addr + padding f0.free_addr)) + n)) >
      toSigned (Flat.malloc_bump_header n
        { f0 with free_addr := wrap (f0.free_addr + padding f0.free_addr) }).end_addr := hov
  rw [if_pos hov2]
  rfl

theorem flat_gc_malloc_bump {heap fuel n : Nat} {f f0 : Flat.State}
    (hi : Flat.gc_init heap f = .ok f0) (hn : n ≠ 0)
    (hf : Flat.find_best f0.mem n fuel f0.free_list_head NULL = .ok NULL)
    (hov : ¬ toSigned (wrap (HEADER_TO_BLOCK (Flat.padded f0).free_addr + n)) >
      toSigned f0.end_addr) :
    Flat.gc_malloc heap fuel n f =
      .ok (Flat.malloc_prepend (HEADER_TO_BLOCK (Flat.padded f0).free_addr)
        { Flat.malloc_bump_header n (Flat.padded f0) with
          free_addr := wrap (HEADER_TO_BLOCK (Flat.padded f0).free_addr + n) }) := by
  unfold Flat.gc_malloc
  rw [hi]
  simp only [hn, if_false]
  have : Flat.find_best f0.mem n fuel f0.free_list_head NULL = .ok NULL := hf
  simp only [this, ne_eq, not_true_eq_false, if_false]
  have hov2 : ¬ toSigned (wrap (HEADER_TO_BLOCK (wrap (f0.free_addr + padding f0.free_addr)) + n)) >
      toSigned (Flat.malloc_bump_header n
        { f0 with free_addr := wrap (f0.free_addr + padding f0.free_addr) }).end_addr := hov
  rw [if_neg hov2]
  rfl

theorem Rep_padded {f : Flat.State} {s : State} {L : List Nat} (hr : Flat.Rep f s L) :
    Flat.Rep (Flat.padded f) (padded s) L := by
  refine ⟨?_, hr.start_addr, hr.end_addr, hr.free_list_head, hr.allocated_list_head, hr.mem⟩
  unfold Flat.padded padded
  dsimp only
  rw [hr.free_addr]

theorem flat_malloc_prepend_take (b : Nat) (f : Flat.State) (hb : b < W) :
    Flat.malloc_prepend (HEADER_TO_BLOCK b) (Flat.malloc_take b f) =
      (HEADER_TO_BLOCK b, { f with
        mem := Flat.push (Flat.set_allocated (Flat.set_next (Flat.set_prev
          (Flat.unlink f.mem b) b NULL) b NULL) b true) b f.allocated_list_head
        free_list_head := if Flat.prev f.mem b = NULL then Flat.next f.mem b
          else f.free_list_head
        allocated_list_head := b }) := by
  rw [flat_malloc_prepend_eq, flat_malloc_take_eq, BLOCK_TO_HEADER_HEADER_TO_BLOCK b hb]

theorem flat_malloc_prepend_bump (n P q : Nat) (f : Flat.State) (hP : P < W)
    (hf : f.free_addr = P) :
    Flat.malloc_prepend (HEADER_TO_BLOCK P) { Flat.malloc_bump_header n f with free_addr := q } =
      (HEADER_TO_BLOCK P, { f with
        free_addr := q
        mem := Flat.push (Flat.set_allocated (Flat.set_size (Flat.set_prev
          (Flat.set_next f.mem P NULL) P NULL) P n) P true) P f.allocated_list_head
        allocated_list_head := P }) := by
  subst hf
  rw [flat_malloc_prepend_eq, flat_malloc_bump_header_eq, BLOCK_TO_HEADER_HEADER_TO_BLOCK _ hP]

theorem malloc_prepend_bump (n P q : Nat) (s : State) (hP : P < W) (hf : s.free_addr = P) :
    malloc_prepend (HEADER_TO_BLOCK P) { malloc_bump_header n s with free_addr := q } =
      (HEADER_TO_BLOCK P, { s with
        free_addr := q
        hdr := push_hdr (set_allocated (set_size (set_prev
          (set_next s.hdr P NULL) P NULL) P n) P true) P s.allocated_list_head
        allocated_list_head := P }) := by
  unfold malloc_prepend
  rw [BLOCK_TO_HEADER_HEADER_TO_BLOCK P hP]
  subst hf
  rfl

/-- The four stores of the bump branch at a frontier that is clear of the
described headers. -/
theorem RepMem_bump {m : Nat → Nat} {hdr : Nat → header_s} {L : List Nat} (P n : Nat)
    (hr : Flat.RepMem m hdr L) (hc : Flat.Clear P L) (hn : n < W) :
    Flat.RepMem
      (Flat.set_allocated (Flat.set_size (Flat.set_prev (Flat.set_next m P NULL) P NULL) P n)
        P true)
      (set_allocated (set_size (set_prev (set_next hdr P NULL) P NULL) P n) P true) L := by
  have m1 := (RepMem_store P NULL false hr hc NULL_lt_W).1
  have m2 := (RepMem_store P NULL false m1 hc NULL_lt_W).2.1
  have m3 := (RepMem_store P n false m2 hc hn).2.2.1
  exact (RepMem_store P 0 true m3 hc NULL_lt_W).2.2.2

/-- The same stores make the frontier header a described one. -/
theorem RepMem_bump_cons {m : Nat → Nat} {hdr : Nat → header_s} {L : List Nat} (P n : Nat)
    (hr : Flat.RepMem m hdr L) (hc : Flat.Clear P L) (hn : n < W) :
    Flat.RepMem
      (Flat.set_allocated (Flat.set_size (Flat.set_prev (Flat.set_next m P NULL) P NULL) P n)
        P true)
      (set_allocated (set_size (set_prev (set_next hdr P NULL) P NULL) P n) P true) (P :: L) := by
  have h := RepMem_bump P n hr hc hn
  refine ⟨h.1, ?_⟩
  intro b hb
  rcases List.mem_cons.1 hb with e | e
  · rw [e]
    exact flat_bump_describes m hdr P n hc.1 hn
  · exact h.2 b e

theorem Spaced_cons {L : List Nat} {P : Nat} (hs : Flat.Spaced L) (hc : Flat.Clear P L) :
    Flat.Spaced (P :: L) := by
  intro a ha
  rcases List.mem_cons.1 ha with e | e
  · rw [e]
    refine ⟨hc.1, ?_⟩
    intro b hb
    rcases List.mem_cons.1 hb with e2 | e2
    · rw [e2]; exact ⟨hc.1, Or.inl rfl⟩
    · exact hc.2 b e2
  · refine ⟨(hs a e).1, ?_⟩
    intro b hb
    rcases List.mem_cons.1 hb with e2 | e2
    · rw [e2]
      refine ⟨hc.1, ?_⟩
      rcases (hc.2 a e).2 with h | h | h
      · exact Or.inl h.symm
      · exact Or.inr (Or.inr h)
      · exact Or.inr (Or.inl h)
    · exact (hs a e).2 b e2

/-- The padded frontier of a tidy state is clear of the listed headers. -/
theorem Tidy_clear {heap : Nat} {s : State} {la lf : List Nat} (ht : Tidy heap s la lf)
    (hP : s.free_addr + sizeof_header_s ≤ W) : Flat.Clear s.free_addr (la ++ lf) := by
  refine ⟨hP, fun b hb => ⟨le_of_lt (ht.wf.bound b hb), Or.inr (Or.inr ?_)⟩⟩
  have := ht.extent b hb
  omega

/-- `gc_malloc` in a tidy state with a request of at most `MAX_REQUEST` bytes:
the flat-memory function returns the pointer that the record function returns,
and the records of the result describe the listed headers, the new one
included, in the resulting memory. -/
theorem flat_gc_malloc_refines {heap fuel n p : Nat} {f : Flat.State} {s s1 : State}
    {la lf : List Nat} (hheap : heap ≠ 0) (hsmall : heap + HEAP_SIZE ≤ MAX_REQUEST)
    (hn : n ≤ MAX_REQUEST) (ht : Tidy heap s la lf) (hrep : Flat.Rep f s (la ++ lf))
    (h : gc_malloc heap fuel n s = .ok (p, s1)) :
    ∃ f1, Flat.gc_malloc heap fuel n f = .ok (p, f1) ∧ Flat.Rep f1 s1 (la ++ lf) ∧
      (p ≠ NULL → Flat.Rep f1 s1 (BLOCK_TO_HEADER p :: (la ++ lf))) := by
  obtain ⟨s0, hi, hc⟩ := gc_malloc_cases h
  obtain ⟨f0, hfi, hrep0⟩ := flat_gc_init hrep hi
  obtain ⟨ht0, hs0⟩ := Tidy_gc_init hheap hsmall ht hi
  obtain ⟨htp, h8, hle, hge⟩ := Tidy_padded hsmall ht0 hs0
  have hrp := Rep_padded hrep0
  have hsp := Tidy_spaced htp
  have hcl0 : Closed s0.hdr (la ++ lf) := WF_closed ht0.wf
  have hcl : Closed (padded s0).hdr (la ++ lf) := WF_closed htp.wf
  obtain ⟨hah, hfh⟩ := WF_heads htp.wf
  obtain ⟨_, hfh0⟩ := WF_heads ht0.wf
  have hend := ht0.end_le
  have hnW : n < W := by
    unfold MAX_REQUEST at hn
    unfold W
    omega
  have hb40 : (padded s0).free_addr + sizeof_header_s < W := by
    unfold MAX_REQUEST at hsmall
    unfold sizeof_header_s W
    omega
  have hPW : (padded s0).free_addr < W := lt_of_le_of_lt (Nat.le_add_right _ _) hb40
  have hclear : Flat.Clear (padded s0).free_addr (la ++ lf) := Tidy_clear htp (le_of_lt hb40)
  have hahW : (padded s0).allocated_list_head < W := by
    rcases hah with e | e
    · rw [e]; exact NULL_lt_W
    · exact lt_of_le_of_lt (Nat.le_add_right _ _) (htp.wf.bound _ e)
  have hsearch : Flat.find_best f0.mem n fuel f0.free_list_head NULL =
      find_best s0.hdr n fuel s0.free_list_head NULL := by
    rw [hrep0.free_list_head]
    exact flat_find_best n hrep0.mem hcl0 fuel _ NULL hfh0 (Or.inl rfl)
  rcases hc with ⟨hn0, hp0, e⟩ | ⟨hn0, r, hfb, hc⟩
  · subst hn0
    subst hp0
    subst e
    exact ⟨_, flat_gc_malloc_zero hfi, hrp, fun hne => absurd rfl hne⟩
  rw [← hsearch] at hfb
  rcases hc with ⟨hr, hc⟩ | ⟨hr, hov, hp0, e⟩ | ⟨hr, hov, hc⟩
  · have hmem : r ∈ lf := by
      rw [hsearch] at hfb
      rcases find_best_mem n fuel lf NULL s0.free_list_head NULL r ht0.wf.free hfb with e | hm
      · exact absurd e hr
      · exact hm.1
    have hrL : r ∈ la ++ lf := List.mem_append_right _ hmem
    have hbd := ht0.wf.bound r hrL
    have hbW : r < W := lt_of_le_of_lt (Nat.le_add_right _ _) hbd
    rw [malloc_prepend_take r (padded s0) hbW] at hc
    injection hc with hc1 hc2
    subst hc1
    subst hc2
    have hfl := flat_gc_malloc_take hfi hn0 hfb hr
    rw [flat_malloc_prepend_take r (Flat.padded f0) hbW] at hfl
    obtain ⟨r1, r2, _, _, _⟩ := RepMem_read hrp.mem hrL
    have m1 := RepMem_unlink hrp.mem hsp hcl hrL
    have m2 := (RepMem_store r NULL false m1 (hsp _ hrL) NULL_lt_W).2.1
    have m3 := (RepMem_store r NULL false m2 (hsp _ hrL) NULL_lt_W).1
    have m4 := (RepMem_store r 0 true m3 (hsp _ hrL) NULL_lt_W).2.2.2
    have m5 := RepMem_push m4 hsp hrL hah hahW
    have hflh : (if Flat.prev (Flat.padded f0).mem r = NULL then Flat.next (Flat.padded f0).mem r
        else (Flat.padded f0).free_list_head) =
        if ((padded s0).hdr r).prev = NULL then ((padded s0).hdr r).next
        else (padded s0).free_list_head := by
      rw [r1, r2, hrp.free_list_head]
    have hmem5 : Flat.RepMem (Flat.push (Flat.set_allocated (Flat.set_next (Flat.set_prev
          (Flat.unlink (Flat.padded f0).mem r) r NULL) r NULL) r true) r
          (Flat.padded f0).allocated_list_head)
        (take_hdr (padded s0).hdr r (padded s0).allocated_list_head) (la ++ lf) := by
      rw [hrp.allocated_list_head]
      unfold take_hdr
      exact m5
    have hrep1 : Flat.Rep { Flat.padded f0 with
        mem := Flat.push (Flat.set_allocated (Flat.set_next (Flat.set_prev
          (Flat.unlink (Flat.padded f0).mem r) r NULL) r NULL) r true) r
          (Flat.padded f0).allocated_list_head
        free_list_head := if Flat.prev (Flat.padded f0).mem r = NULL
          then Flat.next (Flat.padded f0).mem r else (Flat.padded f0).free_list_head
        allocated_list_head := r }
        { padded s0 with
          hdr := take_hdr (padded s0).hdr r (padded s0).allocated_list_head
          free_list_head := if ((padded s0).hdr r).prev = NULL then ((padded s0).hdr r).next
            else (padded s0).free_list_head
          allocated_list_head := r } (la ++ lf) := by
      refine ⟨hrp.free_addr, hrp.start_addr, hrp.end_addr, ?_, rfl, ?_⟩
      · dsimp only
        exact hflh
      · dsimp only
        exact hmem5
    refine ⟨_, hfl, hrep1, fun _ => Rep_mono hrep1 ?_⟩
    intro x hx
    rw [BLOCK_TO_HEADER_HEADER_TO_BLOCK r hbW] at hx
    rcases List.mem_cons.1 hx with e | e
    · rw [e]; exact hrL
    · exact e
  · subst hr
    subst hp0
    subst e
    have hov2 : toSigned (wrap (HEADER_TO_BLOCK (Flat.padded f0).free_addr + n)) >
        toSigned f0.end_addr := by
      rw [hrp.free_addr, hrep0.end_addr]
      exact hov
    have hfl := flat_gc_malloc_fail hfi hn0 hfb hov2
    have hmem1 : Flat.RepMem (Flat.malloc_bump_header n (Flat.padded f0)).mem
        (malloc_bump_header n (padded s0)).hdr (la ++ lf) := by
      rw [flat_malloc_bump_header_eq, malloc_bump_header_hdr]
      dsimp only
      rw [hrp.free_addr]
      exact RepMem_bump _ n hrp.mem hclear hnW
    refine ⟨_, hfl, ⟨hrp.free_addr, hrp.start_addr, hrp.end_addr, hrp.free_list_head,
      hrp.allocated_list_head, hmem1⟩, fun hne => absurd rfl hne⟩
  · subst hr
    have hov2 : ¬ toSigned (wrap (HEADER_TO_BLOCK (Flat.padded f0).free_addr + n)) >
        toSigned f0.end_addr := by
      rw [hrp.free_addr, hrep0.end_addr]
      exact hov
    have hfl := flat_gc_malloc_bump hfi hn0 hfb hov2
    rw [hrp.free_addr,
      flat_malloc_prepend_bump n (padded s0).free_addr _ (Flat.padded f0) hPW hrp.free_addr] at hfl
    rw [malloc_prepend_bump n (padded s0).free_addr _ (padded s0) hPW rfl] at hc
    injection hc with hc1 hc2
    subst hc1
    subst hc2
    have hsp1 := Spaced_cons hsp hclear
    have m1 := RepMem_bump_cons _ n hrp.mem hclear hnW
    have hah1 : (padded s0).allocated_list_head = NULL ∨
        (padded s0).allocated_list_head ∈ (padded s0).free_addr :: (la ++ lf) :=
      hah.imp id (List.mem_cons_of_mem _)
    have m2 := RepMem_push m1 hsp1 (List.mem_cons_self _ _) hah1 hahW
    have hmem2 : Flat.RepMem (Flat.push (Flat.set_allocated (Flat.set_size (Flat.set_prev
          (Flat.set_next (Flat.padded f0).mem (padded s0).free_addr NULL) (padded s0).free_addr
          NULL) (padded s0).free_addr n) (padded s0).free_addr true) (padded s0).free_addr
          (Flat.padded f0).allocated_list_head)
        (push_hdr (set_allocated (set_size (set_prev
          (set_next (padded s0).hdr (padded s0).free_addr NULL) (padded s0).free_addr NULL)
          (padded s0).free_addr n) (padded s0).free_addr true) (padded s0).free_addr
          (padded s0).allocated_list_head) ((padded s0).free_addr :: (la ++ lf)) := by
      rw [hrp.allocated_list_head]
      exact m2
    have hrep1 : Flat.Rep { Flat.padded f0 with
        free_addr := wrap (HEADER_TO_BLOCK (padded s0).free_addr + n)
        mem := Flat.push (Flat.set_allocated (Flat.set_size (Flat.set_prev
          (Flat.set_next (Flat.padded f0).mem (padded s0).free_addr NULL) (padded s0).free_addr
          NULL) (padded s0).free_addr n) (padded s0).free_addr true) (padded s0).free_addr
          (Flat.padded f0).allocated_list_head
        allocated_list_head := (padded s0).free_addr }
        { padded s0 with
          free_addr := wrap (HEADER_TO_BLOCK (padded s0).free_addr + n)
          hdr := push_hdr (set_allocated (set_size (set_prev
            (set_next (padded s0).hdr (padded s0).free_addr NULL) (padded s0).free_addr NULL)
            (padded s0).free_addr n) (padded s0).free_addr true) (padded s0).free_addr
            (padded s0).allocated_list_head
          allocated_list_head := (padded s0).free_addr }
        ((padded s0).free_addr :: (la ++ lf)) := by
      refine ⟨rfl, hrp.start_addr, hrp.end_addr, hrp.free_list_head, rfl, ?_⟩
      dsimp only
      exact hmem2
    refine ⟨_, hfl, Rep_mono hrep1 (fun x hx => List.mem_cons_of_mem _ hx), fun _ => ?_⟩
    rw [BLOCK_TO_HEADER_HEADER_TO_BLOCK _ hPW]
    exact hrep1

/-- At program start the flat image tracks the record state. -/
theorem flat_tracks_init (heap : Nat) (mem : Nat → Nat) :
    Flat.Tracks heap Flat.initial_state (initial_state mem) :=
  ⟨[], [], Tidy_init heap mem, rfl, rfl, rfl, rfl, rfl, fun _ => Nat.succ_pos _,
    fun _ h => (List.not_mem_nil _ h).elim⟩

/-- Without overflow `gc_malloc` on records is `gc_malloc` in flat memory: from
a tracked state the flat-memory function returns the same pointer, and the
result is tracked again. -/
theorem flat_tracks_gc_malloc {heap fuel n p : Nat} {f : Flat.State} {s s1 : State}
    (hheap : heap ≠ 0) (hsmall : heap + HEAP_SIZE ≤ MAX_REQUEST) (hn : n ≤ MAX_REQUEST)
    (ht : Flat.Tracks heap f s) (h : gc_malloc heap fuel n s = .ok (p, s1)) :
    ∃ f1, Flat.gc_malloc heap fuel n f = .ok (p, f1) ∧ Flat.Tracks heap f1 s1 := by
  obtain ⟨la, lf, ht, hrep⟩ := ht
  obtain ⟨f1, hf, hr, hr2⟩ := flat_gc_malloc_refines hheap hsmall hn ht hrep h
  refine ⟨f1, hf, ?_⟩
  rcases Tidy_gc_malloc hheap hsmall hn ht h with ⟨_, t⟩ | ⟨hp, b, hb, t | ⟨hm, t⟩⟩
  · exact ⟨_, _, t, hr⟩
  · refine ⟨_, _, t, ?_⟩
    have hbW : b < W :=
      lt_of_le_of_lt (Nat.le_add_right _ _) (t.wf.bound b (List.mem_cons_self _ _))
    have := hr2 hp
    rw [hb, BLOCK_TO_HEADER_HEADER_TO_BLOCK b hbW] at this
    exact this
  · refine ⟨_, _, t, Rep_mono hr ?_⟩
    intro x hx
    rcases List.mem_append.1 hx with e | e
    · rcases List.mem_cons.1 e with e2 | e2
      · rw [e2]; exact List.mem_append_right _ hm
      · exact List.mem_append_left _ e2
    · exact List.mem_append_right _ (List.mem_of_mem_erase e)

/-- The same for `gc_free` on `NULL` or on a block of the allocated list. -/
theorem flat_tracks_gc_free {heap p : Nat} {f : Flat.State} {s s1 : State}
    (ht : Flat.Tracks heap f s)
    (hp : p = NULL ∨ ∃ l h, IsList s.hdr NULL s.allocated_list_head l ∧ h ∈ l ∧
      p = HEADER_TO_BLOCK h)
    (h : gc_free p s = .ok s1) :
    ∃ f1, Flat.gc_free p f = .ok f1 ∧ Flat.Tracks heap f1 s1 := by
  obtain ⟨la, lf, ht, hrep⟩ := ht
  rcases hp with hp | ⟨l, b, hl, hb, hp⟩
  · subst hp
    have : s1 = s := by
      unfold gc_free at h
      rw [if_pos rfl] at h
      injection h with h
      exact h.symm
    subst this
    refine ⟨f, ?_, la, lf, ht, hrep⟩
    unfold Flat.gc_free
    rw [if_pos rfl]
  · have e := IsList_unique l la _ _ hl ht.wf.alloc
    rw [e] at hb
    subst hp
    have hbL : b ∈ la ++ lf := List.mem_append_left _ hb
    have hne := HEADER_TO_BLOCK_ne_null b (ht.wf.bound b hbL)
    obtain ⟨f1, hf, hr⟩ := flat_gc_free_refines hrep (Tidy_spaced ht) (WF_closed ht.wf) hbL
      (WF_heads ht.wf).2 hne h
    obtain ⟨s2, he, hwf2, hh2, e1, e2, e3, _⟩ := gc_free_WF ht.wf b hb
    rw [h] at he
    injection he with he
    subst he
    have hperm : (la.erase b ++ b :: lf).Perm (la ++ lf) :=
      List.perm_middle.trans ((List.perm_cons_erase hb).symm.append_right lf)
    exact ⟨f1, hf, _, _, Tidy_rearrange ht hwf2 hperm
      (fun x _ => by rw [hh2]; exact free_hdr_size _ _ _ _) e1 e2 e3,
      Rep_mono hr (fun x hx => hperm.mem_iff.1 hx)⟩

end BfGc
